import Mathlib

/-! Chess rules engine (`src/chess.cpp`): embedding and verified properties.

The C++ program keeps an 8x8 array of piece pointers, a turn colour, a
name-to-square index, a no-capture counter and six castling booleans.  The
embedding below follows the source function by function:

* coordinates are `Int` (the source uses `int`, and uses `-1` as a sentinel);
* a piece object is a record value; a pointer in the array becomes the record
  itself, which is exact as long as no object stands on two squares;
* read-only member functions are pure functions of the board;
* member functions that write the board (`wouldBeInCheck`, `isCheckmate`,
  `isStalemate`, `canCastle`, `makeMove`) return the board they leave behind;
* text written to `cout` is a list of `Message` values.
-/

namespace Chess

/-! ## Data model -/

/-- The enum `Color` (line 13). -/
inductive Color where
  | WHITE
  | BLACK
  deriving DecidableEq, Repr

/-- The dynamic type of a piece object: one of the six subclasses of `Piece`. -/
inductive PieceKind where
  | Pawn
  | Knight
  | Bishop
  | Rook
  | Queen
  | King
  deriving DecidableEq, Repr

/-- The fields of the base class `Piece` (lines 16-29) plus the subclass tag. -/
structure Piece where
  color : Color
  name : String
  symbol : String
  hasMoved : Bool
  value : Int
  kind : PieceKind
  deriving DecidableEq, Repr

/-- The virtual `getType()` of each subclass. -/
def Piece.getType (p : Piece) : String :=
  match p.kind with
  | .Pawn => "Pawn"
  | .Knight => "Knight"
  | .Bishop => "Bishop"
  | .Rook => "Rook"
  | .Queen => "Queen"
  | .King => "King"

/-- Constructor `Pawn(Color c)` (line 34). -/
def Pawn.new (c : Color) : Piece :=
  ⟨c, if c = .WHITE then "WP" else "BP", if c = .WHITE then "P" else "p", false, 1, .Pawn⟩

/-- Constructor `Knight(Color c)` (line 94). -/
def Knight.new (c : Color) : Piece :=
  ⟨c, if c = .WHITE then "WN" else "BN", if c = .WHITE then "N" else "n", false, 3, .Knight⟩

/-- Constructor `Bishop(Color c)` (line 125). -/
def Bishop.new (c : Color) : Piece :=
  ⟨c, if c = .WHITE then "WB" else "BB", if c = .WHITE then "B" else "b", false, 3, .Bishop⟩

/-- Constructor `Rook(Color c)` (line 163). -/
def Rook.new (c : Color) : Piece :=
  ⟨c, if c = .WHITE then "WR" else "BR", if c = .WHITE then "R" else "r", false, 5, .Rook⟩

/-- Constructor `Queen(Color c)` (line 200). -/
def Queen.new (c : Color) : Piece :=
  ⟨c, if c = .WHITE then "WQ" else "BQ", if c = .WHITE then "Q" else "q", false, 9, .Queen⟩

/-- Constructor `King(Color c)` (line 240). -/
def King.new (c : Color) : Piece :=
  ⟨c, if c = .WHITE then "WKG" else "BKG", if c = .WHITE then "K" else "k", false, 0, .King⟩

/-- A square, `pair<int,int>` of (row, column). -/
abbrev Sq := Int × Int

/-- The array `Piece* board[8][8]`; `none` is `nullptr`. -/
abbrev Board := Fin 8 → Fin 8 → Option Piece

/-- The bounds test `r >= 0 && r < 8 && c >= 0 && c < 8`. -/
def onBoard (r c : Int) : Bool :=
  decide (0 ≤ r) && decide (r < 8) && decide (0 ≤ c) && decide (c < 8)

/-- Read `board[r][c]`.  The source only reads inside the array; outside it the
read is undefined there and yields `none` here. -/
def Board.get (b : Board) (r c : Int) : Option Piece :=
  if h : 0 ≤ r ∧ r < 8 ∧ 0 ≤ c ∧ c < 8 then
    b ⟨r.toNat, by omega⟩ ⟨c.toNat, by omega⟩
  else none

/-- Write `board[r][c] = v`.  Outside the array the board is left as it is. -/
def Board.set (b : Board) (r c : Int) (v : Option Piece) : Board :=
  fun i j => if (i.val : Int) = r ∧ (j.val : Int) = c then v else b i j

/-- The board with every square `nullptr` (lines 298-302). -/
def Board.empty : Board := fun _ _ => none

/-- The squares in the order of the nested loops `for i in 0..7, for j in 0..7`. -/
def allSquares : List Sq :=
  (List.range 8).flatMap fun i => (List.range 8).map fun j => ((i : Int), (j : Int))

/-! ## Piece catalogue: `isValidMove` and `getPossibleMoves` of each subclass -/

/-- The source's `int direction = (color == WHITE) ? -1 : 1`. -/
def Pawn.direction (color : Color) : Int :=
  if color = .WHITE then -1 else 1

/-- `Pawn::isValidMove` (lines 36-60). -/
def Pawn.isValidMove (self : Piece) (frm dst : Sq) (board : Board) : Bool :=
  let fromRow := frm.1
  let fromCol := frm.2
  let toRow := dst.1
  let toCol := dst.2
  let direction := Pawn.direction self.color
  if fromCol = toCol then
    if toRow = fromRow + direction ∧ board.get toRow toCol = none then true
    else if self.hasMoved = false ∧ toRow = fromRow + 2 * direction ∧
        board.get toRow toCol = none ∧
        board.get (fromRow + direction) fromCol = none then true
    else false
  else if |fromCol - toCol| = 1 ∧ toRow = fromRow + direction then
    match board.get toRow toCol with
    | some q => if q.color ≠ self.color then true else false
    | none => false
  else false

/-- `Pawn::getPossibleMoves` (lines 62-86). -/
def Pawn.getPossibleMoves (self : Piece) (pos : Sq) (board : Board) : List Sq :=
  let row := pos.1
  let col := pos.2
  let direction := Pawn.direction self.color
  let forward : List Sq :=
    if 0 ≤ row + direction ∧ row + direction < 8 ∧
        board.get (row + direction) col = none then
      (row + direction, col) ::
        (if self.hasMoved = false ∧ 0 ≤ row + 2 * direction ∧ row + 2 * direction < 8 ∧
            board.get (row + 2 * direction) col = none then
          [(row + 2 * direction, col)]
        else [])
    else []
  let diagonal : List Sq :=
    [col - 1, col + 1].filterMap fun c =>
      if onBoard (row + direction) c then
        match board.get (row + direction) c with
        | some q => if q.color ≠ self.color then some (row + direction, c) else none
        | none => none
      else none
  forward ++ diagonal

/-- `Knight::isValidMove` (lines 96-100). -/
def Knight.isValidMove (frm dst : Sq) : Bool :=
  let rowDiff := |frm.1 - dst.1|
  let colDiff := |frm.2 - dst.2|
  decide ((rowDiff = 2 ∧ colDiff = 1) ∨ (rowDiff = 1 ∧ colDiff = 2))

/-- The table `knightMoves` (line 105). -/
def knightMoves : List (Int × Int) :=
  [(-2, -1), (-2, 1), (-1, -2), (-1, 2), (1, -2), (1, 2), (2, -1), (2, 1)]

/-- The loop body shared by `Knight::getPossibleMoves` and
`King::getPossibleMoves`: one step by each table entry, kept when it is on the
board and empty or held by the other colour. -/
def stepMoves (offsets : List (Int × Int)) (self : Piece) (pos : Sq) (board : Board) :
    List Sq :=
  offsets.filterMap fun d =>
    let newRow := pos.1 + d.1
    let newCol := pos.2 + d.2
    if onBoard newRow newCol then
      match board.get newRow newCol with
      | none => some (newRow, newCol)
      | some q => if q.color ≠ self.color then some (newRow, newCol) else none
    else none

/-- `Knight::getPossibleMoves` (lines 102-117). -/
def Knight.getPossibleMoves (self : Piece) (pos : Sq) (board : Board) : List Sq :=
  stepMoves knightMoves self pos board

/-- `Bishop::isValidMove` (lines 127-131). -/
def Bishop.isValidMove (frm dst : Sq) : Bool :=
  let rowDiff := |frm.1 - dst.1|
  let colDiff := |frm.2 - dst.2|
  decide (rowDiff = colDiff ∧ rowDiff > 0)

/-- The inner `while` loop of the sliding pieces (lines 141-152, 178-189,
218-229), entered at `(newRow, newCol)`.  The first argument is a step budget:
the loop leaves the board after at most eight steps, so a larger budget gives
the same list (`slide_budget`). -/
def slide (board : Board) (color : Color) (dr dc : Int) : Nat → Int → Int → List Sq
  | 0, _, _ => []
  | n + 1, newRow, newCol =>
    if onBoard newRow newCol then
      match board.get newRow newCol with
      | none => (newRow, newCol) :: slide board color dr dc n (newRow + dr) (newCol + dc)
      | some q => if q.color ≠ color then [(newRow, newCol)] else []
    else []

/-- The outer `for` loop of the sliding pieces over a table of directions. -/
def slideMoves (directions : List (Int × Int)) (self : Piece) (pos : Sq) (board : Board) :
    List Sq :=
  directions.flatMap fun d => slide board self.color d.1 d.2 8 (pos.1 + d.1) (pos.2 + d.2)

/-- The table `directions` of `Bishop::getPossibleMoves` (line 136). -/
def bishopDirections : List (Int × Int) := [(-1, -1), (-1, 1), (1, -1), (1, 1)]

/-- `Bishop::getPossibleMoves` (lines 133-155). -/
def Bishop.getPossibleMoves (self : Piece) (pos : Sq) (board : Board) : List Sq :=
  slideMoves bishopDirections self pos board

/-- `Rook::isValidMove` (lines 165-168). -/
def Rook.isValidMove (frm dst : Sq) : Bool :=
  decide ((frm.1 = dst.1 ∧ frm.2 ≠ dst.2) ∨ (frm.2 = dst.2 ∧ frm.1 ≠ dst.1))

/-- The table `directions` of `Rook::getPossibleMoves` (line 173). -/
def rookDirections : List (Int × Int) := [(-1, 0), (1, 0), (0, -1), (0, 1)]

/-- `Rook::getPossibleMoves` (lines 170-192). -/
def Rook.getPossibleMoves (self : Piece) (pos : Sq) (board : Board) : List Sq :=
  slideMoves rookDirections self pos board

/-- `Queen::isValidMove` (lines 202-208). -/
def Queen.isValidMove (frm dst : Sq) : Bool :=
  let rowDiff := |frm.1 - dst.1|
  let colDiff := |frm.2 - dst.2|
  decide ((frm.1 = dst.1 ∧ frm.2 ≠ dst.2) ∨ (frm.2 = dst.2 ∧ frm.1 ≠ dst.1) ∨
    (rowDiff = colDiff ∧ rowDiff > 0))

/-- The table `directions` of `Queen::getPossibleMoves` and
`King::getPossibleMoves` (lines 213, 251). -/
def queenDirections : List (Int × Int) :=
  [(-1, 0), (1, 0), (0, -1), (0, 1), (-1, -1), (-1, 1), (1, -1), (1, 1)]

/-- `Queen::getPossibleMoves` (lines 210-232). -/
def Queen.getPossibleMoves (self : Piece) (pos : Sq) (board : Board) : List Sq :=
  slideMoves queenDirections self pos board

/-- `King::isValidMove` (lines 242-246). -/
def King.isValidMove (frm dst : Sq) : Bool :=
  let rowDiff := |frm.1 - dst.1|
  let colDiff := |frm.2 - dst.2|
  decide (rowDiff ≤ 1 ∧ colDiff ≤ 1 ∧ (rowDiff ≠ 0 ∨ colDiff ≠ 0))

/-- `King::getPossibleMoves` (lines 248-263). -/
def King.getPossibleMoves (self : Piece) (pos : Sq) (board : Board) : List Sq :=
  stepMoves queenDirections self pos board

/-- Virtual dispatch of `piece->isValidMove(from, to, board)`. -/
def Piece.isValidMove (self : Piece) (frm dst : Sq) (board : Board) : Bool :=
  match self.kind with
  | .Pawn => Pawn.isValidMove self frm dst board
  | .Knight => Knight.isValidMove frm dst
  | .Bishop => Bishop.isValidMove frm dst
  | .Rook => Rook.isValidMove frm dst
  | .Queen => Queen.isValidMove frm dst
  | .King => King.isValidMove frm dst

/-- Virtual dispatch of `piece->getPossibleMoves(pos, board)`. -/
def Piece.getPossibleMoves (self : Piece) (pos : Sq) (board : Board) : List Sq :=
  match self.kind with
  | .Pawn => Pawn.getPossibleMoves self pos board
  | .Knight => Knight.getPossibleMoves self pos board
  | .Bishop => Bishop.getPossibleMoves self pos board
  | .Rook => Rook.getPossibleMoves self pos board
  | .Queen => Queen.getPossibleMoves self pos board
  | .King => King.getPossibleMoves self pos board

/-! ## The `Game` class -/

/-- The map `piecePositions` from piece name to square; only `find`, `clear`
and `operator[]` are used on it, so it is kept as its lookup function. -/
abbrev PosIndex := String → Option Sq

/-- The assignment `piecePositions[name] = sq`. -/
def PosIndex.insert (m : PosIndex) (name : String) (sq : Sq) : PosIndex :=
  fun k => if k = name then some sq else m k

/-- The data members of `Game` (lines 271-278). -/
structure Game where
  board : Board
  currentTurn : Color
  piecePositions : PosIndex
  moveHistory : List String
  movesSinceCapture : Int
  whiteKingMoved : Bool
  blackKingMoved : Bool
  whiteRookLeftMoved : Bool
  whiteRookRightMoved : Bool
  blackRookLeftMoved : Bool
  blackRookRightMoved : Bool

/-- The counters of `assignPieceNumbers` (lines 338-341), in the order pawn,
rook, knight, bishop, each for White and Black. -/
structure Counters where
  whitePawnCount : Nat
  blackPawnCount : Nat
  whiteRookCount : Nat
  blackRookCount : Nat
  whiteKnightCount : Nat
  blackKnightCount : Nat
  whiteBishopCount : Nat
  blackBishopCount : Nat

/-- One iteration of the loop body of `assignPieceNumbers` (lines 345-373). -/
def assignStep (st : Board × Counters) (sq : Sq) : Board × Counters :=
  let b := st.1
  let k := st.2
  match b.get sq.1 sq.2 with
  | none => st
  | some p =>
    match p.kind, p.color with
    | .Pawn, .WHITE =>
      (b.set sq.1 sq.2 (some { p with name := "WP" ++ toString k.whitePawnCount }),
        { k with whitePawnCount := k.whitePawnCount + 1 })
    | .Pawn, .BLACK =>
      (b.set sq.1 sq.2 (some { p with name := "BP" ++ toString k.blackPawnCount }),
        { k with blackPawnCount := k.blackPawnCount + 1 })
    | .Rook, .WHITE =>
      (b.set sq.1 sq.2 (some { p with name := "WR" ++ toString k.whiteRookCount }),
        { k with whiteRookCount := k.whiteRookCount + 1 })
    | .Rook, .BLACK =>
      (b.set sq.1 sq.2 (some { p with name := "BR" ++ toString k.blackRookCount }),
        { k with blackRookCount := k.blackRookCount + 1 })
    | .Knight, .WHITE =>
      (b.set sq.1 sq.2 (some { p with name := "WN" ++ toString k.whiteKnightCount }),
        { k with whiteKnightCount := k.whiteKnightCount + 1 })
    | .Knight, .BLACK =>
      (b.set sq.1 sq.2 (some { p with name := "BN" ++ toString k.blackKnightCount }),
        { k with blackKnightCount := k.blackKnightCount + 1 })
    | .Bishop, .WHITE =>
      (b.set sq.1 sq.2 (some { p with name := "WB" ++ toString k.whiteBishopCount }),
        { k with whiteBishopCount := k.whiteBishopCount + 1 })
    | .Bishop, .BLACK =>
      (b.set sq.1 sq.2 (some { p with name := "BB" ++ toString k.blackBishopCount }),
        { k with blackBishopCount := k.blackBishopCount + 1 })
    | _, _ => st

/-- `Game::assignPieceNumbers` (lines 336-376). -/
def assignPieceNumbers (b : Board) : Board :=
  (allSquares.foldl assignStep (b, ⟨1, 1, 1, 1, 1, 1, 1, 1⟩)).1

/-- `Game::updatePiecePositions` (lines 378-387). -/
def updatePiecePositions (b : Board) : PosIndex :=
  allSquares.foldl
    (fun m sq =>
      match b.get sq.1 sq.2 with
      | some p => m.insert p.name sq
      | none => m)
    (fun _ => none)

/-- The piece placement of `Game::initializeBoard` (lines 298-329), before the
pieces are numbered. -/
def placePieces : Board :=
  let b := Board.empty
  let b := b.set 0 0 (some (Rook.new .BLACK))
  let b := b.set 0 1 (some (Knight.new .BLACK))
  let b := b.set 0 2 (some (Bishop.new .BLACK))
  let b := b.set 0 3 (some (Queen.new .BLACK))
  let b := b.set 0 4 (some (King.new .BLACK))
  let b := b.set 0 5 (some (Bishop.new .BLACK))
  let b := b.set 0 6 (some (Knight.new .BLACK))
  let b := b.set 0 7 (some (Rook.new .BLACK))
  let b := (List.range 8).foldl (fun b i => b.set 1 (i : Int) (some (Pawn.new .BLACK))) b
  let b := (List.range 8).foldl (fun b i => b.set 6 (i : Int) (some (Pawn.new .WHITE))) b
  let b := b.set 7 0 (some (Rook.new .WHITE))
  let b := b.set 7 1 (some (Knight.new .WHITE))
  let b := b.set 7 2 (some (Bishop.new .WHITE))
  let b := b.set 7 3 (some (Queen.new .WHITE))
  let b := b.set 7 4 (some (King.new .WHITE))
  let b := b.set 7 5 (some (Bishop.new .WHITE))
  let b := b.set 7 6 (some (Knight.new .WHITE))
  let b := b.set 7 7 (some (Rook.new .WHITE))
  b

/-- The board built by `Game::initializeBoard` (lines 296-334). -/
def initializeBoard : Board :=
  assignPieceNumbers placePieces

/-- The constructor `Game()` (lines 281-286). -/
def Game.new : Game :=
  { board := initializeBoard
    currentTurn := .WHITE
    piecePositions := updatePiecePositions initializeBoard
    moveHistory := []
    movesSinceCapture := 0
    whiteKingMoved := false
    blackKingMoved := false
    whiteRookLeftMoved := false
    whiteRookRightMoved := false
    blackRookLeftMoved := false
    blackRookRightMoved := false }

/-- The sign computation `(d == 0) ? 0 : (d > 0) ? 1 : -1` (lines 426-427). -/
def dirOf (d : Int) : Int :=
  if d = 0 then 0 else if d > 0 then 1 else -1

/-- The `while` loop of `Game::isPathClear` (lines 432-438) with a step budget.
`some v` is the value returned; `none` means the budget ran out or the loop
read outside the array, where the source has no defined result. -/
def pathLoop (board : Board) (rowDir colDir : Int) (dst : Sq) : Nat → Int → Int → Option Bool
  | 0, _, _ => none
  | n + 1, currentRow, currentCol =>
    if currentRow ≠ dst.1 ∨ currentCol ≠ dst.2 then
      if onBoard currentRow currentCol then
        if board.get currentRow currentCol ≠ none then some false
        else pathLoop board rowDir colDir dst n (currentRow + rowDir) (currentCol + colDir)
      else none
    else some true

/-- `Game::isPathClear` (lines 422-441) as a partial function. -/
def Game.isPathClearRun (board : Board) (frm dst : Sq) : Option Bool :=
  let rowDiff := dst.1 - frm.1
  let colDiff := dst.2 - frm.2
  let rowDir := dirOf rowDiff
  let colDir := dirOf colDiff
  pathLoop board rowDir colDir dst 8 (frm.1 + rowDir) (frm.2 + colDir)

/-- `Game::isPathClear` (lines 422-441).  Every call in the source is made on
two squares of one row, column or diagonal, where `isPathClearRun` is defined
(`isPathClearRun_defined`); elsewhere the value here is `false`. -/
def Game.isPathClear (board : Board) (frm dst : Sq) : Bool :=
  (Game.isPathClearRun board frm dst).getD false

/-- The test of the loop in `Game::findKing` (lines 463-465): the square holds a
king of `color`. -/
def Game.isKingAt (board : Board) (color : Color) (sq : Sq) : Bool :=
  match board.get sq.1 sq.2 with
  | some p => decide (p.kind = .King) && decide (p.color = color)
  | none => false

/-- `Game::findKing` (lines 460-471). -/
def Game.findKing (board : Board) (color : Color) : Sq :=
  match allSquares.find? (Game.isKingAt board color) with
  | some sq => sq
  | none => (-1, -1)

/-- The test of the loop in `Game::isInCheck` (lines 449-451): the square holds
a piece of the other colour whose `isValidMove` reaches `kingPos`, by a clear
path unless it is a knight. -/
def Game.attacks (board : Board) (color : Color) (kingPos : Sq) (sq : Sq) : Bool :=
  match board.get sq.1 sq.2 with
  | some p =>
    decide (p.color ≠ color) &&
      (p.isValidMove sq kingPos board &&
        (decide (p.kind = .Knight) || Game.isPathClear board sq kingPos))
  | none => false

/-- `Game::isInCheck` (lines 443-458). -/
def Game.isInCheck (board : Board) (color : Color) : Bool :=
  let kingPos := Game.findKing board color
  if kingPos.1 = -1 then false
  else allSquares.any (Game.attacks board color kingPos)

/-- `Game::wouldBeInCheck` (lines 473-484): the answer and the board left
behind, every assignment to the array kept in source order. -/
def Game.wouldBeInCheck (board : Board) (frm dst : Sq) (color : Color) : Bool × Board :=
  let temp := board.get dst.1 dst.2
  let board := board.set dst.1 dst.2 (board.get frm.1 frm.2)
  let board := board.set frm.1 frm.2 none
  let inCheck := Game.isInCheck board color
  let board := board.set frm.1 frm.2 (board.get dst.1 dst.2)
  let board := board.set dst.1 dst.2 temp
  (inCheck, board)

/-- The innermost loop `for (auto move : moves)` of `isCheckmate` and
`isStalemate` (lines 493-497, 511-515): `true` in the first component means a
move with `!wouldBeInCheck` was found (the source returns `false` there). -/
def Game.tryMoves (color : Color) (frm : Sq) : List Sq → Board → Bool × Board
  | [], board => (false, board)
  | move :: rest, board =>
    let r := Game.wouldBeInCheck board frm move color
    if r.1 = false then (true, r.2) else Game.tryMoves color frm rest r.2

/-- The nested square loops of `isCheckmate` and `isStalemate` (lines 489-501,
507-519, the same text in both): the value the function returns after its
first line, and the board left behind. -/
def Game.scanMoves (color : Color) : List Sq → Board → Bool × Board
  | [], board => (true, board)
  | sq :: rest, board =>
    match board.get sq.1 sq.2 with
    | some p =>
      if p.color = color then
        let r := Game.tryMoves color sq (p.getPossibleMoves sq board) board
        if r.1 then (false, r.2) else Game.scanMoves color rest r.2
      else Game.scanMoves color rest board
    | none => Game.scanMoves color rest board

/-- `Game::isCheckmate` (lines 486-502). -/
def Game.isCheckmate (board : Board) (color : Color) : Bool × Board :=
  if Game.isInCheck board color = false then (false, board)
  else Game.scanMoves color allSquares board

/-- `Game::isStalemate` (lines 504-520). -/
def Game.isStalemate (board : Board) (color : Color) : Bool × Board :=
  if Game.isInCheck board color then (false, board)
  else Game.scanMoves color allSquares board

/-- `Game::isValidMove` (lines 522-546). -/
def Game.isValidMove (board : Board) (frm dst : Sq) : Bool :=
  if frm.1 < 0 ∨ frm.1 ≥ 8 ∨ frm.2 < 0 ∨ frm.2 ≥ 8 ∨
      dst.1 < 0 ∨ dst.1 ≥ 8 ∨ dst.2 < 0 ∨ dst.2 ≥ 8 then false
  else
    match board.get frm.1 frm.2 with
    | none => false
    | some piece =>
      if (match board.get dst.1 dst.2 with
          | some q => decide (q.color = piece.color)
          | none => false) then false
      else if piece.isValidMove frm dst board = false then false
      else if piece.kind ≠ .Knight ∧ Game.isPathClear board frm dst = false then false
      else true

/-- `Game::parseDirection` (lines 562-600).  `steps` is an `int` in the source;
on the board rows and columns are 0..7, so a sum that left the range of `int`
would still be off the board after wrapping, as it is here. -/
def Game.parseDirection (direction : String) (frm : Sq) (steps : Int) : Sq :=
  if direction = "up" then (frm.1 - steps, frm.2)
  else if direction = "down" then (frm.1 + steps, frm.2)
  else if direction = "left" then (frm.1, frm.2 - steps)
  else if direction = "right" then (frm.1, frm.2 + steps)
  else if direction = "slantrightup" then (frm.1 - steps, frm.2 + steps)
  else if direction = "slantleftup" then (frm.1 - steps, frm.2 - steps)
  else if direction = "slantrightdown" then (frm.1 + steps, frm.2 + steps)
  else if direction = "slantleftdown" then (frm.1 + steps, frm.2 - steps)
  else if direction = "upleft" then (frm.1 - 2, frm.2 - 1)
  else if direction = "upright" then (frm.1 - 2, frm.2 + 1)
  else if direction = "leftup" then (frm.1 - 1, frm.2 - 2)
  else if direction = "leftdown" then (frm.1 + 1, frm.2 - 2)
  else if direction = "rightup" then (frm.1 - 1, frm.2 + 2)
  else if direction = "rightdown" then (frm.1 + 1, frm.2 + 2)
  else if direction = "downleft" then (frm.1 + 2, frm.2 - 1)
  else if direction = "downright" then (frm.1 + 2, frm.2 + 1)
  else frm

/-- The integers of a loop `for (int i = lo; i <= hi; i++)`, in order. -/
def loopRange (lo hi : Int) : List Int :=
  (List.range (hi + 1 - lo).toNat).map fun k => lo + (k : Int)

/-- The loop `for (int i = start; i <= end; i++) if (board[row][i] != nullptr)
return false;` of `canCastle` (lines 614-616, 633-635): `true` when no square of
the range is occupied. -/
def Game.castlePathEmpty (board : Board) (row : Int) (cols : List Int) : Bool :=
  cols.all fun i => decide (board.get row i = none)

/-- The loop `for (int i = 4; i <= ...; i++) if (wouldBeInCheck({row, 4},
{row, i}, color)) return false;` of `canCastle` (lines 619-621, 638-640):
`true` when no call answered `true`, with the board left behind. -/
def Game.castleSafe (color : Color) (row : Int) : List Int → Board → Bool × Board
  | [], board => (true, board)
  | i :: rest, board =>
    let r := Game.wouldBeInCheck board (row, 4) (row, i) color
    if r.1 then (false, r.2) else Game.castleSafe color row rest r.2

/-- One colour branch of `Game::canCastle` (lines 604-621 for White with row 7,
lines 623-640 for Black with row 0; the two differ in the row and the three
booleans only). -/
def Game.canCastleRow (board : Board) (color : Color) (row : Int)
    (kingMoved rookLeftMoved rookRightMoved kingside : Bool) : Bool × Board :=
  if kingMoved then (false, board)
  else if kingside && rookRightMoved then (false, board)
  else if !kingside && rookLeftMoved then (false, board)
  else
    let rookCol : Int := if kingside then 7 else 0
    if (match board.get row rookCol with
        | none => true
        | some q => decide (q.kind ≠ .Rook)) then (false, board)
    else
      let start : Int := if kingside then 5 else 1
      let stop : Int := if kingside then 6 else 3
      if Game.castlePathEmpty board row (loopRange start stop) = false then (false, board)
      else Game.castleSafe color row (loopRange 4 (if kingside then 6 else 2)) board

/-- `Game::canCastle` (lines 602-644): the answer and the board left behind. -/
def Game.canCastle (g : Game) (color : Color) (kingside : Bool) : Bool × Board :=
  if color = .WHITE then
    Game.canCastleRow g.board color 7 g.whiteKingMoved g.whiteRookLeftMoved
      g.whiteRookRightMoved kingside
  else
    Game.canCastleRow g.board color 0 g.blackKingMoved g.blackRookLeftMoved
      g.blackRookRightMoved kingside

/-- The lines `makeMove` writes to `cout`. -/
inductive Message where
  | pieceNotFound (pieceCode : String)
  | notYourTurn
  | cannotCastle
  | outOfBounds
  | invalidMove
  | pathBlocked
  | leavesKingInCheck
  | captured (name : String) (type : String)
  | check
  | checkmate (winner : Color)
  | stalemate
  | fiftyMoveDraw
  deriving DecidableEq, Repr

/-- The text of each line, as in the source. -/
def Message.text : Message → String
  | .pieceNotFound pieceCode => "\n*** ERROR: Piece '" ++ pieceCode ++ "' not found! ***\n"
  | .notYourTurn => "\n*** ERROR: It's not your turn! ***\n"
  | .cannotCastle => "\n*** ERROR: Cannot castle! ***\n"
  | .outOfBounds => "\n*** ERROR: Invalid move - out of bounds! ***\n"
  | .invalidMove => "\n*** ERROR: Invalid move! ***\n"
  | .pathBlocked => "\n*** ERROR: Path blocked! ***\n"
  | .leavesKingInCheck => "\n*** ERROR: Move would leave king in check! ***\n"
  | .captured name type => "\n*** SUCCESS: You captured " ++ name ++ " (" ++ type ++ ")! ***\n"
  | .check => "\n*** CHECK! ***\n"
  | .checkmate winner =>
    "\n*** CHECKMATE! " ++ (if winner = .WHITE then "White" else "Black") ++ " wins! ***\n"
  | .stalemate => "\n*** STALEMATE! It's a draw! ***\n"
  | .fiftyMoveDraw => "\n*** DRAW by 50-move rule! ***\n"

/-- The lines that start with `*** ERROR:`; each is written on a path of
`makeMove` that returns without committing a move. -/
def Message.isError : Message → Bool
  | .pieceNotFound _ => true
  | .notYourTurn => true
  | .cannotCastle => true
  | .outOfBounds => true
  | .invalidMove => true
  | .pathBlocked => true
  | .leavesKingInCheck => true
  | _ => false

/-- What one call of `makeMove` produces: the returned `bool` (game over), the
lines written to `cout`, and the object state afterwards. -/
structure MoveResult where
  gameOver : Bool
  output : List Message
  state : Game

/-- A call is rejected when it wrote an error line. -/
def MoveResult.rejected (r : MoveResult) : Bool :=
  r.output.any Message.isError

/-- The opposite colour, `(currentTurn == WHITE) ? BLACK : WHITE`. -/
def Color.opposite (c : Color) : Color :=
  if c = .WHITE then .BLACK else .WHITE

/-- The tail of `makeMove` after a commit (lines 710-730 for castling, lines
785-805 for a normal move; the same text): `g` is the state after
`updatePiecePositions`, `out` what has been written so far. -/
def Game.finishMove (g : Game) (out : List Message) : MoveResult :=
  let oppositeColor := g.currentTurn.opposite
  if Game.isInCheck g.board oppositeColor then
    let out := out ++ [.check]
    let r := Game.isCheckmate g.board oppositeColor
    let g := { g with board := r.2 }
    if r.1 then ⟨true, out ++ [.checkmate g.currentTurn], g⟩
    else if g.movesSinceCapture ≥ 100 then ⟨true, out ++ [.fiftyMoveDraw], g⟩
    else ⟨false, out, { g with currentTurn := oppositeColor }⟩
  else
    let r := Game.isStalemate g.board oppositeColor
    let g := { g with board := r.2 }
    if r.1 then ⟨true, out ++ [.stalemate], g⟩
    else if g.movesSinceCapture ≥ 100 then ⟨true, out ++ [.fiftyMoveDraw], g⟩
    else ⟨false, out, { g with currentTurn := oppositeColor }⟩

/-- The castling branch of `makeMove` after `canCastle` has answered `true`
(lines 670-708): rook first, then the king, the booleans, the index.  The
write `piece->hasMoved = true` changes the object that `board[to]` points to, so
the record stored on `to` carries it. -/
def Game.commitCastle (g : Game) (frm : Sq) (piece : Piece) (kingside : Bool) : Game :=
  let row : Int := if g.currentTurn = .WHITE then 7 else 0
  let dst : Sq := (row, if kingside then 6 else 2)
  let board :=
    if kingside then (g.board.set row 5 (g.board.get row 7)).set row 7 none
    else (g.board.set row 3 (g.board.get row 0)).set row 0 none
  let board := board.set dst.1 dst.2 (some { piece with hasMoved := true })
  let board := board.set frm.1 frm.2 none
  let g := { g with board := board }
  let g :=
    if g.currentTurn = .WHITE then
      if kingside then { g with whiteKingMoved := true, whiteRookRightMoved := true }
      else { g with whiteKingMoved := true, whiteRookLeftMoved := true }
    else
      if kingside then { g with blackKingMoved := true, blackRookRightMoved := true }
      else { g with blackKingMoved := true, blackRookLeftMoved := true }
  { g with piecePositions := updatePiecePositions g.board }

/-- The commit of a normal move (lines 756-783): counter, relocation,
`hasMoved` (carried by the record stored on `to`), castling booleans, index.
The second component is the capture line when one is written. -/
def Game.commitMove (g : Game) (frm dst : Sq) (piece : Piece) : Game × List Message :=
  let captured := g.board.get dst.1 dst.2
  let out : List Message :=
    match captured with
    | some q => [.captured q.name q.getType]
    | none => []
  let g :=
    match captured with
    | some _ => { g with movesSinceCapture := 0 }
    | none => { g with movesSinceCapture := g.movesSinceCapture + 1 }
  let board := g.board.set dst.1 dst.2 (some { piece with hasMoved := true })
  let board := board.set frm.1 frm.2 none
  let g := { g with board := board }
  let g :=
    if piece.kind = .King then
      if g.currentTurn = .WHITE then { g with whiteKingMoved := true }
      else { g with blackKingMoved := true }
    else if piece.kind = .Rook then
      if g.currentTurn = .WHITE then
        if frm.2 = 0 then { g with whiteRookLeftMoved := true }
        else if frm.2 = 7 then { g with whiteRookRightMoved := true }
        else g
      else
        if frm.2 = 0 then { g with blackRookLeftMoved := true }
        else if frm.2 = 7 then { g with blackRookRightMoved := true }
        else g
    else g
  ({ g with piecePositions := updatePiecePositions g.board }, out)

/-- `Game::makeMove` (lines 646-806).  `none` stands for the one place where the
source has no defined result: `piece->color` when the index names a square that
holds no piece. -/
def Game.makeMove (g : Game) (pieceCode direction : String) (steps : Int) :
    Option MoveResult :=
  match g.piecePositions pieceCode with
  | none => some ⟨false, [.pieceNotFound pieceCode], g⟩
  | some frm =>
    match g.board.get frm.1 frm.2 with
    | none => none
    | some piece =>
      if piece.color ≠ g.currentTurn then some ⟨false, [.notYourTurn], g⟩
      else if piece.kind = .King ∧ (direction = "castle-left" ∨ direction = "castle-right") then
        let kingside := decide (direction = "castle-right")
        let r := Game.canCastle g g.currentTurn kingside
        let g := { g with board := r.2 }
        if r.1 = false then some ⟨false, [.cannotCastle], g⟩
        else some (Game.finishMove (Game.commitCastle g frm piece kingside) [])
      else
        let dst := Game.parseDirection direction frm steps
        if dst.1 < 0 ∨ dst.1 ≥ 8 ∨ dst.2 < 0 ∨ dst.2 ≥ 8 then
          some ⟨false, [.outOfBounds], g⟩
        else if Game.isValidMove g.board frm dst = false then
          some ⟨false, [.invalidMove], g⟩
        else if piece.kind ≠ .Knight ∧ Game.isPathClear g.board frm dst = false then
          some ⟨false, [.pathBlocked], g⟩
        else
          let r := Game.wouldBeInCheck g.board frm dst g.currentTurn
          let g := { g with board := r.2 }
          if r.1 then some ⟨false, [.leavesKingInCheck], g⟩
          else
            let c := Game.commitMove g frm dst piece
            some (Game.finishMove c.1 c.2)

/-! ## Definitions used to state the properties -/

/-- The board as `wouldBeInCheck` has it while it asks `isInCheck`: the
occupant of `frm` stands on `dst` and `frm` is empty (lines 474-476). -/
def Board.relocate (b : Board) (frm dst : Sq) : Board :=
  (b.set dst.1 dst.2 (b.get frm.1 frm.2)).set frm.1 frm.2 none

/-- No piece of `color` has an entry in its `getPossibleMoves` list after which
`isInCheck color` is false: the search of `isCheckmate` and `isStalemate`
written without the writes to the board. -/
def Game.noEscape (b : Board) (color : Color) : Bool :=
  allSquares.all fun sq =>
    match b.get sq.1 sq.2 with
    | some p =>
      decide (p.color ≠ color) ||
        (p.getPossibleMoves sq b).all fun m => Game.isInCheck (b.relocate sq m) color
    | none => true

/-- The position index matches the board: a name is indexed at a square exactly
when that square is on the board and holds a piece of that name.  This is what
`updatePiecePositions` establishes on a board whose pieces have distinct names. -/
def IndexMatches (g : Game) : Prop :=
  ∀ (code : String) (sq : Sq),
    g.piecePositions code = some sq ↔
      (onBoard sq.1 sq.2 = true ∧ ∃ p, g.board.get sq.1 sq.2 = some p ∧ p.name = code)

/-- Two boards agree up to the `hasMoved` flag of the pieces of `color`: the
same squares are occupied, by pieces of the same colour and kind, and pieces of
the other colour are the same records. -/
def AgreeUpToMoved (color : Color) (b1 b2 : Board) : Prop :=
  ∀ r c : Int,
    match b1.get r c, b2.get r c with
    | none, none => True
    | some p, some q => p.color = q.color ∧ p.kind = q.kind ∧ (p.color ≠ color → p = q)
    | _, _ => False

/-- The start position written out square by square; `initializeBoard_eq` shows
that `initializeBoard` builds exactly this board. -/
def startRows : List (List (Option Piece)) :=
  [[some ⟨.BLACK, "BR1", "r", false, 5, .Rook⟩,
    some ⟨.BLACK, "BN1", "n", false, 3, .Knight⟩,
    some ⟨.BLACK, "BB1", "b", false, 3, .Bishop⟩,
    some ⟨.BLACK, "BQ", "q", false, 9, .Queen⟩,
    some ⟨.BLACK, "BKG", "k", false, 0, .King⟩,
    some ⟨.BLACK, "BB2", "b", false, 3, .Bishop⟩,
    some ⟨.BLACK, "BN2", "n", false, 3, .Knight⟩,
    some ⟨.BLACK, "BR2", "r", false, 5, .Rook⟩],
   [some ⟨.BLACK, "BP1", "p", false, 1, .Pawn⟩,
    some ⟨.BLACK, "BP2", "p", false, 1, .Pawn⟩,
    some ⟨.BLACK, "BP3", "p", false, 1, .Pawn⟩,
    some ⟨.BLACK, "BP4", "p", false, 1, .Pawn⟩,
    some ⟨.BLACK, "BP5", "p", false, 1, .Pawn⟩,
    some ⟨.BLACK, "BP6", "p", false, 1, .Pawn⟩,
    some ⟨.BLACK, "BP7", "p", false, 1, .Pawn⟩,
    some ⟨.BLACK, "BP8", "p", false, 1, .Pawn⟩],
   [none, none, none, none, none, none, none, none],
   [none, none, none, none, none, none, none, none],
   [none, none, none, none, none, none, none, none],
   [none, none, none, none, none, none, none, none],
   [some ⟨.WHITE, "WP1", "P", false, 1, .Pawn⟩,
    some ⟨.WHITE, "WP2", "P", false, 1, .Pawn⟩,
    some ⟨.WHITE, "WP3", "P", false, 1, .Pawn⟩,
    some ⟨.WHITE, "WP4", "P", false, 1, .Pawn⟩,
    some ⟨.WHITE, "WP5", "P", false, 1, .Pawn⟩,
    some ⟨.WHITE, "WP6", "P", false, 1, .Pawn⟩,
    some ⟨.WHITE, "WP7", "P", false, 1, .Pawn⟩,
    some ⟨.WHITE, "WP8", "P", false, 1, .Pawn⟩],
   [some ⟨.WHITE, "WR1", "R", false, 5, .Rook⟩,
    some ⟨.WHITE, "WN1", "N", false, 3, .Knight⟩,
    some ⟨.WHITE, "WB1", "B", false, 3, .Bishop⟩,
    some ⟨.WHITE, "WQ", "Q", false, 9, .Queen⟩,
    some ⟨.WHITE, "WKG", "K", false, 0, .King⟩,
    some ⟨.WHITE, "WB2", "B", false, 3, .Bishop⟩,
    some ⟨.WHITE, "WN2", "N", false, 3, .Knight⟩,
    some ⟨.WHITE, "WR2", "R", false, 5, .Rook⟩]]

/-- The board whose rows are `startRows`. -/
def startBoard : Board :=
  fun i j => (startRows.getD i.val []).getD j.val none

/-- No two squares of the board hold pieces of the same name (a decidable
check over the 64 squares). -/
def namesDistinct (b : Board) : Bool :=
  allSquares.all fun s1 =>
    allSquares.all fun s2 =>
      match b.get s1.1 s1.2, b.get s2.1 s2.2 with
      | some p1, some p2 => decide (p1.name = p2.name → s1 = s2)
      | _, _ => true

/-- The test of `updatePiecePositions` and of a lookup by name: the square holds
a piece called `code`. -/
def holdsName (b : Board) (code : String) (sq : Sq) : Bool :=
  match b.get sq.1 sq.2 with
  | some p => decide (p.name = code)
  | none => false

/-- Row-major order of squares: `s` comes before `k` in the scan of the nested
loops. -/
def rowMajorLt (s k : Sq) : Bool :=
  decide (s.1 < k.1 ∨ (s.1 = k.1 ∧ s.2 < k.2))

/-- The square `k` holds a king of `color` and no square before it in row-major
order does: the king square the claims speak of. -/
def IsFirstKing (b : Board) (color : Color) (k : Sq) : Prop :=
  onBoard k.1 k.2 = true ∧
  (∃ p, b.get k.1 k.2 = some p ∧ p.kind = .King ∧ p.color = color) ∧
  ∀ s : Sq, (∃ p, b.get s.1 s.2 = some p ∧ p.kind = .King ∧ p.color = color) →
    rowMajorLt s k = false

/-- The home row of a colour: row 7 for White, row 0 for Black. -/
def homeRow (c : Color) : Int :=
  if c = .WHITE then 7 else 0

/-- The king-moved boolean of a colour. -/
def Game.kingMoved (g : Game) (c : Color) : Bool :=
  if c = .WHITE then g.whiteKingMoved else g.blackKingMoved

/-- The rook-moved boolean of a colour and side (`kingside` is the right rook). -/
def Game.rookMoved (g : Game) (c : Color) (kingside : Bool) : Bool :=
  if c = .WHITE then
    if kingside then g.whiteRookRightMoved else g.whiteRookLeftMoved
  else
    if kingside then g.blackRookRightMoved else g.blackRookLeftMoved

/-- The columns strictly between the king's home square and the corner of the
chosen side. -/
def castleBetween (kingside : Bool) : List Int :=
  if kingside then [5, 6] else [1, 2, 3]

/-- None of the six castling booleans goes from `true` in `g` to `false` in
`g2`. -/
def FlagsKept (g g2 : Game) : Prop :=
  (g.whiteKingMoved = true → g2.whiteKingMoved = true) ∧
  (g.blackKingMoved = true → g2.blackKingMoved = true) ∧
  (g.whiteRookLeftMoved = true → g2.whiteRookLeftMoved = true) ∧
  (g.whiteRookRightMoved = true → g2.whiteRookRightMoved = true) ∧
  (g.blackRookLeftMoved = true → g2.blackRookLeftMoved = true) ∧
  (g.blackRookRightMoved = true → g2.blackRookRightMoved = true)

/-- The state `g2` is what a sequence of `makeMove` calls (accepted or not, any
arguments) makes of the state `g`. -/
inductive Calls : Game → Game → Prop where
  | none (g : Game) : Calls g g
  | more (g g1 : Game) (pieceCode direction : String) (steps : Int) (r : MoveResult) :
      Calls g g1 → g1.makeMove pieceCode direction steps = some r → Calls g r.state

/-- The states reachable from the new game by `makeMove` calls none of which
reported game over, as the loop of `play` issues them (lines 867-873). -/
inductive Reachable : Game → Prop where
  | start : Reachable Game.new
  | call (g : Game) (pieceCode direction : String) (steps : Int) (r : MoveResult) :
      Reachable g → g.makeMove pieceCode direction steps = some r → r.gameOver = false →
      Reachable r.state

/-- A list of `makeMove` calls (piece code, direction, steps) made one after the
other, each of them accepted and none reporting game over; `none` otherwise. -/
def Game.playMoves (g : Game) : List (String × String × Int) → Option Game
  | [] => some g
  | m :: rest =>
    match g.makeMove m.1 m.2.1 m.2.2 with
    | some r => if r.rejected || r.gameOver then none else Game.playMoves r.state rest
    | none => none

/-- Six calls from the new game (e4 e5, Nf3 Nc6, Bc4 Bc5) after which White's
king and right rook are unmoved and (7,5), (7,6) are empty. -/
def castleGame : List (String × String × Int) :=
  [("WP5", "up", 2), ("BP5", "down", 2), ("WN2", "upleft", 1), ("BN1", "downright", 1),
   ("WB2", "slantleftup", 3), ("BB2", "slantleftdown", 3)]

/-- Eight calls from the new game (e4 e5, Nf3 Nc6, Bc4 Bc5, d3 Bb4) after which
the black bishop on (4,1) gives check to the white king on (7,4). -/
def checkGame : List (String × String × Int) :=
  castleGame ++ [("WP4", "up", 1), ("BB2", "slantleftdown", 1)]

/-- Ten calls from the new game (d4 g6, b3 Bh6, Bb2 a6, Nc3 a5, Qd3 b6) after
which (7,1), (7,2), (7,3) are empty and the black bishop on (2,7) bears on
(7,2). -/
def queensideGame : List (String × String × Int) :=
  [("WP4", "up", 2), ("BP7", "down", 1), ("WP2", "up", 1), ("BB2", "slantrightdown", 2),
   ("WB1", "slantleftup", 1), ("BP1", "down", 1), ("WN1", "upright", 1), ("BP1", "down", 1),
   ("WQ", "up", 2), ("BP2", "down", 1)]

/-- Six calls from the new game (a4 h6, Ra3 h5, Rh3 g6) after which White's
left rook stands on (5,7) and the right rook has not moved. -/
def rookGame : List (String × String × Int) :=
  [("WP1", "up", 2), ("BP8", "down", 1), ("WR1", "up", 2), ("BP8", "down", 1),
   ("WR1", "right", 7), ("BP7", "down", 1)]

/-- Eight calls from the new game (g3 b6, Bh3 Ba6, Nf3 h6, e4 h5) after which
White's king and right rook are unmoved, (7,5) and (7,6) are empty and the black
bishop on (2,0) bears on (7,5). -/
def attackedPathGame : List (String × String × Int) :=
  [("WP7", "up", 1), ("BP2", "down", 1), ("WB2", "slantrightup", 2),
   ("BB1", "slantleftdown", 2), ("WN2", "upleft", 1), ("BP8", "down", 1),
   ("WP5", "up", 2), ("BP8", "down", 1)]

/-- The first six calls of the Scholar's mate (e4 e5, Bc4 Nc6, Qh5 Nf6). -/
def scholarsOpening : List (String × String × Int) :=
  [("WP5", "up", 2), ("BP5", "down", 2), ("WB2", "slantleftup", 3), ("BN1", "downright", 1),
   ("WQ", "slantrightup", 4), ("BN2", "downleft", 1)]

/-- Fourteen calls from the new game (a4 b5, axb5 a6, bxa6 Rxa6, d3 h6, Nc3 h5,
Be3 g6, Qd2 Rxa1) after which the black rook BR1 stands on (7,0), the squares
(7,1), (7,2), (7,3) are empty and neither the white king nor a white rook has
moved. -/
def cornerGame : List (String × String × Int) :=
  [("WP1", "up", 2), ("BP2", "down", 2), ("WP1", "slantrightup", 1), ("BP1", "down", 1),
   ("WP1", "slantleftup", 1), ("BR1", "down", 2), ("WP4", "up", 1), ("BP8", "down", 1),
   ("WN1", "upright", 1), ("BP8", "down", 1), ("WB1", "slantrightup", 2), ("BP7", "down", 1),
   ("WQ", "up", 1), ("BR1", "down", 5)]

/-- Unless the king-moved boolean of colour `c` is set, a king of colour `c`
stands on the home square `(homeRow c, 4)` and on no other square. -/
def KingHome (g : Game) (c : Color) : Prop :=
  g.kingMoved c = false →
    (∃ p, g.board.get (homeRow c) 4 = some p ∧ p.kind = .King ∧ p.color = c) ∧
    ∀ (x y : Int) (p : Piece), g.board.get x y = some p → p.kind = .King → p.color = c →
      x = homeRow c ∧ y = 4

/-- The invariant of the states reachable from the new game that the castling
code relies on: an unmoved king is on its home square, and the colour that is
not to move is not in check unless its king-moved boolean is set. -/
def HomeInv (g : Game) : Prop :=
  KingHome g .WHITE ∧ KingHome g .BLACK ∧
  (g.kingMoved g.currentTurn.opposite = false →
    Game.isInCheck g.board g.currentTurn.opposite = false)

/-- Two squares are equal or lie on a common row, column or diagonal. -/
def Aligned (frm dst : Sq) : Prop :=
  frm.1 = dst.1 ∨ frm.2 = dst.2 ∨ |frm.1 - dst.1| = |frm.2 - dst.2|

/-- The `j`-th square on the way from `frm` to `dst`, by the unit steps that
`isPathClear` takes (lines 426-430). -/
def stepTowards (frm dst : Sq) (j : Nat) : Sq :=
  (frm.1 + (j : Int) * dirOf (dst.1 - frm.1), frm.2 + (j : Int) * dirOf (dst.2 - frm.2))

/-- The number of unit steps from `frm` to `dst` when they are aligned. -/
def stepCount (frm dst : Sq) : Nat :=
  max (dst.1 - frm.1).natAbs (dst.2 - frm.2).natAbs

/-- A call `isPathClear(frm, dst)` with the condition of its use made explicit:
the result is `none` when `frm` and `dst` are not two squares of the board that
are equal or share a row, a column or a diagonal, and the run of the loop
otherwise.  The callers below hand a `none` on, so a caller has a result only
when every call it made was made on such a pair. -/
def Game.isPathClearCall (board : Board) (frm dst : Sq) : Option Bool :=
  if onBoard frm.1 frm.2 = true ∧ onBoard dst.1 dst.2 = true ∧
      (frm.1 = dst.1 ∨ frm.2 = dst.2 ∨ |frm.1 - dst.1| = |frm.2 - dst.2|) then
    Game.isPathClearRun board frm dst
  else none

/-- The body of the two loops of `Game::isInCheck` for the square `sq` (lines
449-454) with its call of `isPathClear` kept as a call: `some true` where the
source returns `true`, `some false` where the loop goes on.  The `&&` and `||`
of the source evaluate left to right, so `isPathClear` is called only for a
piece of the other colour whose `isValidMove` accepts the move and whose type is
not "Knight". -/
def Game.attacksRun (board : Board) (color : Color) (kingPos : Sq) (sq : Sq) : Option Bool :=
  match board.get sq.1 sq.2 with
  | some p =>
    if p.color ≠ color then
      if p.isValidMove sq kingPos board then
        if p.kind = .Knight then some true
        else Game.isPathClearCall board sq kingPos
      else some false
    else some false
  | none => some false

/-- The two loops of `Game::isInCheck` (lines 447-456) over the squares in
order, returning at the first square whose test succeeds. -/
def Game.attackLoop (board : Board) (color : Color) (kingPos : Sq) : List Sq → Option Bool
  | [] => some false
  | sq :: rest =>
    match Game.attacksRun board color kingPos sq with
    | none => none
    | some true => some true
    | some false => Game.attackLoop board color kingPos rest

/-- `Game::isInCheck` (lines 443-458) with its calls of `isPathClear` kept as
calls. -/
def Game.isInCheckRun (board : Board) (color : Color) : Option Bool :=
  let kingPos := Game.findKing board color
  if kingPos.1 = -1 then some false
  else Game.attackLoop board color kingPos allSquares

/-- `Game::isValidMove` (lines 522-546) with its call of `isPathClear` kept as a
call. -/
def Game.isValidMoveRun (board : Board) (frm dst : Sq) : Option Bool :=
  if frm.1 < 0 ∨ frm.1 ≥ 8 ∨ frm.2 < 0 ∨ frm.2 ≥ 8 ∨
      dst.1 < 0 ∨ dst.1 ≥ 8 ∨ dst.2 < 0 ∨ dst.2 ≥ 8 then some false
  else
    match board.get frm.1 frm.2 with
    | none => some false
    | some piece =>
      if (match board.get dst.1 dst.2 with
          | some q => decide (q.color = piece.color)
          | none => false) then some false
      else if piece.isValidMove frm dst board = false then some false
      else if piece.kind ≠ .Knight then
        match Game.isPathClearCall board frm dst with
        | none => none
        | some clear => if clear = false then some false else some true
      else some true

/-- `Game::makeMove` (lines 646-806) with its call of `Game::isValidMove` (line
740) and its own call of `isPathClear` (line 746) kept as calls; everything
else is as in `Game.makeMove`. -/
def Game.makeMoveRun (g : Game) (pieceCode direction : String) (steps : Int) :
    Option MoveResult :=
  match g.piecePositions pieceCode with
  | none => some ⟨false, [.pieceNotFound pieceCode], g⟩
  | some frm =>
    match g.board.get frm.1 frm.2 with
    | none => none
    | some piece =>
      if piece.color ≠ g.currentTurn then some ⟨false, [.notYourTurn], g⟩
      else if piece.kind = .King ∧ (direction = "castle-left" ∨ direction = "castle-right") then
        let kingside := decide (direction = "castle-right")
        let r := Game.canCastle g g.currentTurn kingside
        let g := { g with board := r.2 }
        if r.1 = false then some ⟨false, [.cannotCastle], g⟩
        else some (Game.finishMove (Game.commitCastle g frm piece kingside) [])
      else
        let dst := Game.parseDirection direction frm steps
        if dst.1 < 0 ∨ dst.1 ≥ 8 ∨ dst.2 < 0 ∨ dst.2 ≥ 8 then
          some ⟨false, [.outOfBounds], g⟩
        else
          match Game.isValidMoveRun g.board frm dst with
          | none => none
          | some false => some ⟨false, [.invalidMove], g⟩
          | some true =>
            match (if piece.kind ≠ .Knight then Game.isPathClearCall g.board frm dst
                else some true) with
            | none => none
            | some false => some ⟨false, [.pathBlocked], g⟩
            | some true =>
              let r := Game.wouldBeInCheck g.board frm dst g.currentTurn
              let g := { g with board := r.2 }
              if r.1 then some ⟨false, [.leavesKingInCheck], g⟩
              else
                let c := Game.commitMove g frm dst piece
                some (Game.finishMove c.1 c.2)

/-! ## Board access -/

theorem onBoard_iff (r c : Int) : onBoard r c = true ↔ 0 ≤ r ∧ r < 8 ∧ 0 ≤ c ∧ c < 8 := by
  simp [onBoard, and_assoc]

theorem Board.get_of_not_onBoard (b : Board) (r c : Int) (h : onBoard r c = false) :
    b.get r c = none := by
  have h2 : ¬ (0 ≤ r ∧ r < 8 ∧ 0 ≤ c ∧ c < 8) := by
    rw [← onBoard_iff]; simp [h]
  simp [Board.get, h2]

theorem Board.get_set (b : Board) (r c r2 c2 : Int) (v : Option Piece) :
    (b.set r c v).get r2 c2 =
      if r2 = r ∧ c2 = c ∧ onBoard r2 c2 = true then v else b.get r2 c2 := by
  by_cases h : 0 ≤ r2 ∧ r2 < 8 ∧ 0 ≤ c2 ∧ c2 < 8
  · have hb : onBoard r2 c2 = true := (onBoard_iff _ _).2 h
    have h1 : ((r2.toNat : Nat) : Int) = r2 := Int.toNat_of_nonneg h.1
    have h2 : ((c2.toNat : Nat) : Int) = c2 := Int.toNat_of_nonneg h.2.2.1
    simp only [Board.get, Board.set, h, hb, dif_pos, h1, h2, and_true, and_self]
  · have hb : onBoard r2 c2 = false := by
      rw [← onBoard_iff] at h; simpa using h
    simp [Board.get, h, hb]

theorem Board.get_set_same (b : Board) (r c : Int) (v : Option Piece)
    (h : onBoard r c = true) : (b.set r c v).get r c = v := by
  simp [Board.get_set, h]

theorem Board.get_set_ne (b : Board) (r c r2 c2 : Int) (v : Option Piece)
    (h : ¬ (r2 = r ∧ c2 = c)) : (b.set r c v).get r2 c2 = b.get r2 c2 := by
  rw [Board.get_set]
  have : ¬ (r2 = r ∧ c2 = c ∧ onBoard r2 c2 = true) := fun hh => h ⟨hh.1, hh.2.1⟩
  simp [this]

theorem Board.ext_get (b1 b2 : Board)
    (h : ∀ r c : Int, onBoard r c = true → b1.get r c = b2.get r c) : b1 = b2 := by
  funext i j
  have hi := i.isLt
  have hj := j.isLt
  have hb : onBoard (i.val : Int) (j.val : Int) = true := by
    rw [onBoard_iff]; omega
  have := h i.val j.val hb
  have hc : (0:Int) ≤ (i.val : Int) ∧ (i.val : Int) < 8 ∧ (0:Int) ≤ (j.val : Int) ∧ (j.val : Int) < 8 := by omega
  simpa [Board.get, hc] using this

theorem mem_allSquares (sq : Sq) : sq ∈ allSquares ↔ onBoard sq.1 sq.2 = true := by
  obtain ⟨r, c⟩ := sq
  simp only [allSquares, List.mem_flatMap, List.mem_map, List.mem_range, Prod.mk.injEq, onBoard_iff, exists_exists_and_eq_and, List.map_eq_map, List.pure_def, List.bind_eq_flatMap]
  simp
  constructor
  · rintro ⟨i, hi, ⟨j, hj, rfl⟩, rfl⟩
    omega
  · rintro ⟨h1, h2, h3, h4⟩
    exact ⟨r.toNat, by omega, ⟨c.toNat, by omega, by omega⟩, by omega⟩

theorem wouldBeInCheck_snd (b : Board) (frm dst : Sq) (color : Color)
    (hd : onBoard dst.1 dst.2 = true) : (Game.wouldBeInCheck b frm dst color).2 = b := by
  apply Board.ext_get
  intro r c hrc
  simp only [Game.wouldBeInCheck, Board.get_set]
  by_cases h1 : r = dst.1 ∧ c = dst.2
  · obtain ⟨rfl, rfl⟩ := h1
    simp [hd]
  · by_cases h2 : r = frm.1 ∧ c = frm.2
    · obtain ⟨rfl, rfl⟩ := h2
      have h3 : ¬ (dst.1 = frm.1 ∧ dst.2 = frm.2) := fun hh => h1 ⟨hh.1.symm, hh.2.symm⟩
      simp [hd, hrc, h1, h3]
    · simp [h1, h2, hrc]


/-! ## Functions that write the board and restore it -/

theorem wouldBeInCheck_fst (b : Board) (frm dst : Sq) (color : Color) :
    (Game.wouldBeInCheck b frm dst color).1 = Game.isInCheck (b.relocate frm dst) color := rfl

theorem slide_onBoard (b : Board) (color : Color) (dr dc : Int) (n : Nat) :
    ∀ (r c : Int) (m : Sq), m ∈ slide b color dr dc n r c → onBoard m.1 m.2 = true := by
  induction n with
  | zero => intro r c m hm; simp [slide] at hm
  | succ n ih =>
    intro r c m hm
    unfold slide at hm
    by_cases hb : onBoard r c = true
    · rw [if_pos hb] at hm
      cases hg : b.get r c with
      | none =>
        rw [hg] at hm
        rcases List.mem_cons.1 hm with h | h
        · subst h; exact hb
        · exact ih _ _ _ h
      | some q =>
        rw [hg] at hm
        by_cases hq : q.color ≠ color
        · simp only [if_pos hq, List.mem_singleton] at hm
          subst hm; exact hb
        · simp [hq] at hm
    · simp [hb] at hm

theorem slideMoves_onBoard (dirs : List (Int × Int)) (p : Piece) (pos : Sq) (b : Board)
    (m : Sq) (hm : m ∈ slideMoves dirs p pos b) : onBoard m.1 m.2 = true := by
  simp only [slideMoves, List.mem_flatMap] at hm
  obtain ⟨d, _, hd⟩ := hm
  exact slide_onBoard _ _ _ _ _ _ _ _ hd

theorem stepMoves_onBoard (offs : List (Int × Int)) (p : Piece) (pos : Sq) (b : Board)
    (m : Sq) (hm : m ∈ stepMoves offs p pos b) : onBoard m.1 m.2 = true := by
  simp only [stepMoves, List.mem_filterMap] at hm
  obtain ⟨d, _, hd⟩ := hm
  by_cases hb : onBoard (pos.1 + d.1) (pos.2 + d.2) = true
  · rw [if_pos hb] at hd
    cases hg : b.get (pos.1 + d.1) (pos.2 + d.2) with
    | none => rw [hg] at hd; simp at hd; subst hd; exact hb
    | some q =>
      rw [hg] at hd
      by_cases hq : q.color ≠ p.color
      · simp [hq] at hd; subst hd; exact hb
      · simp [hq] at hd
  · simp [hb] at hd

theorem pawnMoves_onBoard (p : Piece) (pos : Sq) (b : Board)
    (hp : onBoard pos.1 pos.2 = true) (m : Sq) (hm : m ∈ Pawn.getPossibleMoves p pos b) :
    onBoard m.1 m.2 = true := by
  rw [onBoard_iff] at hp
  simp only [Pawn.getPossibleMoves, List.mem_append, List.mem_filterMap] at hm
  rcases hm with hm | ⟨c, _, hc⟩
  · split at hm
    · rename_i h1
      rcases List.mem_cons.1 hm with h | h
      · subst h; rw [onBoard_iff]; simp only; omega
      · split at h
        · rename_i h2
          simp only [List.mem_singleton] at h
          subst h; rw [onBoard_iff]; simp only; omega
        · simp at h
    · simp at hm
  · by_cases hb : onBoard (pos.1 + Pawn.direction p.color) c = true
    · rw [if_pos hb] at hc
      cases hg : b.get (pos.1 + Pawn.direction p.color) c with
      | none => rw [hg] at hc; simp at hc
      | some q =>
        rw [hg] at hc
        by_cases hq : q.color ≠ p.color
        · simp [hq] at hc; subst hc; exact hb
        · simp [hq] at hc
    · simp [hb] at hc

theorem possibleMoves_onBoard (p : Piece) (pos : Sq) (b : Board)
    (hp : onBoard pos.1 pos.2 = true) (m : Sq) (hm : m ∈ p.getPossibleMoves pos b) :
    onBoard m.1 m.2 = true := by
  unfold Piece.getPossibleMoves at hm
  cases hk : p.kind <;> rw [hk] at hm <;> simp only at hm
  · exact pawnMoves_onBoard p pos b hp m hm
  · exact stepMoves_onBoard _ _ _ _ _ hm
  · exact slideMoves_onBoard _ _ _ _ _ hm
  · exact slideMoves_onBoard _ _ _ _ _ hm
  · exact slideMoves_onBoard _ _ _ _ _ hm
  · exact stepMoves_onBoard _ _ _ _ _ hm

theorem tryMoves_eq (color : Color) (frm : Sq) (moves : List Sq) (b : Board)
    (h : ∀ m ∈ moves, onBoard m.1 m.2 = true) :
    Game.tryMoves color frm moves b =
      (moves.any (fun m => !Game.isInCheck (b.relocate frm m) color), b) := by
  induction moves with
  | nil => rfl
  | cons m rest ih =>
    have hm := h m (List.mem_cons_self _ _)
    have hrest : ∀ x ∈ rest, onBoard x.1 x.2 = true :=
      fun x hx => h x (List.mem_cons_of_mem _ hx)
    simp only [Game.tryMoves, wouldBeInCheck_snd b frm m color hm, wouldBeInCheck_fst,
      List.any_cons, ih hrest]
    cases Game.isInCheck (b.relocate frm m) color <;> simp

theorem scanMoves_eq (color : Color) (sqs : List Sq) (b : Board)
    (h : ∀ sq ∈ sqs, onBoard sq.1 sq.2 = true) :
    Game.scanMoves color sqs b =
      (sqs.all (fun sq =>
        match b.get sq.1 sq.2 with
        | some p =>
          decide (p.color ≠ color) ||
            (p.getPossibleMoves sq b).all fun m => Game.isInCheck (b.relocate sq m) color
        | none => true), b) := by
  induction sqs with
  | nil => rfl
  | cons sq rest ih =>
    have hsq := h sq (List.mem_cons_self _ _)
    have hrest : ∀ x ∈ rest, onBoard x.1 x.2 = true :=
      fun x hx => h x (List.mem_cons_of_mem _ hx)
    unfold Game.scanMoves
    cases hg : b.get sq.1 sq.2 with
    | none => simp [ih hrest, hg]
    | some p =>
      simp only [List.all_cons, hg]
      by_cases hc : p.color = color
      · rw [if_pos hc, tryMoves_eq color sq _ b
          (fun m hm => possibleMoves_onBoard p sq b hsq m hm)]
        simp only [ih hrest]
        cases hany : (p.getPossibleMoves sq b).any
            (fun m => !Game.isInCheck (b.relocate sq m) color)
        · have : (p.getPossibleMoves sq b).all
              (fun m => Game.isInCheck (b.relocate sq m) color) = true := by
            rw [List.all_eq_true]
            intro m hm
            have := (List.any_eq_false.1 hany) m hm
            simpa using this
          simp [this, hc]
        · have : (p.getPossibleMoves sq b).all
              (fun m => Game.isInCheck (b.relocate sq m) color) = false := by
            rw [List.all_eq_false]
            obtain ⟨m, hm, hx⟩ := List.any_eq_true.1 hany
            exact ⟨m, hm, by simpa using hx⟩
          simp [this, hc]
      · rw [if_neg hc, ih hrest]
        simp [hc]

theorem isCheckmate_eq (b : Board) (color : Color) :
    Game.isCheckmate b color = (Game.isInCheck b color && Game.noEscape b color, b) := by
  unfold Game.isCheckmate
  rw [scanMoves_eq color allSquares b (fun sq h => (mem_allSquares sq).1 h)]
  cases h : Game.isInCheck b color
  · simp
  · simp only [Bool.true_and, Game.noEscape]
    rfl

theorem isStalemate_eq (b : Board) (color : Color) :
    Game.isStalemate b color = (!Game.isInCheck b color && Game.noEscape b color, b) := by
  unfold Game.isStalemate
  rw [scanMoves_eq color allSquares b (fun sq h => (mem_allSquares sq).1 h)]
  cases h : Game.isInCheck b color
  · simp only [Bool.not_false, Bool.true_and, Game.noEscape]
    rfl
  · simp


theorem loopRange_4_6 : loopRange 4 6 = [4, 5, 6] := by decide
theorem loopRange_4_2 : loopRange 4 2 = [] := by decide
theorem loopRange_5_6 : loopRange 5 6 = [5, 6] := by decide
theorem loopRange_1_3 : loopRange 1 3 = [1, 2, 3] := by decide

theorem castleSafe_eq (color : Color) (row : Int) (cols : List Int) (b : Board)
    (h : ∀ i ∈ cols, onBoard row i = true) :
    Game.castleSafe color row cols b =
      (cols.all (fun i => !Game.isInCheck (b.relocate (row, 4) (row, i)) color), b) := by
  induction cols with
  | nil => rfl
  | cons i rest ih =>
    have hi := h i (List.mem_cons_self _ _)
    have hrest : ∀ x ∈ rest, onBoard row x = true :=
      fun x hx => h x (List.mem_cons_of_mem _ hx)
    simp only [Game.castleSafe, wouldBeInCheck_snd b (row, 4) (row, i) color hi,
      wouldBeInCheck_fst, List.all_cons, ih hrest]
    cases Game.isInCheck (b.relocate (row, 4) (row, i)) color <;> simp

theorem castleCols_onBoard (row : Int) (kingside : Bool) (hrow : row = 7 ∨ row = 0) :
    ∀ i ∈ loopRange 4 (if kingside then 6 else 2), onBoard row i = true := by
  intro i hi
  cases kingside
  · simp [loopRange_4_2] at hi
  · simp only [if_true, loopRange_4_6, List.mem_cons, List.mem_singleton, List.mem_nil_iff,
      or_false] at hi
    rw [onBoard_iff]
    omega

theorem canCastleRow_eq (b : Board) (color : Color) (row : Int)
    (kingMoved rookLeftMoved rookRightMoved kingside : Bool) (hrow : row = 7 ∨ row = 0) :
    Game.canCastleRow b color row kingMoved rookLeftMoved rookRightMoved kingside =
      (!kingMoved && !(kingside && rookRightMoved) && !(!kingside && rookLeftMoved) &&
        (match b.get row (if kingside then 7 else 0) with
          | none => false
          | some q => decide (q.kind = .Rook)) &&
        Game.castlePathEmpty b row
          (loopRange (if kingside then 5 else 1) (if kingside then 6 else 3)) &&
        (loopRange 4 (if kingside then 6 else 2)).all
          (fun i => !Game.isInCheck (b.relocate (row, 4) (row, i)) color), b) := by
  simp only [Game.canCastleRow, castleSafe_eq color row _ b (castleCols_onBoard row kingside hrow)]
  generalize b.get row (if kingside = true then 7 else 0) = x
  generalize Game.castlePathEmpty b row _ = pe
  generalize List.all _ _ = sf
  rcases x with _ | q
  · cases kingMoved <;> cases kingside <;> cases rookLeftMoved <;> cases rookRightMoved <;>
      cases pe <;> simp
  · by_cases hq : q.kind = .Rook <;>
      cases kingMoved <;> cases kingside <;> cases rookLeftMoved <;> cases rookRightMoved <;>
      cases pe <;> simp [hq]

theorem canCastleRow_snd (b : Board) (color : Color) (row : Int)
    (kingMoved rookLeftMoved rookRightMoved kingside : Bool) (hrow : row = 7 ∨ row = 0) :
    (Game.canCastleRow b color row kingMoved rookLeftMoved rookRightMoved kingside).2 = b := by
  rw [canCastleRow_eq _ _ _ _ _ _ _ hrow]

theorem canCastle_snd (g : Game) (color : Color) (kingside : Bool) :
    (Game.canCastle g color kingside).2 = g.board := by
  unfold Game.canCastle
  split
  · exact canCastleRow_snd _ _ _ _ _ _ _ (Or.inl rfl)
  · exact canCastleRow_snd _ _ _ _ _ _ _ (Or.inr rfl)

theorem isValidMove_iff (b : Board) (frm dst : Sq) :
    Game.isValidMove b frm dst = true ↔
      onBoard frm.1 frm.2 = true ∧ onBoard dst.1 dst.2 = true ∧
      ∃ p, b.get frm.1 frm.2 = some p ∧
        (∀ q, b.get dst.1 dst.2 = some q → q.color ≠ p.color) ∧
        p.isValidMove frm dst b = true ∧
        (p.kind = .Knight ∨ Game.isPathClear b frm dst = true) := by
  unfold Game.isValidMove
  simp only [onBoard_iff]
  split
  · rename_i h
    constructor
    · intro hh; cases hh
    · rintro ⟨h1, h2, _⟩; omega
  · rename_i h
    have h1 : 0 ≤ frm.1 ∧ frm.1 < 8 ∧ 0 ≤ frm.2 ∧ frm.2 < 8 := by omega
    have h2 : 0 ≤ dst.1 ∧ dst.1 < 8 ∧ 0 ≤ dst.2 ∧ dst.2 < 8 := by omega
    cases hg : b.get frm.1 frm.2 with
    | none => simp
    | some p =>
      simp only [Option.some.injEq, exists_eq_left', h1, h2, true_and, and_self]
      cases hd : b.get dst.1 dst.2 with
      | none =>
        simp only [Bool.false_eq_true, if_false]
        cases hs : p.isValidMove frm dst b <;> cases hpc : Game.isPathClear b frm dst <;>
          by_cases hk : p.kind = .Knight <;> simp [hk]
      | some q =>
        by_cases hc : q.color = p.color
        · simp [hc]
        · simp only [hc, decide_False, Bool.false_eq_true, if_false, Option.some.injEq]
          cases hs : p.isValidMove frm dst b <;> cases hpc : Game.isPathClear b frm dst <;>
            by_cases hk : p.kind = .Knight <;> simp [hk, hc]

theorem finishMove_rejected (g : Game) (out : List Message) :
    (Game.finishMove g out).rejected = out.any Message.isError := by
  unfold Game.finishMove MoveResult.rejected
  simp only
  split <;> split <;> (try split) <;> simp [Message.isError]

theorem finishMove_gameOver (g : Game) (out : List Message) :
    (Game.finishMove g out).gameOver =
      ((Game.isInCheck g.board g.currentTurn.opposite &&
          (Game.isCheckmate g.board g.currentTurn.opposite).1) ||
        (!Game.isInCheck g.board g.currentTurn.opposite &&
          (Game.isStalemate g.board g.currentTurn.opposite).1) ||
        decide (g.movesSinceCapture ≥ 100)) := by
  unfold Game.finishMove
  simp only
  split <;> split <;> (try split) <;> simp_all

theorem finishMove_state (g : Game) (out : List Message) :
    (Game.finishMove g out).state =
      if (Game.finishMove g out).gameOver then g
      else { g with currentTurn := g.currentTurn.opposite } := by
  unfold Game.finishMove
  simp only [isCheckmate_eq, isStalemate_eq]
  split <;> split <;> (try split) <;> simp_all


/-! ## The branches of `makeMove` -/

theorem commitMove_out (g : Game) (frm dst : Sq) (piece : Piece) :
    (Game.commitMove g frm dst piece).2.any Message.isError = false := by
  unfold Game.commitMove
  simp only
  cases g.board.get dst.1 dst.2 <;> simp [Message.isError]

/-- The normal branch of `makeMove` once the index lookup and the read of the
piece have succeeded, with the restored boards filled in. -/
theorem makeMove_normal (g : Game) (pieceCode direction : String) (steps : Int)
    (frm : Sq) (piece : Piece)
    (hidx : g.piecePositions pieceCode = some frm)
    (hget : g.board.get frm.1 frm.2 = some piece)
    (hnc : ¬ (piece.kind = .King ∧
        (direction = "castle-left" ∨ direction = "castle-right"))) :
    g.makeMove pieceCode direction steps = some (
      if piece.color ≠ g.currentTurn then ⟨false, [.notYourTurn], g⟩
      else if onBoard (Game.parseDirection direction frm steps).1
          (Game.parseDirection direction frm steps).2 = false then ⟨false, [.outOfBounds], g⟩
      else if Game.isValidMove g.board frm (Game.parseDirection direction frm steps) = false
        then ⟨false, [.invalidMove], g⟩
      else if Game.isInCheck (g.board.relocate frm (Game.parseDirection direction frm steps))
          g.currentTurn then ⟨false, [.leavesKingInCheck], g⟩
      else Game.finishMove
        (Game.commitMove g frm (Game.parseDirection direction frm steps) piece).1
        (Game.commitMove g frm (Game.parseDirection direction frm steps) piece).2) := by
  unfold Game.makeMove
  simp only [hidx, hget]
  by_cases hc : piece.color ≠ g.currentTurn
  · simp [hc]
  · rw [if_neg hc, if_neg hc]
    rw [if_neg hnc]
    generalize Game.parseDirection direction frm steps = dst
    by_cases hb : onBoard dst.1 dst.2 = true
    · have hb2 : ¬ (dst.1 < 0 ∨ dst.1 ≥ 8 ∨ dst.2 < 0 ∨ dst.2 ≥ 8) := by
        rw [onBoard_iff] at hb; omega
      simp only [hb2, if_false, hb, Bool.true_eq_false]
      by_cases hv : Game.isValidMove g.board frm dst = true
      · have hv2 := (isValidMove_iff _ _ _).1 hv
        obtain ⟨_, _, p, hp, _, _, hpath⟩ := hv2
        rw [hget] at hp
        cases hp
        have hpb : ¬ (piece.kind ≠ .Knight ∧ Game.isPathClear g.board frm dst = false) := by
          rintro ⟨h1, h2⟩
          rcases hpath with h | h
          · exact h1 h
          · rw [h] at h2; cases h2
        simp only [hv, Bool.true_eq_false, if_false, hpb, wouldBeInCheck_fst,
          wouldBeInCheck_snd g.board frm dst g.currentTurn hb]
        split <;> rfl
      · have hv2 : Game.isValidMove g.board frm dst = false := by simpa using hv
        simp [hv2]
    · have hb1 : onBoard dst.1 dst.2 = false := by simpa using hb
      have hb2 : dst.1 < 0 ∨ dst.1 ≥ 8 ∨ dst.2 < 0 ∨ dst.2 ≥ 8 := by
        rw [onBoard_iff] at hb; omega
      simp [hb2, hb1]

/-- The castling branch of `makeMove`, with the restored board filled in. -/
theorem makeMove_castle (g : Game) (pieceCode direction : String) (steps : Int)
    (frm : Sq) (piece : Piece)
    (hidx : g.piecePositions pieceCode = some frm)
    (hget : g.board.get frm.1 frm.2 = some piece)
    (hcol : piece.color = g.currentTurn) (hk : piece.kind = .King)
    (hdir : direction = "castle-left" ∨ direction = "castle-right") :
    g.makeMove pieceCode direction steps = some (
      if (Game.canCastle g g.currentTurn (decide (direction = "castle-right"))).1 = false then
        ⟨false, [.cannotCastle], g⟩
      else Game.finishMove
        (Game.commitCastle g frm piece (decide (direction = "castle-right"))) []) := by
  unfold Game.makeMove
  simp only [hidx, hget, hcol, ne_eq, not_true_eq_false, if_false, hk, hdir, and_self, if_true,
    canCastle_snd]
  split <;> rfl

theorem makeMove_isSome (g : Game) (pieceCode direction : String) (steps : Int)
    (hidx : IndexMatches g) : ∃ r, g.makeMove pieceCode direction steps = some r := by
  cases hi : g.piecePositions pieceCode with
  | none =>
    exact ⟨⟨false, [.pieceNotFound pieceCode], g⟩, by unfold Game.makeMove; simp only [hi]⟩
  | some frm =>
    obtain ⟨_, piece, hget, _⟩ := (hidx pieceCode frm).1 hi
    have h : (g.makeMove pieceCode direction steps).isSome = true := by
      unfold Game.makeMove
      simp only [hi, hget]
      repeat' split
      all_goals rfl
    exact Option.isSome_iff_exists.1 h


theorem makeMove_notTurn (g : Game) (pieceCode direction : String) (steps : Int)
    (frm : Sq) (piece : Piece)
    (hidx : g.piecePositions pieceCode = some frm)
    (hget : g.board.get frm.1 frm.2 = some piece)
    (hc : piece.color ≠ g.currentTurn) :
    g.makeMove pieceCode direction steps = some ⟨false, [.notYourTurn], g⟩ := by
  unfold Game.makeMove
  simp only [hidx, hget, hc, ne_eq, not_false_eq_true, if_true]


theorem commitMove_board (g : Game) (frm dst : Sq) (piece : Piece) :
    (Game.commitMove g frm dst piece).1.board =
      (g.board.set dst.1 dst.2 (some { piece with hasMoved := true })).set frm.1 frm.2 none := by
  unfold Game.commitMove
  simp only
  cases g.board.get dst.1 dst.2 <;> simp only <;> repeat' split
  all_goals rfl

theorem commitMove_currentTurn (g : Game) (frm dst : Sq) (piece : Piece) :
    (Game.commitMove g frm dst piece).1.currentTurn = g.currentTurn := by
  unfold Game.commitMove
  simp only
  cases g.board.get dst.1 dst.2 <;> simp only <;> repeat' split
  all_goals rfl

theorem commitMove_counter (g : Game) (frm dst : Sq) (piece : Piece) :
    (Game.commitMove g frm dst piece).1.movesSinceCapture =
      match g.board.get dst.1 dst.2 with
      | some _ => 0
      | none => g.movesSinceCapture + 1 := by
  unfold Game.commitMove
  simp only
  cases g.board.get dst.1 dst.2 <;> simp only <;> repeat' split
  all_goals rfl

theorem finishMove_board (g : Game) (out : List Message) :
    (Game.finishMove g out).state.board = g.board := by
  rw [finishMove_state]; split <;> rfl

theorem finishMove_counter (g : Game) (out : List Message) :
    (Game.finishMove g out).state.movesSinceCapture = g.movesSinceCapture := by
  rw [finishMove_state]; split <;> rfl

theorem finishMove_currentTurn (g : Game) (out : List Message) :
    (Game.finishMove g out).state.currentTurn =
      if (Game.finishMove g out).gameOver then g.currentTurn else g.currentTurn.opposite := by
  rw [finishMove_state]; split <;> rfl

theorem isValidMove_ne (b : Board) (frm dst : Sq) (h : Game.isValidMove b frm dst = true) :
    frm ≠ dst := by
  obtain ⟨_, _, p, hp, hq, _⟩ := (isValidMove_iff b frm dst).1 h
  intro he
  subst he
  exact hq p hp rfl

/-- An accepted call with a non-castling direction went through every test of
the normal branch and ended in the commit. -/
theorem makeMove_accepted_normal (g : Game) (pieceCode direction : String) (steps : Int)
    (hdir : direction ≠ "castle-left" ∧ direction ≠ "castle-right")
    (r : MoveResult) (hr : g.makeMove pieceCode direction steps = some r)
    (hacc : r.rejected = false) :
    ∃ frm piece, g.piecePositions pieceCode = some frm ∧
      g.board.get frm.1 frm.2 = some piece ∧ piece.color = g.currentTurn ∧
      onBoard (Game.parseDirection direction frm steps).1
        (Game.parseDirection direction frm steps).2 = true ∧
      Game.isValidMove g.board frm (Game.parseDirection direction frm steps) = true ∧
      Game.isInCheck (g.board.relocate frm (Game.parseDirection direction frm steps))
        g.currentTurn = false ∧
      r = Game.finishMove
        (Game.commitMove g frm (Game.parseDirection direction frm steps) piece).1
        (Game.commitMove g frm (Game.parseDirection direction frm steps) piece).2 := by
  cases hi : g.piecePositions pieceCode with
  | none =>
    have h : g.makeMove pieceCode direction steps =
        some ⟨false, [.pieceNotFound pieceCode], g⟩ := by
      unfold Game.makeMove; simp only [hi]
    rw [h] at hr; cases hr; simp [MoveResult.rejected, Message.isError] at hacc
  | some frm =>
    cases hget : g.board.get frm.1 frm.2 with
    | none =>
      have h : g.makeMove pieceCode direction steps = none := by
        unfold Game.makeMove; simp only [hi, hget]
      rw [h] at hr; cases hr
    | some piece =>
      have hnc : ¬ (piece.kind = .King ∧
          (direction = "castle-left" ∨ direction = "castle-right")) := by
        rintro ⟨_, h | h⟩
        · exact hdir.1 h
        · exact hdir.2 h
      rw [makeMove_normal g pieceCode direction steps frm piece hi hget hnc] at hr
      cases hr
      refine ⟨frm, piece, rfl, hget, ?_⟩
      by_cases hc : piece.color ≠ g.currentTurn
      · rw [if_pos hc] at hacc; simp [MoveResult.rejected, Message.isError] at hacc
      · rw [if_neg hc] at hacc ⊢
        by_cases h1 : onBoard (Game.parseDirection direction frm steps).1
            (Game.parseDirection direction frm steps).2 = false
        · rw [if_pos h1] at hacc; simp [MoveResult.rejected, Message.isError] at hacc
        · rw [if_neg h1] at hacc ⊢
          by_cases h2 : Game.isValidMove g.board frm
              (Game.parseDirection direction frm steps) = false
          · rw [if_pos h2] at hacc; simp [MoveResult.rejected, Message.isError] at hacc
          · rw [if_neg h2] at hacc ⊢
            by_cases h3 : Game.isInCheck
                (g.board.relocate frm (Game.parseDirection direction frm steps))
                g.currentTurn = true
            · rw [if_pos h3] at hacc; simp [MoveResult.rejected, Message.isError] at hacc
            · rw [if_neg h3]
              exact ⟨by simpa using hc, by simpa using h1, by simpa using h2,
                by simpa using h3, rfl⟩


/-! ## The start position and the position index -/

theorem initializeBoard_eq : initializeBoard = startBoard := by
  funext i j
  revert i j
  decide!

theorem foldl_insert_lookup (b : Board) (code : String) (l : List Sq) :
    ∀ m : PosIndex,
      (l.foldl (fun m sq =>
          match b.get sq.1 sq.2 with
          | some p => m.insert p.name sq
          | none => m) m) code =
        match l.reverse.find? (holdsName b code) with
        | some sq => some sq
        | none => m code := by
  induction l with
  | nil => intro m; rfl
  | cons x xs ih =>
    intro m
    rw [List.foldl_cons, ih, List.reverse_cons, List.find?_append]
    cases hf : xs.reverse.find? (holdsName b code) with
    | some sq => simp
    | none =>
      simp only [Option.none_or, List.find?_cons, List.find?_nil]
      unfold holdsName
      cases hg : b.get x.1 x.2 with
      | none => simp
      | some p =>
        by_cases hn : p.name = code
        · simp [hn, PosIndex.insert]
        · have hn2 : ¬ code = p.name := fun h => hn h.symm
          simp [hn, hn2, PosIndex.insert]

theorem updatePiecePositions_lookup (b : Board) (code : String) :
    updatePiecePositions b code = allSquares.reverse.find? (holdsName b code) := by
  refine (foldl_insert_lookup b code allSquares (fun _ => none)).trans ?_
  cases allSquares.reverse.find? (holdsName b code) <;> rfl

theorem namesDistinct_iff (b : Board) :
    namesDistinct b = true ↔
      ∀ s1 s2 : Sq, ∀ p1 p2 : Piece, b.get s1.1 s1.2 = some p1 → b.get s2.1 s2.2 = some p2 →
        p1.name = p2.name → s1 = s2 := by
  unfold namesDistinct
  simp only [List.all_eq_true, mem_allSquares]
  constructor
  · intro h s1 s2 p1 p2 h1 h2 hn
    have hb1 : onBoard s1.1 s1.2 = true := by
      by_contra hc
      rw [Board.get_of_not_onBoard b _ _ (by simpa using hc)] at h1
      cases h1
    have hb2 : onBoard s2.1 s2.2 = true := by
      by_contra hc
      rw [Board.get_of_not_onBoard b _ _ (by simpa using hc)] at h2
      cases h2
    have := h s1 hb1 s2 hb2
    rw [h1, h2] at this
    simp only [decide_eq_true_eq] at this
    exact this hn
  · intro h s1 _ s2 _
    cases h1 : b.get s1.1 s1.2 with
    | none => rfl
    | some p1 =>
      cases h2 : b.get s2.1 s2.2 with
      | none => rfl
      | some p2 =>
        simp only [decide_eq_true_eq]
        exact h s1 s2 p1 p2 h1 h2

theorem updatePiecePositions_matches (b : Board) (hd : namesDistinct b = true)
    (code : String) (sq : Sq) :
    updatePiecePositions b code = some sq ↔
      (onBoard sq.1 sq.2 = true ∧ ∃ p, b.get sq.1 sq.2 = some p ∧ p.name = code) := by
  rw [updatePiecePositions_lookup]
  have hholds : ∀ s : Sq, holdsName b code s = true ↔ ∃ p, b.get s.1 s.2 = some p ∧ p.name = code := by
    intro s
    unfold holdsName
    cases b.get s.1 s.2 <;> simp
  constructor
  · intro h
    have hmem := List.mem_of_find?_eq_some h
    have hp := List.find?_some h
    rw [List.mem_reverse, mem_allSquares] at hmem
    exact ⟨hmem, (hholds sq).1 hp⟩
  · rintro ⟨hb, p, hg, hn⟩
    cases hf : allSquares.reverse.find? (holdsName b code) with
    | none =>
      rw [List.find?_eq_none] at hf
      have := hf sq (by rw [List.mem_reverse, mem_allSquares]; exact hb)
      rw [(hholds sq).2 ⟨p, hg, hn⟩] at this
      simp at this
    | some s2 =>
      have hp := List.find?_some hf
      obtain ⟨p2, hg2, hn2⟩ := (hholds s2).1 hp
      have := (namesDistinct_iff b).1 hd s2 sq p2 p hg2 hg (hn2.trans hn.symm)
      rw [this]

set_option maxRecDepth 100000 in
theorem namesDistinct_start : namesDistinct startBoard = true := by decide!

theorem new_board : Game.new.board = startBoard := by
  rw [← initializeBoard_eq]
  simp only [Game.new]

theorem new_piecePositions : Game.new.piecePositions = updatePiecePositions startBoard := by
  rw [← initializeBoard_eq]
  simp only [Game.new]

theorem indexMatches_new : IndexMatches Game.new := by
  intro code sq
  rw [new_board, new_piecePositions]
  exact updatePiecePositions_matches startBoard namesDistinct_start code sq


/-! ## `isInCheck` does not read the `hasMoved` flag of the colour it is asked about -/

theorem AgreeUpToMoved.none_iff {color : Color} {b1 b2 : Board}
    (h : AgreeUpToMoved color b1 b2) (r c : Int) :
    b1.get r c = none ↔ b2.get r c = none := by
  have := h r c
  cases h1 : b1.get r c <;> cases h2 : b2.get r c <;> simp [h1, h2] at this ⊢

theorem AgreeUpToMoved.some_some {color : Color} {b1 b2 : Board}
    (h : AgreeUpToMoved color b1 b2) {r c : Int} {p : Piece} (hp : b1.get r c = some p) :
    ∃ q, b2.get r c = some q ∧ p.color = q.color ∧ p.kind = q.kind ∧
      (p.color ≠ color → p = q) := by
  have := h r c
  rw [hp] at this
  cases h2 : b2.get r c with
  | none => rw [h2] at this; exact this.elim
  | some q => rw [h2] at this; exact ⟨q, rfl, this⟩

theorem find?_congr_mem {α : Type} (f g : α → Bool) (l : List α)
    (h : ∀ x ∈ l, f x = g x) : l.find? f = l.find? g := by
  induction l with
  | nil => rfl
  | cons x xs ih =>
    have hx := h x (List.mem_cons_self _ _)
    have hxs : ∀ y ∈ xs, f y = g y := fun y hy => h y (List.mem_cons_of_mem _ hy)
    simp only [List.find?_cons, hx, ih hxs]

theorem any_congr_mem {α : Type} (f g : α → Bool) (l : List α)
    (h : ∀ x ∈ l, f x = g x) : l.any f = l.any g := by
  induction l with
  | nil => rfl
  | cons x xs ih =>
    have hx := h x (List.mem_cons_self _ _)
    have hxs : ∀ y ∈ xs, f y = g y := fun y hy => h y (List.mem_cons_of_mem _ hy)
    simp only [List.any_cons, hx, ih hxs]

theorem isKingAt_agree {color : Color} {b1 b2 : Board} (h : AgreeUpToMoved color b1 b2)
    (c : Color) (sq : Sq) : Game.isKingAt b1 c sq = Game.isKingAt b2 c sq := by
  unfold Game.isKingAt
  cases h1 : b1.get sq.1 sq.2 with
  | none => rw [(h.none_iff _ _).1 h1]
  | some p =>
    obtain ⟨q, hq, hc, hk, _⟩ := h.some_some h1
    rw [hq]; simp only [hc, hk]

theorem findKing_agree {color : Color} {b1 b2 : Board} (h : AgreeUpToMoved color b1 b2)
    (c : Color) : Game.findKing b1 c = Game.findKing b2 c := by
  unfold Game.findKing
  rw [find?_congr_mem _ _ allSquares (fun sq _ => isKingAt_agree h c sq)]

theorem pathLoop_agree {color : Color} {b1 b2 : Board} (h : AgreeUpToMoved color b1 b2)
    (rowDir colDir : Int) (dst : Sq) (n : Nat) :
    ∀ r c, pathLoop b1 rowDir colDir dst n r c = pathLoop b2 rowDir colDir dst n r c := by
  induction n with
  | zero => intro r c; rfl
  | succ n ih =>
    intro r c
    unfold pathLoop
    have hn := h.none_iff r c
    simp only [ne_eq, hn, ih]

theorem isPathClear_agree {color : Color} {b1 b2 : Board} (h : AgreeUpToMoved color b1 b2)
    (frm dst : Sq) : Game.isPathClear b1 frm dst = Game.isPathClear b2 frm dst := by
  unfold Game.isPathClear Game.isPathClearRun
  simp only [pathLoop_agree h]

theorem pawnValid_agree {color : Color} {b1 b2 : Board}
    (h : AgreeUpToMoved color b1 b2) (p : Piece) (frm dst : Sq) :
    Pawn.isValidMove p frm dst b1 = Pawn.isValidMove p frm dst b2 := by
  unfold Pawn.isValidMove
  have h1 := h.none_iff dst.1 dst.2
  have h2 := h.none_iff (frm.1 + Pawn.direction p.color) frm.2
  simp only [h1, h2]
  cases hg : b1.get dst.1 dst.2 with
  | none => rw [(h.none_iff _ _).1 hg]
  | some q =>
    obtain ⟨q2, hq2, hc, _, _⟩ := h.some_some hg
    rw [hq2]
    simp only [hc]

theorem pieceValid_agree {color : Color} {b1 b2 : Board}
    (h : AgreeUpToMoved color b1 b2) (p : Piece) (frm dst : Sq) :
    p.isValidMove frm dst b1 = p.isValidMove frm dst b2 := by
  unfold Piece.isValidMove
  cases p.kind <;> simp only
  exact pawnValid_agree h p frm dst

theorem attacks_agree {color : Color} {b1 b2 : Board} (h : AgreeUpToMoved color b1 b2)
    (k sq : Sq) : Game.attacks b1 color k sq = Game.attacks b2 color k sq := by
  unfold Game.attacks
  cases h1 : b1.get sq.1 sq.2 with
  | none => rw [(h.none_iff _ _).1 h1]
  | some p =>
    obtain ⟨q, hq, hc, hk, hpq⟩ := h.some_some h1
    rw [hq]
    by_cases hcol : p.color = color
    · have : q.color = color := hc ▸ hcol
      simp [hcol, this]
    · have := hpq hcol
      subst this
      simp only [pieceValid_agree h, isPathClear_agree h]

theorem isInCheck_agree {color : Color} {b1 b2 : Board} (h : AgreeUpToMoved color b1 b2) :
    Game.isInCheck b1 color = Game.isInCheck b2 color := by
  unfold Game.isInCheck
  simp only [findKing_agree h]
  split
  · rfl
  · exact any_congr_mem _ _ _ (fun sq _ => attacks_agree h _ sq)

theorem relocate_agree_commit (b : Board) (frm dst : Sq) (piece : Piece)
    (hget : b.get frm.1 frm.2 = some piece) :
    AgreeUpToMoved piece.color
      ((b.set dst.1 dst.2 (some { piece with hasMoved := true })).set frm.1 frm.2 none)
      (b.relocate frm dst) := by
  intro r c
  unfold Board.relocate
  simp only [Board.get_set, hget]
  by_cases h1 : r = frm.1 ∧ c = frm.2 ∧ onBoard r c = true
  · obtain ⟨rfl, rfl, hb⟩ := h1
    simp [hb]
  · simp only [h1, if_false]
    by_cases h2 : r = dst.1 ∧ c = dst.2 ∧ onBoard r c = true
    · obtain ⟨rfl, rfl, hb⟩ := h2
      simp [hb]
    · simp only [h2, if_false]
      cases hg : b.get r c <;> simp


theorem Board.onBoard_of_get {b : Board} {r c : Int} {p : Piece} (h : b.get r c = some p) :
    onBoard r c = true := by
  by_contra hc
  rw [Board.get_of_not_onBoard b _ _ (by simpa using hc)] at h
  cases h

theorem IndexMatches.unique {g : Game} (h : IndexMatches g) {s1 s2 : Sq} {p1 p2 : Piece}
    (h1 : g.board.get s1.1 s1.2 = some p1) (h2 : g.board.get s2.1 s2.2 = some p2)
    (hn : p1.name = p2.name) : s1 = s2 := by
  have e1 := (h p1.name s1).2 ⟨Board.onBoard_of_get h1, p1, h1, rfl⟩
  have e2 := (h p1.name s2).2 ⟨Board.onBoard_of_get h2, p2, h2, hn.symm⟩
  rw [e1] at e2
  exact Option.some.inj e2

/-- The first move of the scenarios: from the new game, `makeMove("WP5", "up", 2)`
is accepted, does not end the game, and leaves the counter at 1 and the six
castling booleans false. -/
theorem new_pawn_advance :
    ∃ r, Game.new.makeMove "WP5" "up" 2 = some r ∧ r.rejected = false ∧ r.gameOver = false ∧
      r.state.whiteKingMoved = false ∧ r.state.blackKingMoved = false ∧
      r.state.whiteRookLeftMoved = false ∧ r.state.whiteRookRightMoved = false ∧
      r.state.blackRookLeftMoved = false ∧ r.state.blackRookRightMoved = false :=
  ⟨_, makeMove_normal Game.new "WP5" "up" 2 (6, 4) ⟨.WHITE, "WP5", "P", false, 1, .Pawn⟩
      (by decide!) (by decide!) (by decide),
    by decide!, by decide!, by decide!, by decide!, by decide!, by decide!, by decide!,
    by decide!⟩

/-- A rejected call from the new game: `makeMove("WP5", "down", 1)` asks a white
pawn to step backwards. -/
theorem new_pawn_backwards :
    ∃ r, Game.new.makeMove "WP5" "down" 1 = some r ∧ r.rejected = true :=
  ⟨_, makeMove_normal Game.new "WP5" "down" 1 (6, 4) ⟨.WHITE, "WP5", "P", false, 1, .Pawn⟩
      (by decide!) (by decide!) (by decide), by decide!⟩


/-- A rejected castling request from the new game: `makeMove("WKG",
"castle-right", 1)` with the bishop and knight still between king and rook. -/
theorem new_castle_blocked :
    ∃ r, Game.new.makeMove "WKG" "castle-right" 1 = some r ∧ r.rejected = true :=
  ⟨_, makeMove_castle Game.new "WKG" "castle-right" 1 (7, 4)
      ⟨.WHITE, "WKG", "K", false, 0, .King⟩ (by decide!) (by decide!) (by decide!) rfl
      (Or.inr rfl), by decide!⟩

/-! ## Claims C1 to C6: `makeMove` and `wouldBeInCheck` -/

/-- C1: on a state whose index matches the board and for a non-castling
direction, `makeMove` returns, and the call is rejected exactly when the piece
code is not in the index, or the piece is not of the colour to move, or the
destination computed by `parseDirection` is off the board, or
`Game::isValidMove` is false, or `wouldBeInCheck` for the mover is true; an
accepted call leaves the piece on the destination. -/
theorem makeMove_rejects_iff (g : Game) (pieceCode direction : String) (steps : Int)
    (hidx : IndexMatches g)
    (hdir : direction ≠ "castle-left" ∧ direction ≠ "castle-right") :
    ∃ r, g.makeMove pieceCode direction steps = some r ∧
      (r.rejected = true ↔
        g.piecePositions pieceCode = none ∨
        ∃ frm piece, g.piecePositions pieceCode = some frm ∧
          g.board.get frm.1 frm.2 = some piece ∧
          (piece.color ≠ g.currentTurn ∨
            onBoard (Game.parseDirection direction frm steps).1
              (Game.parseDirection direction frm steps).2 = false ∨
            Game.isValidMove g.board frm (Game.parseDirection direction frm steps) = false ∨
            (Game.wouldBeInCheck g.board frm (Game.parseDirection direction frm steps)
              g.currentTurn).1 = true)) ∧
      (r.rejected = false →
        ∃ frm piece, g.piecePositions pieceCode = some frm ∧
          g.board.get frm.1 frm.2 = some piece ∧
          r.state.board.get (Game.parseDirection direction frm steps).1
            (Game.parseDirection direction frm steps).2 =
              some { piece with hasMoved := true }) := by
  obtain ⟨r, hr⟩ := makeMove_isSome g pieceCode direction steps hidx
  refine ⟨r, hr, ?_, ?_⟩
  · cases hi : g.piecePositions pieceCode with
    | none =>
      have h : g.makeMove pieceCode direction steps =
          some ⟨false, [.pieceNotFound pieceCode], g⟩ := by
        unfold Game.makeMove; simp only [hi]
      rw [h] at hr; cases hr
      simp [MoveResult.rejected, Message.isError]
    | some frm =>
      obtain ⟨_, piece, hget, _⟩ := (hidx pieceCode frm).1 hi
      have hnc : ¬ (piece.kind = .King ∧
          (direction = "castle-left" ∨ direction = "castle-right")) := by
        rintro ⟨_, h | h⟩
        · exact hdir.1 h
        · exact hdir.2 h
      rw [makeMove_normal g pieceCode direction steps frm piece hi hget hnc] at hr
      cases hr
      simp only [false_or, Option.some.injEq, reduceCtorEq, wouldBeInCheck_fst]
      constructor
      · intro hrej
        refine ⟨frm, piece, rfl, hget, ?_⟩
        by_contra hcon
        simp only [not_or] at hcon
        obtain ⟨h0, h1, h2, h3⟩ := hcon
        rw [if_neg h0, if_neg h1, if_neg h2, if_neg h3, finishMove_rejected,
          commitMove_out] at hrej
        cases hrej
      · rintro ⟨frm2, piece2, hf, hg2, hcases⟩
        cases hf
        rw [hget] at hg2
        cases hg2
        by_cases h0 : piece.color ≠ g.currentTurn
        · rw [if_pos h0]; rfl
        · rw [if_neg h0]
          by_cases h1 : onBoard (Game.parseDirection direction frm steps).1
              (Game.parseDirection direction frm steps).2 = false
          · rw [if_pos h1]; rfl
          · rw [if_neg h1]
            by_cases h2 : Game.isValidMove g.board frm
                (Game.parseDirection direction frm steps) = false
            · rw [if_pos h2]; rfl
            · rw [if_neg h2]
              rcases hcases with h | h | h | h
              · exact absurd h h0
              · exact absurd h h1
              · exact absurd h h2
              · rw [if_pos h]; rfl
  · intro hacc
    obtain ⟨frm, piece, hi, hget, _, hb, hv, _, hreq⟩ :=
      makeMove_accepted_normal g pieceCode direction steps hdir r hr hacc
    refine ⟨frm, piece, hi, hget, ?_⟩
    have hne := isValidMove_ne _ _ _ hv
    rw [hreq, finishMove_board, commitMove_board, Board.get_set_ne, Board.get_set_same _ _ _ _ hb]
    intro hh
    exact hne (Prod.ext hh.1.symm hh.2.symm)

/-- Witness for C1 at the new game and the call `makeMove("WP5", "up", 2)`. -/
theorem makeMove_rejects_iff_witness :
    IndexMatches Game.new ∧ ("up" ≠ "castle-left" ∧ "up" ≠ "castle-right") ∧
    ∃ r, Game.new.makeMove "WP5" "up" 2 = some r ∧
      (r.rejected = true ↔
        Game.new.piecePositions "WP5" = none ∨
        ∃ frm piece, Game.new.piecePositions "WP5" = some frm ∧
          Game.new.board.get frm.1 frm.2 = some piece ∧
          (piece.color ≠ Game.new.currentTurn ∨
            onBoard (Game.parseDirection "up" frm 2).1
              (Game.parseDirection "up" frm 2).2 = false ∨
            Game.isValidMove Game.new.board frm (Game.parseDirection "up" frm 2) = false ∨
            (Game.wouldBeInCheck Game.new.board frm (Game.parseDirection "up" frm 2)
              Game.new.currentTurn).1 = true)) ∧
      (r.rejected = false →
        ∃ frm piece, Game.new.piecePositions "WP5" = some frm ∧
          Game.new.board.get frm.1 frm.2 = some piece ∧
          r.state.board.get (Game.parseDirection "up" frm 2).1
            (Game.parseDirection "up" frm 2).2 =
              some { piece with hasMoved := true }) :=
  ⟨indexMatches_new, by decide,
    makeMove_rejects_iff Game.new "WP5" "up" 2 indexMatches_new (by decide)⟩


/-- C2: every rejected `makeMove` call, normal or castling, leaves the whole
object state as it was (board with every piece record, turn, index, counter and
the six castling booleans); on a state whose index matches the board the call
does return. -/
theorem makeMove_rejected_state_unchanged (g : Game) (pieceCode direction : String)
    (steps : Int) :
    (IndexMatches g → ∃ r, g.makeMove pieceCode direction steps = some r) ∧
    ∀ r, g.makeMove pieceCode direction steps = some r → r.rejected = true → r.state = g := by
  refine ⟨makeMove_isSome g pieceCode direction steps, ?_⟩
  intro r hr hrej
  cases hi : g.piecePositions pieceCode with
  | none =>
    have h : g.makeMove pieceCode direction steps =
        some ⟨false, [.pieceNotFound pieceCode], g⟩ := by
      unfold Game.makeMove; simp only [hi]
    rw [h] at hr; cases hr; rfl
  | some frm =>
    cases hget : g.board.get frm.1 frm.2 with
    | none =>
      have h : g.makeMove pieceCode direction steps = none := by
        unfold Game.makeMove; simp only [hi, hget]
      rw [h] at hr; cases hr
    | some piece =>
      by_cases hc : piece.color ≠ g.currentTurn
      · rw [makeMove_notTurn g pieceCode direction steps frm piece hi hget hc] at hr
        cases hr; rfl
      · have hc2 : piece.color = g.currentTurn := by simpa using hc
        by_cases hnc : piece.kind = .King ∧
            (direction = "castle-left" ∨ direction = "castle-right")
        · rw [makeMove_castle g pieceCode direction steps frm piece hi hget hc2 hnc.1 hnc.2]
            at hr
          cases hr
          split at hrej
          · split; rfl
            rename_i h1 h2; exact absurd h1 h2
          · rw [finishMove_rejected] at hrej
            simp at hrej
        · rw [makeMove_normal g pieceCode direction steps frm piece hi hget hnc] at hr
          cases hr
          rw [if_neg hc] at hrej ⊢
          split
          · rfl
          · rename_i h1
            rw [if_neg h1] at hrej
            split
            · rfl
            · rename_i h2
              rw [if_neg h2] at hrej
              split
              · rfl
              · rename_i h3
                rw [if_neg h3, finishMove_rejected, commitMove_out] at hrej
                cases hrej

/-- Witness for C2: from the new game the rejected normal move
`makeMove("WP5", "down", 1)` and the rejected castling request
`makeMove("WKG", "castle-right", 1)` both leave the state as it was. -/
theorem makeMove_rejected_state_unchanged_witness :
    (∃ r, Game.new.makeMove "WP5" "down" 1 = some r ∧ r.rejected = true ∧
      r.state = Game.new) ∧
    (∃ r, Game.new.makeMove "WKG" "castle-right" 1 = some r ∧ r.rejected = true ∧
      r.state = Game.new) := by
  obtain ⟨r1, h1, hrej1⟩ := new_pawn_backwards
  obtain ⟨r2, h2, hrej2⟩ := new_castle_blocked
  exact ⟨⟨r1, h1, hrej1,
      (makeMove_rejected_state_unchanged Game.new "WP5" "down" 1).2 r1 h1 hrej1⟩,
    ⟨r2, h2, hrej2,
      (makeMove_rejected_state_unchanged Game.new "WKG" "castle-right" 1).2 r2 h2 hrej2⟩⟩

/-- C3: for on-board squares `frm` and `dst` (equal or not, occupied or not) the
board that `wouldBeInCheck` leaves behind is the board it was called on, square
for square. -/
theorem wouldBeInCheck_restores_board (b : Board) (frm dst : Sq) (color : Color)
    (_hf : onBoard frm.1 frm.2 = true) (hd : onBoard dst.1 dst.2 = true) :
    (Game.wouldBeInCheck b frm dst color).2 = b ∧
    ∀ r c : Int, onBoard r c = true →
      (Game.wouldBeInCheck b frm dst color).2.get r c = b.get r c := by
  have h := wouldBeInCheck_snd b frm dst color hd
  exact ⟨h, fun r c _ => by rw [h]⟩

/-- Witness for C3: the start position, king square to king square
(`from = to`, as `canCastle` calls it). -/
theorem wouldBeInCheck_restores_board_witness :
    onBoard 7 4 = true ∧
    (Game.wouldBeInCheck startBoard (7, 4) (7, 4) .WHITE).2 = startBoard ∧
    ∀ r c : Int, onBoard r c = true →
      (Game.wouldBeInCheck startBoard (7, 4) (7, 4) .WHITE).2.get r c = startBoard.get r c :=
  ⟨by decide,
    wouldBeInCheck_restores_board startBoard (7, 4) (7, 4) .WHITE (by decide) (by decide)⟩

/-- C4: after an accepted normal move the mover's king is not in check on the
committed board. -/
theorem makeMove_mover_not_in_check (g : Game) (pieceCode direction : String) (steps : Int)
    (hdir : direction ≠ "castle-left" ∧ direction ≠ "castle-right")
    (r : MoveResult) (hr : g.makeMove pieceCode direction steps = some r)
    (hacc : r.rejected = false) :
    Game.isInCheck r.state.board g.currentTurn = false := by
  obtain ⟨frm, piece, _, hget, hcol, _, _, hchk, hreq⟩ :=
    makeMove_accepted_normal g pieceCode direction steps hdir r hr hacc
  rw [hreq, finishMove_board, commitMove_board, ← hcol,
    isInCheck_agree (relocate_agree_commit g.board frm _ piece hget), hcol]
  exact hchk

/-- Witness for C4: the new game and `makeMove("WP5", "up", 2)`. -/
theorem makeMove_mover_not_in_check_witness :
    ∃ r, Game.new.makeMove "WP5" "up" 2 = some r ∧ r.rejected = false ∧
      Game.isInCheck r.state.board Game.new.currentTurn = false := by
  obtain ⟨r, hr, hacc, _⟩ := new_pawn_advance
  exact ⟨r, hr, hacc,
    makeMove_mover_not_in_check Game.new "WP5" "up" 2 (by decide) r hr hacc⟩

/-- C5: after an accepted normal move onto an empty square the no-capture
counter is its old value plus one; after an accepted normal move onto an
occupied square the counter is 0 and no square of the board holds a piece with
the captured piece's name. -/
theorem makeMove_counter (g : Game) (pieceCode direction : String) (steps : Int)
    (hidx : IndexMatches g)
    (hdir : direction ≠ "castle-left" ∧ direction ≠ "castle-right")
    (r : MoveResult) (hr : g.makeMove pieceCode direction steps = some r)
    (hacc : r.rejected = false) :
    ∃ frm piece, g.piecePositions pieceCode = some frm ∧
      g.board.get frm.1 frm.2 = some piece ∧
      (g.board.get (Game.parseDirection direction frm steps).1
          (Game.parseDirection direction frm steps).2 = none →
        r.state.movesSinceCapture = g.movesSinceCapture + 1) ∧
      (∀ q, g.board.get (Game.parseDirection direction frm steps).1
          (Game.parseDirection direction frm steps).2 = some q →
        r.state.movesSinceCapture = 0 ∧
        ∀ (row col : Int) (p : Piece), r.state.board.get row col = some p →
          p.name ≠ q.name) := by
  obtain ⟨frm, piece, hi, hget, _, hb, hv, _, hreq⟩ :=
    makeMove_accepted_normal g pieceCode direction steps hdir r hr hacc
  refine ⟨frm, piece, hi, hget, ?_, ?_⟩
  · intro hnone
    rw [hreq, finishMove_counter, commitMove_counter, hnone]
  · intro q hq
    refine ⟨by rw [hreq, finishMove_counter, commitMove_counter, hq], ?_⟩
    intro row col p hp hname
    have hne := isValidMove_ne _ _ _ hv
    rw [hreq, finishMove_board, commitMove_board, Board.get_set, Board.get_set] at hp
    by_cases h1 : row = frm.1 ∧ col = frm.2 ∧ onBoard row col = true
    · rw [if_pos h1] at hp; cases hp
    · rw [if_neg h1] at hp
      by_cases h2 : row = (Game.parseDirection direction frm steps).1 ∧
          col = (Game.parseDirection direction frm steps).2 ∧ onBoard row col = true
      · rw [if_pos h2] at hp
        cases hp
        exact hne (hidx.unique hget hq hname)
      · rw [if_neg h2] at hp
        have := @IndexMatches.unique g hidx (row, col) _ _ _ hp hq hname
        apply h2
        rw [← this]
        exact ⟨rfl, rfl, Board.onBoard_of_get hp⟩

/-- Witness for C5, the scenario of the claim: from the new game
`makeMove("WP5", "up", 2)` is accepted, the counter becomes 1 and the six
castling booleans stay false. -/
theorem makeMove_counter_witness :
    ∃ r, Game.new.makeMove "WP5" "up" 2 = some r ∧ r.rejected = false ∧
      r.state.movesSinceCapture = 1 ∧
      r.state.whiteKingMoved = false ∧ r.state.blackKingMoved = false ∧
      r.state.whiteRookLeftMoved = false ∧ r.state.whiteRookRightMoved = false ∧
      r.state.blackRookLeftMoved = false ∧ r.state.blackRookRightMoved = false := by
  obtain ⟨r, hr, hacc, _, hflags⟩ := new_pawn_advance
  obtain ⟨frm, piece, hi, _, hinc, _⟩ :=
    makeMove_counter Game.new "WP5" "up" 2 indexMatches_new (by decide) r hr hacc
  have hfrm : Game.new.piecePositions "WP5" = some (6, 4) := by decide!
  rw [hfrm] at hi
  cases hi
  have hempty : Game.new.board.get (Game.parseDirection "up" (6, 4) 2).1
      (Game.parseDirection "up" (6, 4) 2).2 = none := by decide!
  exact ⟨r, hr, hacc, by rw [hinc hempty]; decide!, hflags⟩

/-- C6: after an accepted normal move, with `opp` the colour opposite to the
mover and every predicate taken on the committed state, `makeMove` returns
`true` exactly when `opp` is in check and checkmated, or not in check and
stalemated, or the counter is at least 100; the turn passes to `opp` when it
returns `false` and stays with the mover when it returns `true`. -/
theorem makeMove_gameOver_iff (g : Game) (pieceCode direction : String) (steps : Int)
    (hdir : direction ≠ "castle-left" ∧ direction ≠ "castle-right")
    (r : MoveResult) (hr : g.makeMove pieceCode direction steps = some r)
    (hacc : r.rejected = false) :
    (r.gameOver = true ↔
      (Game.isInCheck r.state.board g.currentTurn.opposite = true ∧
        (Game.isCheckmate r.state.board g.currentTurn.opposite).1 = true) ∨
      (Game.isInCheck r.state.board g.currentTurn.opposite = false ∧
        (Game.isStalemate r.state.board g.currentTurn.opposite).1 = true) ∨
      r.state.movesSinceCapture ≥ 100) ∧
    (r.gameOver = false → r.state.currentTurn = g.currentTurn.opposite) ∧
    (r.gameOver = true → r.state.currentTurn = g.currentTurn) := by
  obtain ⟨frm, piece, _, _, _, _, _, _, hreq⟩ :=
    makeMove_accepted_normal g pieceCode direction steps hdir r hr hacc
  have hturn := commitMove_currentTurn g frm (Game.parseDirection direction frm steps) piece
  refine ⟨?_, ?_, ?_⟩
  · rw [hreq, finishMove_board, finishMove_counter, finishMove_gameOver, hturn]
    simp only [Bool.or_eq_true, Bool.and_eq_true, decide_eq_true_eq, Bool.not_eq_true',
      or_assoc]
  · intro h
    rw [hreq] at h ⊢
    rw [finishMove_currentTurn, h, hturn]
    rfl
  · intro h
    rw [hreq] at h ⊢
    rw [finishMove_currentTurn, h, hturn]
    rfl

/-- Witness for C6: the new game and `makeMove("WP5", "up", 2)`, which does not
end the game and passes the turn to Black. -/
theorem makeMove_gameOver_iff_witness :
    ∃ r, Game.new.makeMove "WP5" "up" 2 = some r ∧ r.rejected = false ∧
      r.gameOver = false ∧ r.state.currentTurn = .BLACK := by
  obtain ⟨r, hr, hacc, hover, _⟩ := new_pawn_advance
  exact ⟨r, hr, hacc, hover,
    (makeMove_gameOver_iff Game.new "WP5" "up" 2 (by decide) r hr hacc).2.1 hover⟩


/-! ## Rays: the sliding loops and `isPathClear` -/

/-- Membership in the list produced by the sliding loop: the `k`-th square of
the ray, every square up to it on the board, every earlier one empty, and the
square itself empty or held by the other colour. -/
theorem slide_mem (b : Board) (color : Color) (dr dc : Int) (n : Nat) :
    ∀ (r c x y : Int), (x, y) ∈ slide b color dr dc n r c ↔
      ∃ k : Nat, k < n ∧ x = r + k * dr ∧ y = c + k * dc ∧
        (∀ j : Nat, j ≤ k → onBoard (r + j * dr) (c + j * dc) = true) ∧
        (∀ j : Nat, j < k → b.get (r + j * dr) (c + j * dc) = none) ∧
        (∀ q, b.get x y = some q → q.color ≠ color) := by
  induction n with
  | zero =>
    intro r c x y
    simp [slide]
  | succ n ih =>
    intro r c x y
    unfold slide
    by_cases hb : onBoard r c = true
    · rw [if_pos hb]
      cases hg : b.get r c with
      | none =>
        simp only [List.mem_cons, Prod.mk.injEq, ih]
        constructor
        · rintro (⟨rfl, rfl⟩ | ⟨k, hk, hx, hy, hon, hemp, hdst⟩)
          · refine ⟨0, by omega, by simp, by simp, ?_, ?_, ?_⟩
            · intro j hj
              have : j = 0 := by omega
              subst this; simpa using hb
            · intro j hj; omega
            · intro q hq; rw [hg] at hq; cases hq
          · refine ⟨k + 1, by omega, by rw [hx]; push_cast; ring, by rw [hy]; push_cast; ring,
              ?_, ?_, hdst⟩
            · intro j hj
              rcases Nat.eq_zero_or_pos j with h0 | h0
              · subst h0; simpa using hb
              · have := hon (j - 1) (by omega)
                have e1 : r + dr + ((j - 1 : Nat) : Int) * dr = r + (j : Int) * dr := by
                  have : ((j - 1 : Nat) : Int) = (j : Int) - 1 := by omega
                  rw [this]; ring
                have e2 : c + dc + ((j - 1 : Nat) : Int) * dc = c + (j : Int) * dc := by
                  have : ((j - 1 : Nat) : Int) = (j : Int) - 1 := by omega
                  rw [this]; ring
                rwa [e1, e2] at this
            · intro j hj
              rcases Nat.eq_zero_or_pos j with h0 | h0
              · subst h0; simpa using hg
              · have := hemp (j - 1) (by omega)
                have e1 : r + dr + ((j - 1 : Nat) : Int) * dr = r + (j : Int) * dr := by
                  have : ((j - 1 : Nat) : Int) = (j : Int) - 1 := by omega
                  rw [this]; ring
                have e2 : c + dc + ((j - 1 : Nat) : Int) * dc = c + (j : Int) * dc := by
                  have : ((j - 1 : Nat) : Int) = (j : Int) - 1 := by omega
                  rw [this]; ring
                rwa [e1, e2] at this
        · rintro ⟨k, hk, hx, hy, hon, hemp, hdst⟩
          rcases Nat.eq_zero_or_pos k with h0 | h0
          · subst h0
            left
            simp at hx hy
            exact ⟨hx, hy⟩
          · right
            refine ⟨k - 1, by omega, ?_, ?_, ?_, ?_, hdst⟩
            · have : ((k - 1 : Nat) : Int) = (k : Int) - 1 := by omega
              rw [hx, this]; ring
            · have : ((k - 1 : Nat) : Int) = (k : Int) - 1 := by omega
              rw [hy, this]; ring
            · intro j hj
              have := hon (j + 1) (by omega)
              have e1 : r + ((j + 1 : Nat) : Int) * dr = r + dr + (j : Int) * dr := by
                push_cast; ring
              have e2 : c + ((j + 1 : Nat) : Int) * dc = c + dc + (j : Int) * dc := by
                push_cast; ring
              rwa [e1, e2] at this
            · intro j hj
              have := hemp (j + 1) (by omega)
              have e1 : r + ((j + 1 : Nat) : Int) * dr = r + dr + (j : Int) * dr := by
                push_cast; ring
              have e2 : c + ((j + 1 : Nat) : Int) * dc = c + dc + (j : Int) * dc := by
                push_cast; ring
              rwa [e1, e2] at this
      | some q =>
        simp only
        constructor
        · intro hm
          by_cases hq : q.color ≠ color
          · rw [if_pos hq, List.mem_singleton, Prod.mk.injEq] at hm
            obtain ⟨rfl, rfl⟩ := hm
            refine ⟨0, by omega, by simp, by simp, ?_, ?_, ?_⟩
            · intro j hj
              have : j = 0 := by omega
              subst this; simpa using hb
            · intro j hj; omega
            · intro q2 hq2; rw [hg] at hq2; cases hq2; exact hq
          · rw [if_neg hq] at hm; cases hm
        · rintro ⟨k, hk, hx, hy, hon, hemp, hdst⟩
          rcases Nat.eq_zero_or_pos k with h0 | h0
          · subst h0
            simp at hx hy
            subst hx hy
            have hq := hdst q hg
            rw [if_pos hq]; simp
          · have := hemp 0 h0
            simp [hg] at this
    · rw [if_neg hb]
      simp only [List.not_mem_nil, false_iff]
      rintro ⟨k, hk, hx, hy, hon, hemp, hdst⟩
      have := hon 0 (by omega)
      simp at this
      exact hb this

/-- The loop of `isPathClear` entered `k` steps before the target along a
non-zero direction, with budget left and its squares on the board, returns
whether those `k` squares are all empty. -/
theorem pathLoop_spec (b : Board) (dr dc : Int) (hnz : dr ≠ 0 ∨ dc ≠ 0) (k : Nat) :
    ∀ (n : Nat) (r c : Int), k < n →
      (∀ j : Nat, j < k → onBoard (r + j * dr) (c + j * dc) = true) →
      ∃ v, pathLoop b dr dc (r + k * dr, c + k * dc) n r c = some v ∧
        (v = true ↔ ∀ j : Nat, j < k → b.get (r + j * dr) (c + j * dc) = none) := by
  induction k with
  | zero =>
    intro n r c hn _
    obtain ⟨m, rfl⟩ : ∃ m, n = m + 1 := ⟨n - 1, by omega⟩
    refine ⟨true, ?_, by simp⟩
    unfold pathLoop
    simp
  | succ k ih =>
    intro n r c hn hon
    obtain ⟨m, rfl⟩ : ∃ m, n = m + 1 := ⟨n - 1, by omega⟩
    have hb : onBoard r c = true := by simpa using hon 0 (by omega)
    have hne : r ≠ r + ((k + 1 : Nat) : Int) * dr ∨ c ≠ c + ((k + 1 : Nat) : Int) * dc := by
      rcases hnz with h | h
      · left
        intro he
        have : ((k + 1 : Nat) : Int) * dr = 0 := by linarith
        rcases mul_eq_zero.1 this with h1 | h1
        · omega
        · exact h h1
      · right
        intro he
        have : ((k + 1 : Nat) : Int) * dc = 0 := by linarith
        rcases mul_eq_zero.1 this with h1 | h1
        · omega
        · exact h h1
    unfold pathLoop
    simp only [ne_eq]
    rw [if_pos hne, if_pos hb]
    by_cases hg : b.get r c = none
    · rw [if_neg (by simpa using hg)]
      have e1 : r + ((k + 1 : Nat) : Int) * dr = r + dr + (k : Int) * dr := by push_cast; ring
      have e2 : c + ((k + 1 : Nat) : Int) * dc = c + dc + (k : Int) * dc := by push_cast; ring
      rw [e1, e2]
      obtain ⟨v, hv, hiff⟩ := ih m (r + dr) (c + dc) (by omega) (by
        intro j hj
        have := hon (j + 1) (by omega)
        have e3 : r + ((j + 1 : Nat) : Int) * dr = r + dr + (j : Int) * dr := by
          push_cast; ring
        have e4 : c + ((j + 1 : Nat) : Int) * dc = c + dc + (j : Int) * dc := by
          push_cast; ring
        rwa [e3, e4] at this)
      refine ⟨v, hv, hiff.trans ?_⟩
      constructor
      · intro h j hj
        rcases Nat.eq_zero_or_pos j with h0 | h0
        · subst h0; simpa using hg
        · have := h (j - 1) (by omega)
          have e3 : r + dr + ((j - 1 : Nat) : Int) * dr = r + (j : Int) * dr := by
            have : ((j - 1 : Nat) : Int) = (j : Int) - 1 := by omega
            rw [this]; ring
          have e4 : c + dc + ((j - 1 : Nat) : Int) * dc = c + (j : Int) * dc := by
            have : ((j - 1 : Nat) : Int) = (j : Int) - 1 := by omega
            rw [this]; ring
          rwa [e3, e4] at this
      · intro h j hj
        have := h (j + 1) (by omega)
        have e3 : r + ((j + 1 : Nat) : Int) * dr = r + dr + (j : Int) * dr := by
          push_cast; ring
        have e4 : c + ((j + 1 : Nat) : Int) * dc = c + dc + (j : Int) * dc := by
          push_cast; ring
        rwa [e3, e4] at this
    · rw [if_pos (by simpa using hg)]
      refine ⟨false, rfl, ?_⟩
      simp only [Bool.false_eq_true, false_iff]
      intro h
      exact hg (by simpa using h 0 (by omega))


theorem dirOf_ray (x dr : Int) (K : Nat) (hK : 1 ≤ K) (hdr : dr = -1 ∨ dr = 0 ∨ dr = 1) :
    dirOf (x + K * dr - x) = dr := by
  unfold dirOf
  rcases hdr with rfl | rfl | rfl
  · rw [if_neg (by omega), if_neg (by omega)]
  · rw [if_pos (by omega)]
  · rw [if_neg (by omega), if_pos (by omega)]

/-- `isPathClear` between two on-board squares `K ≥ 1` unit steps apart is
defined and tells whether the squares strictly between them are empty. -/
theorem isPathClearRun_ray (b : Board) (r0 c0 dr dc : Int) (K : Nat) (hK : 1 ≤ K)
    (hdr : dr = -1 ∨ dr = 0 ∨ dr = 1) (hdc : dc = -1 ∨ dc = 0 ∨ dc = 1)
    (hnz : dr ≠ 0 ∨ dc ≠ 0)
    (hf : onBoard r0 c0 = true) (hd : onBoard (r0 + K * dr) (c0 + K * dc) = true) :
    ∃ v, Game.isPathClearRun b (r0, c0) (r0 + K * dr, c0 + K * dc) = some v ∧
      (v = true ↔
        ∀ j : Nat, 1 ≤ j → j < K → b.get (r0 + j * dr) (c0 + j * dc) = none) := by
  unfold Game.isPathClearRun
  simp only [dirOf_ray r0 dr K hK hdr, dirOf_ray c0 dc K hK hdc]
  rw [onBoard_iff] at hf hd
  have hK8 : K - 1 < 8 := by
    rcases hdr with rfl | rfl | rfl <;> rcases hdc with rfl | rfl | rfl <;>
      omega
  have hon : ∀ j : Nat, j < K - 1 →
      onBoard (r0 + dr + j * dr) (c0 + dc + j * dc) = true := by
    intro j hj
    rw [onBoard_iff]
    rcases hdr with rfl | rfl | rfl <;> rcases hdc with rfl | rfl | rfl <;> omega
  obtain ⟨v, hv, hiff⟩ := pathLoop_spec b dr dc hnz (K - 1) 8 (r0 + dr) (c0 + dc) hK8 hon
  have e1 : r0 + dr + ((K - 1 : Nat) : Int) * dr = r0 + (K : Int) * dr := by
    have : ((K - 1 : Nat) : Int) = (K : Int) - 1 := by omega
    rw [this]; ring
  have e2 : c0 + dc + ((K - 1 : Nat) : Int) * dc = c0 + (K : Int) * dc := by
    have : ((K - 1 : Nat) : Int) = (K : Int) - 1 := by omega
    rw [this]; ring
  rw [e1, e2] at hv
  refine ⟨v, hv, hiff.trans ?_⟩
  constructor
  · intro h j hj1 hj2
    have := h (j - 1) (by omega)
    have e3 : r0 + dr + ((j - 1 : Nat) : Int) * dr = r0 + (j : Int) * dr := by
      have : ((j - 1 : Nat) : Int) = (j : Int) - 1 := by omega
      rw [this]; ring
    have e4 : c0 + dc + ((j - 1 : Nat) : Int) * dc = c0 + (j : Int) * dc := by
      have : ((j - 1 : Nat) : Int) = (j : Int) - 1 := by omega
      rw [this]; ring
    rwa [e3, e4] at this
  · intro h j hj
    have := h (j + 1) (by omega) (by omega)
    have e3 : r0 + ((j + 1 : Nat) : Int) * dr = r0 + dr + (j : Int) * dr := by
      push_cast; ring
    have e4 : c0 + ((j + 1 : Nat) : Int) * dc = c0 + dc + (j : Int) * dc := by
      push_cast; ring
    rwa [e3, e4] at this

theorem isPathClear_ray (b : Board) (r0 c0 dr dc : Int) (K : Nat) (hK : 1 ≤ K)
    (hdr : dr = -1 ∨ dr = 0 ∨ dr = 1) (hdc : dc = -1 ∨ dc = 0 ∨ dc = 1)
    (hnz : dr ≠ 0 ∨ dc ≠ 0)
    (hf : onBoard r0 c0 = true) (hd : onBoard (r0 + K * dr) (c0 + K * dc) = true) :
    Game.isPathClear b (r0, c0) (r0 + K * dr, c0 + K * dc) = true ↔
      ∀ j : Nat, 1 ≤ j → j < K → b.get (r0 + j * dr) (c0 + j * dc) = none := by
  obtain ⟨v, hv, hiff⟩ := isPathClearRun_ray b r0 c0 dr dc K hK hdr hdc hnz hf hd
  unfold Game.isPathClear
  rw [hv]
  exact hiff

/-- Membership in one ray of a sliding piece, counted from the origin. -/
theorem slide_ray (b : Board) (color : Color) (r0 c0 dr dc : Int)
    (hdr : dr = -1 ∨ dr = 0 ∨ dr = 1) (hdc : dc = -1 ∨ dc = 0 ∨ dc = 1)
    (hnz : dr ≠ 0 ∨ dc ≠ 0) (hf : onBoard r0 c0 = true) (x y : Int) :
    (x, y) ∈ slide b color dr dc 8 (r0 + dr) (c0 + dc) ↔
      ∃ K : Nat, 1 ≤ K ∧ x = r0 + K * dr ∧ y = c0 + K * dc ∧ onBoard x y = true ∧
        (∀ j : Nat, 1 ≤ j → j < K → b.get (r0 + j * dr) (c0 + j * dc) = none) ∧
        (∀ q, b.get x y = some q → q.color ≠ color) := by
  rw [slide_mem]
  rw [onBoard_iff] at hf
  constructor
  · rintro ⟨k, hk, hx, hy, hon, hemp, hdst⟩
    have e1 : r0 + dr + (k : Int) * dr = r0 + ((k + 1 : Nat) : Int) * dr := by
      push_cast; ring
    have e2 : c0 + dc + (k : Int) * dc = c0 + ((k + 1 : Nat) : Int) * dc := by
      push_cast; ring
    refine ⟨k + 1, by omega, hx.trans e1, hy.trans e2, ?_, ?_, hdst⟩
    · have := hon k (le_refl _)
      rwa [← hx, ← hy] at this
    · intro j hj1 hj2
      have := hemp (j - 1) (by omega)
      have e3 : r0 + dr + ((j - 1 : Nat) : Int) * dr = r0 + (j : Int) * dr := by
        have : ((j - 1 : Nat) : Int) = (j : Int) - 1 := by omega
        rw [this]; ring
      have e4 : c0 + dc + ((j - 1 : Nat) : Int) * dc = c0 + (j : Int) * dc := by
        have : ((j - 1 : Nat) : Int) = (j : Int) - 1 := by omega
        rw [this]; ring
      rwa [e3, e4] at this
  · rintro ⟨K, hK, hx, hy, hb, hemp, hdst⟩
    rw [onBoard_iff] at hb
    have e1 : r0 + (K : Int) * dr = r0 + dr + ((K - 1 : Nat) : Int) * dr := by
      have : ((K - 1 : Nat) : Int) = (K : Int) - 1 := by omega
      rw [this]; ring
    have e2 : c0 + (K : Int) * dc = c0 + dc + ((K - 1 : Nat) : Int) * dc := by
      have : ((K - 1 : Nat) : Int) = (K : Int) - 1 := by omega
      rw [this]; ring
    refine ⟨K - 1, ?_, hx.trans e1, hy.trans e2, ?_, ?_, hdst⟩
    · subst hx hy
      rcases hdr with rfl | rfl | rfl <;> rcases hdc with rfl | rfl | rfl <;>
        omega
    · intro j hj
      rw [onBoard_iff]
      subst hx hy
      rcases hdr with rfl | rfl | rfl <;> rcases hdc with rfl | rfl | rfl <;> omega
    · intro j hj
      have := hemp (j + 1) (by omega) (by omega)
      have e3 : r0 + ((j + 1 : Nat) : Int) * dr = r0 + dr + (j : Int) * dr := by
        push_cast; ring
      have e4 : c0 + ((j + 1 : Nat) : Int) * dc = c0 + dc + (j : Int) * dc := by
        push_cast; ring
      rwa [e3, e4] at this


theorem abs_elim (x : Int) : ∃ y : Int, |x| = y ∧ ((0 ≤ x ∧ y = x) ∨ (x < 0 ∧ y = -x)) := by
  rcases abs_cases x with ⟨h1, h2⟩ | ⟨h1, h2⟩
  · exact ⟨x, h1, Or.inl ⟨h2, rfl⟩⟩
  · exact ⟨-x, h1, Or.inr ⟨h2, rfl⟩⟩

theorem rook_shape (frm dst : Sq) :
    Rook.isValidMove frm dst = true ↔
      ∃ d ∈ rookDirections, ∃ K : Nat, 1 ≤ K ∧
        dst.1 = frm.1 + K * d.1 ∧ dst.2 = frm.2 + K * d.2 := by
  obtain ⟨r0, c0⟩ := frm
  obtain ⟨r1, c1⟩ := dst
  simp only [Rook.isValidMove, decide_eq_true_eq, rookDirections, List.mem_cons,
    List.mem_singleton, List.mem_nil_iff, or_false, exists_eq_or_imp, exists_eq_left]
  constructor
  · intro h
    rcases lt_trichotomy r1 r0 with h1 | h1 | h1 <;>
      rcases lt_trichotomy c1 c0 with h2 | h2 | h2 <;>
      first
      | (exfalso; omega)
      | exact Or.inl ⟨(r0 - r1).toNat, by omega, by omega, by omega⟩
      | exact Or.inr (Or.inl ⟨(r1 - r0).toNat, by omega, by omega, by omega⟩)
      | exact Or.inr (Or.inr (Or.inl ⟨(c0 - c1).toNat, by omega, by omega, by omega⟩))
      | exact Or.inr (Or.inr (Or.inr ⟨(c1 - c0).toNat, by omega, by omega, by omega⟩))
  · rintro (⟨K, hK, h1, h2⟩ | ⟨K, hK, h1, h2⟩ | ⟨K, hK, h1, h2⟩ | ⟨K, hK, h1, h2⟩) <;> omega

theorem bishop_shape (frm dst : Sq) :
    Bishop.isValidMove frm dst = true ↔
      ∃ d ∈ bishopDirections, ∃ K : Nat, 1 ≤ K ∧
        dst.1 = frm.1 + K * d.1 ∧ dst.2 = frm.2 + K * d.2 := by
  obtain ⟨r0, c0⟩ := frm
  obtain ⟨r1, c1⟩ := dst
  simp only [Bishop.isValidMove, decide_eq_true_eq, bishopDirections, List.mem_cons,
    List.mem_singleton, List.mem_nil_iff, or_false, exists_eq_or_imp, exists_eq_left]
  obtain ⟨a, ha, hac⟩ := abs_elim (r0 - r1)
  obtain ⟨e, he, hec⟩ := abs_elim (c0 - c1)
  rw [ha, he]
  constructor
  · intro h
    rcases lt_trichotomy r1 r0 with h1 | h1 | h1 <;>
      rcases lt_trichotomy c1 c0 with h2 | h2 | h2 <;>
      first
      | (exfalso; omega)
      | exact Or.inl ⟨(r0 - r1).toNat, by omega, by omega, by omega⟩
      | exact Or.inr (Or.inl ⟨(r0 - r1).toNat, by omega, by omega, by omega⟩)
      | exact Or.inr (Or.inr (Or.inl ⟨(r1 - r0).toNat, by omega, by omega, by omega⟩))
      | exact Or.inr (Or.inr (Or.inr ⟨(r1 - r0).toNat, by omega, by omega, by omega⟩))
  · rintro (⟨K, hK, h1, h2⟩ | ⟨K, hK, h1, h2⟩ | ⟨K, hK, h1, h2⟩ | ⟨K, hK, h1, h2⟩) <;> omega

theorem queenDirections_eq : queenDirections = rookDirections ++ bishopDirections := rfl

theorem queen_shape (frm dst : Sq) :
    Queen.isValidMove frm dst = true ↔
      ∃ d ∈ queenDirections, ∃ K : Nat, 1 ≤ K ∧
        dst.1 = frm.1 + K * d.1 ∧ dst.2 = frm.2 + K * d.2 := by
  have hq : Queen.isValidMove frm dst =
      (Rook.isValidMove frm dst || Bishop.isValidMove frm dst) := by
    simp only [Queen.isValidMove, Rook.isValidMove, Bishop.isValidMove, ← Bool.decide_or,
      or_assoc]
  rw [hq, Bool.or_eq_true, rook_shape, bishop_shape, queenDirections_eq]
  simp only [List.mem_append]
  constructor
  · rintro (⟨d, hd, h⟩ | ⟨d, hd, h⟩)
    · exact ⟨d, Or.inl hd, h⟩
    · exact ⟨d, Or.inr hd, h⟩
  · rintro ⟨d, hd | hd, h⟩
    · exact Or.inl ⟨d, hd, h⟩
    · exact Or.inr ⟨d, hd, h⟩

theorem king_shape (frm dst : Sq) :
    King.isValidMove frm dst = true ↔
      ∃ d ∈ queenDirections, dst.1 = frm.1 + d.1 ∧ dst.2 = frm.2 + d.2 := by
  obtain ⟨r0, c0⟩ := frm
  obtain ⟨r1, c1⟩ := dst
  simp only [King.isValidMove, decide_eq_true_eq, queenDirections, List.mem_cons,
    List.mem_singleton, List.mem_nil_iff, or_false, exists_eq_or_imp, exists_eq_left]
  obtain ⟨a, ha, hac⟩ := abs_elim (r0 - r1)
  obtain ⟨e, he, hec⟩ := abs_elim (c0 - c1)
  rw [ha, he]
  constructor
  · intro h
    have h1 : r1 = r0 - 1 ∨ r1 = r0 ∨ r1 = r0 + 1 := by omega
    have h2 : c1 = c0 - 1 ∨ c1 = c0 ∨ c1 = c0 + 1 := by omega
    rcases h1 with h1 | h1 | h1 <;> rcases h2 with h2 | h2 | h2 <;>
      first
      | (exfalso; omega)
      | exact Or.inl ⟨by omega, by omega⟩
      | exact Or.inr (Or.inl ⟨by omega, by omega⟩)
      | exact Or.inr (Or.inr (Or.inl ⟨by omega, by omega⟩))
      | exact Or.inr (Or.inr (Or.inr (Or.inl ⟨by omega, by omega⟩)))
      | exact Or.inr (Or.inr (Or.inr (Or.inr (Or.inl ⟨by omega, by omega⟩))))
      | exact Or.inr (Or.inr (Or.inr (Or.inr (Or.inr (Or.inl ⟨by omega, by omega⟩)))))
      | exact Or.inr (Or.inr (Or.inr (Or.inr (Or.inr (Or.inr (Or.inl ⟨by omega, by omega⟩))))))
      | exact Or.inr (Or.inr (Or.inr (Or.inr (Or.inr (Or.inr (Or.inr (⟨by omega, by omega⟩)))))))
  · rintro (⟨h1, h2⟩ | ⟨h1, h2⟩ | ⟨h1, h2⟩ | ⟨h1, h2⟩ | ⟨h1, h2⟩ | ⟨h1, h2⟩ | ⟨h1, h2⟩ |
      ⟨h1, h2⟩) <;> omega

theorem knight_shape (frm dst : Sq) :
    Knight.isValidMove frm dst = true ↔
      ∃ d ∈ knightMoves, dst.1 = frm.1 + d.1 ∧ dst.2 = frm.2 + d.2 := by
  obtain ⟨r0, c0⟩ := frm
  obtain ⟨r1, c1⟩ := dst
  simp only [Knight.isValidMove, decide_eq_true_eq, knightMoves, List.mem_cons,
    List.mem_singleton, List.mem_nil_iff, or_false, exists_eq_or_imp, exists_eq_left]
  obtain ⟨a, ha, hac⟩ := abs_elim (r0 - r1)
  obtain ⟨e, he, hec⟩ := abs_elim (c0 - c1)
  rw [ha, he]
  constructor
  · intro h
    have h1 : r1 = r0 - 2 ∨ r1 = r0 - 1 ∨ r1 = r0 + 1 ∨ r1 = r0 + 2 := by omega
    have h2 : c1 = c0 - 2 ∨ c1 = c0 - 1 ∨ c1 = c0 + 1 ∨ c1 = c0 + 2 := by omega
    rcases h1 with h1 | h1 | h1 | h1 <;> rcases h2 with h2 | h2 | h2 | h2 <;>
      first
      | (exfalso; omega)
      | exact Or.inl ⟨by omega, by omega⟩
      | exact Or.inr (Or.inl ⟨by omega, by omega⟩)
      | exact Or.inr (Or.inr (Or.inl ⟨by omega, by omega⟩))
      | exact Or.inr (Or.inr (Or.inr (Or.inl ⟨by omega, by omega⟩)))
      | exact Or.inr (Or.inr (Or.inr (Or.inr (Or.inl ⟨by omega, by omega⟩))))
      | exact Or.inr (Or.inr (Or.inr (Or.inr (Or.inr (Or.inl ⟨by omega, by omega⟩)))))
      | exact Or.inr (Or.inr (Or.inr (Or.inr (Or.inr (Or.inr (Or.inl ⟨by omega, by omega⟩))))))
      | exact Or.inr (Or.inr (Or.inr (Or.inr (Or.inr (Or.inr (Or.inr (⟨by omega, by omega⟩)))))))
  · rintro (⟨h1, h2⟩ | ⟨h1, h2⟩ | ⟨h1, h2⟩ | ⟨h1, h2⟩ | ⟨h1, h2⟩ | ⟨h1, h2⟩ | ⟨h1, h2⟩ |
      ⟨h1, h2⟩) <;> omega

theorem queenDirections_unit (d : Int × Int) (hd : d ∈ queenDirections) :
    (d.1 = -1 ∨ d.1 = 0 ∨ d.1 = 1) ∧ (d.2 = -1 ∨ d.2 = 0 ∨ d.2 = 1) ∧ (d.1 ≠ 0 ∨ d.2 ≠ 0) := by
  simp only [queenDirections, List.mem_cons, List.mem_singleton, List.mem_nil_iff,
    or_false] at hd
  rcases hd with rfl | rfl | rfl | rfl | rfl | rfl | rfl | rfl <;> simp

theorem stepMoves_mem (offs : List (Int × Int)) (p : Piece) (pos : Sq) (b : Board) (dst : Sq) :
    dst ∈ stepMoves offs p pos b ↔
      ∃ d ∈ offs, dst.1 = pos.1 + d.1 ∧ dst.2 = pos.2 + d.2 ∧ onBoard dst.1 dst.2 = true ∧
        ∀ q, b.get dst.1 dst.2 = some q → q.color ≠ p.color := by
  simp only [stepMoves, List.mem_filterMap]
  constructor
  · rintro ⟨d, hd, h⟩
    refine ⟨d, hd, ?_⟩
    by_cases hb : onBoard (pos.1 + d.1) (pos.2 + d.2) = true
    · rw [if_pos hb] at h
      cases hg : b.get (pos.1 + d.1) (pos.2 + d.2) with
      | none =>
        rw [hg] at h
        simp only [Option.some.injEq] at h
        subst h
        exact ⟨rfl, rfl, hb, by intro q hq; rw [hg] at hq; cases hq⟩
      | some q =>
        rw [hg] at h
        by_cases hq : q.color ≠ p.color
        · simp only [if_pos hq, Option.some.injEq] at h
          subst h
          exact ⟨rfl, rfl, hb, by intro q2 hq2; rw [hg] at hq2; cases hq2; exact hq⟩
        · simp [hq] at h
    · simp [hb] at h
  · rintro ⟨d, hd, h1, h2, hb, hq⟩
    refine ⟨d, hd, ?_⟩
    have e : dst = (pos.1 + d.1, pos.2 + d.2) := Prod.ext h1 h2
    subst e
    rw [if_pos hb]
    cases hg : b.get (pos.1 + d.1) (pos.2 + d.2) with
    | none => rfl
    | some q =>
      have := hq q hg
      simp only [if_pos this]

theorem slideMoves_mem (dirs : List (Int × Int)) (hdirs : ∀ d ∈ dirs, d ∈ queenDirections)
    (p : Piece) (pos : Sq) (b : Board) (hf : onBoard pos.1 pos.2 = true) (dst : Sq) :
    dst ∈ slideMoves dirs p pos b ↔
      ∃ d ∈ dirs, ∃ K : Nat, 1 ≤ K ∧ dst.1 = pos.1 + K * d.1 ∧ dst.2 = pos.2 + K * d.2 ∧
        onBoard dst.1 dst.2 = true ∧
        (∀ j : Nat, 1 ≤ j → j < K → b.get (pos.1 + j * d.1) (pos.2 + j * d.2) = none) ∧
        (∀ q, b.get dst.1 dst.2 = some q → q.color ≠ p.color) := by
  simp only [slideMoves, List.mem_flatMap]
  constructor
  · rintro ⟨d, hd, h⟩
    obtain ⟨h1, h2, h3⟩ := queenDirections_unit d (hdirs d hd)
    exact ⟨d, hd, (slide_ray b p.color pos.1 pos.2 d.1 d.2 h1 h2 h3 hf dst.1 dst.2).1 h⟩
  · rintro ⟨d, hd, h⟩
    obtain ⟨h1, h2, h3⟩ := queenDirections_unit d (hdirs d hd)
    exact ⟨d, hd, (slide_ray b p.color pos.1 pos.2 d.1 d.2 h1 h2 h3 hf dst.1 dst.2).2 h⟩


/-! ## `isValidMove` against `getPossibleMoves`, kind by kind -/

/-- A sliding piece: colour test, shape and clear path together are membership
in the list of the sliding loops. -/
theorem sliding_valid_iff (dirs : List (Int × Int)) (hdirs : ∀ d ∈ dirs, d ∈ queenDirections)
    (shape : Sq → Sq → Bool)
    (hshape : ∀ frm dst, shape frm dst = true ↔
      ∃ d ∈ dirs, ∃ K : Nat, 1 ≤ K ∧ dst.1 = frm.1 + K * d.1 ∧ dst.2 = frm.2 + K * d.2)
    (b : Board) (p : Piece) (frm dst : Sq)
    (hf : onBoard frm.1 frm.2 = true) (hd : onBoard dst.1 dst.2 = true) :
    ((∀ q, b.get dst.1 dst.2 = some q → q.color ≠ p.color) ∧ shape frm dst = true ∧
        Game.isPathClear b frm dst = true) ↔
      dst ∈ slideMoves dirs p frm b := by
  rw [slideMoves_mem dirs hdirs p frm b hf dst]
  obtain ⟨r0, c0⟩ := frm
  obtain ⟨r1, c1⟩ := dst
  constructor
  · rintro ⟨hq, hs, hpc⟩
    obtain ⟨d, hdm, K, hK, h1, h2⟩ := (hshape _ _).1 hs
    simp only at h1 h2
    subst h1 h2
    obtain ⟨u1, u2, u3⟩ := queenDirections_unit d (hdirs d hdm)
    exact ⟨d, hdm, K, hK, rfl, rfl, hd,
      (isPathClear_ray b r0 c0 d.1 d.2 K hK u1 u2 u3 hf hd).1 hpc, hq⟩
  · rintro ⟨d, hdm, K, hK, h1, h2, _, hclear, hq⟩
    simp only at h1 h2
    subst h1 h2
    obtain ⟨u1, u2, u3⟩ := queenDirections_unit d (hdirs d hdm)
    exact ⟨hq, (hshape _ _).2 ⟨d, hdm, K, hK, rfl, rfl⟩,
      (isPathClear_ray b r0 c0 d.1 d.2 K hK u1 u2 u3 hf hd).2 hclear⟩

theorem king_valid_iff (b : Board) (p : Piece) (frm dst : Sq)
    (hf : onBoard frm.1 frm.2 = true) (hd : onBoard dst.1 dst.2 = true) :
    ((∀ q, b.get dst.1 dst.2 = some q → q.color ≠ p.color) ∧ King.isValidMove frm dst = true ∧
        Game.isPathClear b frm dst = true) ↔
      dst ∈ stepMoves queenDirections p frm b := by
  rw [stepMoves_mem, king_shape]
  obtain ⟨r0, c0⟩ := frm
  obtain ⟨r1, c1⟩ := dst
  constructor
  · rintro ⟨hq, ⟨d, hdm, h1, h2⟩, _⟩
    exact ⟨d, hdm, h1, h2, hd, hq⟩
  · rintro ⟨d, hdm, h1, h2, _, hq⟩
    refine ⟨hq, ⟨d, hdm, h1, h2⟩, ?_⟩
    simp only at h1 h2
    subst h1 h2
    obtain ⟨u1, u2, u3⟩ := queenDirections_unit d hdm
    have hd2 : onBoard (r0 + ((1 : Nat) : Int) * d.1) (c0 + ((1 : Nat) : Int) * d.2) = true := by
      simpa using hd
    have := (isPathClear_ray b r0 c0 d.1 d.2 1 (le_refl _) u1 u2 u3 hf hd2).2
      (by intro j h1 h2; omega)
    simpa using this

theorem knight_valid_iff (b : Board) (p : Piece) (frm dst : Sq)
    (hd : onBoard dst.1 dst.2 = true) :
    ((∀ q, b.get dst.1 dst.2 = some q → q.color ≠ p.color) ∧
        Knight.isValidMove frm dst = true) ↔
      dst ∈ stepMoves knightMoves p frm b := by
  rw [stepMoves_mem, knight_shape]
  constructor
  · rintro ⟨hq, ⟨d, hdm, h1, h2⟩⟩
    exact ⟨d, hdm, h1, h2, hd, hq⟩
  · rintro ⟨d, hdm, h1, h2, _, hq⟩
    exact ⟨hq, ⟨d, hdm, h1, h2⟩⟩

theorem Pawn.direction_cases (c : Color) : Pawn.direction c = -1 ∨ Pawn.direction c = 1 := by
  unfold Pawn.direction
  cases c <;> simp

theorem pawn_list_mem (p : Piece) (pos : Sq) (b : Board) (dst : Sq) :
    dst ∈ Pawn.getPossibleMoves p pos b ↔
      (dst = (pos.1 + Pawn.direction p.color, pos.2) ∧
        0 ≤ pos.1 + Pawn.direction p.color ∧ pos.1 + Pawn.direction p.color < 8 ∧
        b.get (pos.1 + Pawn.direction p.color) pos.2 = none) ∨
      (dst = (pos.1 + 2 * Pawn.direction p.color, pos.2) ∧
        0 ≤ pos.1 + Pawn.direction p.color ∧ pos.1 + Pawn.direction p.color < 8 ∧
        b.get (pos.1 + Pawn.direction p.color) pos.2 = none ∧
        p.hasMoved = false ∧
        0 ≤ pos.1 + 2 * Pawn.direction p.color ∧ pos.1 + 2 * Pawn.direction p.color < 8 ∧
        b.get (pos.1 + 2 * Pawn.direction p.color) pos.2 = none) ∨
      (∃ c, (c = pos.2 - 1 ∨ c = pos.2 + 1) ∧ dst = (pos.1 + Pawn.direction p.color, c) ∧
        onBoard (pos.1 + Pawn.direction p.color) c = true ∧
        ∃ q, b.get (pos.1 + Pawn.direction p.color) c = some q ∧ q.color ≠ p.color) := by
  unfold Pawn.getPossibleMoves
  simp only [List.mem_append, List.mem_filterMap, List.mem_cons, List.mem_singleton,
    List.mem_nil_iff, or_false]
  have hfwd : ∀ (A B : Prop) [Decidable A] [Decidable B] (x y : Sq),
      (dst ∈ if A then x :: (if B then [y] else []) else []) ↔
        ((dst = x ∧ A) ∨ (dst = y ∧ A ∧ B)) := by
    intro A B _ _ x y
    by_cases hA : A <;> by_cases hB : B <;> simp [hA, hB]
  rw [hfwd]
  constructor
  · rintro ((⟨h1, h2, h3, h4⟩ | ⟨h1, ⟨h2, h3, h4⟩, h5, h6, h7, h8⟩) | ⟨c, hc, h⟩)
    · exact Or.inl ⟨h1, h2, h3, h4⟩
    · exact Or.inr (Or.inl ⟨h1, h2, h3, h4, h5, h6, h7, h8⟩)
    · refine Or.inr (Or.inr ⟨c, hc, ?_⟩)
      by_cases hb : onBoard (pos.1 + Pawn.direction p.color) c = true
      · rw [if_pos hb] at h
        cases hg : b.get (pos.1 + Pawn.direction p.color) c with
        | none => rw [hg] at h; cases h
        | some q =>
          rw [hg] at h
          by_cases hq : q.color ≠ p.color
          · simp only [if_pos hq, Option.some.injEq] at h
            exact ⟨h.symm, hb, q, rfl, hq⟩
          · simp only [if_neg hq] at h
            cases h
      · rw [if_neg hb] at h; cases h
  · rintro (⟨h1, h2, h3, h4⟩ | ⟨h1, h2, h3, h4, h5, h6, h7, h8⟩ | ⟨c, hc, h1, hb, q, hg, hq⟩)
    · exact Or.inl (Or.inl ⟨h1, h2, h3, h4⟩)
    · exact Or.inl (Or.inr ⟨h1, ⟨h2, h3, h4⟩, h5, h6, h7, h8⟩)
    · refine Or.inr ⟨c, hc, ?_⟩
      rw [if_pos hb]
      simp only [hg, if_pos hq, h1]


theorem pawn_shape (p : Piece) (frm dst : Sq) (b : Board) :
    Pawn.isValidMove p frm dst b = true ↔
      (frm.2 = dst.2 ∧ dst.1 = frm.1 + Pawn.direction p.color ∧ b.get dst.1 dst.2 = none) ∨
      (frm.2 = dst.2 ∧ p.hasMoved = false ∧ dst.1 = frm.1 + 2 * Pawn.direction p.color ∧
        b.get dst.1 dst.2 = none ∧ b.get (frm.1 + Pawn.direction p.color) frm.2 = none) ∨
      (frm.2 ≠ dst.2 ∧ |frm.2 - dst.2| = 1 ∧ dst.1 = frm.1 + Pawn.direction p.color ∧
        ∃ q, b.get dst.1 dst.2 = some q ∧ q.color ≠ p.color) := by
  unfold Pawn.isValidMove
  simp only
  by_cases hcol : frm.2 = dst.2
  · rw [if_pos hcol]
    by_cases hA : dst.1 = frm.1 + Pawn.direction p.color ∧ b.get dst.1 dst.2 = none
    · rw [if_pos hA]
      simp only [true_iff]
      exact Or.inl ⟨hcol, hA.1, hA.2⟩
    · rw [if_neg hA]
      by_cases hB : p.hasMoved = false ∧ dst.1 = frm.1 + 2 * Pawn.direction p.color ∧
          b.get dst.1 dst.2 = none ∧ b.get (frm.1 + Pawn.direction p.color) frm.2 = none
      · rw [if_pos hB]
        simp only [true_iff]
        exact Or.inr (Or.inl ⟨hcol, hB⟩)
      · rw [if_neg hB]
        simp only [Bool.false_eq_true, false_iff]
        rintro (⟨_, h1, h2⟩ | ⟨_, h⟩ | ⟨h, _⟩)
        · exact hA ⟨h1, h2⟩
        · exact hB h
        · exact h hcol
  · rw [if_neg hcol]
    by_cases hD : |frm.2 - dst.2| = 1 ∧ dst.1 = frm.1 + Pawn.direction p.color
    · rw [if_pos hD]
      cases hg : b.get dst.1 dst.2 with
      | none =>
        simp only [Bool.false_eq_true, false_iff]
        rintro (⟨h, _⟩ | ⟨h, _⟩ | ⟨_, _, _, q, hq, _⟩)
        · exact hcol h
        · exact hcol h
        · cases hq
      | some q =>
        by_cases hq : q.color ≠ p.color
        · simp only [if_pos hq, true_iff]
          exact Or.inr (Or.inr ⟨hcol, hD.1, hD.2, q, rfl, hq⟩)
        · simp only [if_neg hq, Bool.false_eq_true, false_iff]
          rintro (⟨h, _⟩ | ⟨h, _⟩ | ⟨_, _, _, q2, hq2, hq3⟩)
          · exact hcol h
          · exact hcol h
          · cases hq2; exact hq hq3
    · rw [if_neg hD]
      simp only [Bool.false_eq_true, false_iff]
      rintro (⟨h, _⟩ | ⟨h, _⟩ | ⟨_, h1, h2, _⟩)
      · exact hcol h
      · exact hcol h
      · exact hD ⟨h1, h2⟩

theorem pawn_valid_iff (b : Board) (p : Piece) (frm dst : Sq)
    (hf : onBoard frm.1 frm.2 = true) (hd : onBoard dst.1 dst.2 = true) :
    ((∀ q, b.get dst.1 dst.2 = some q → q.color ≠ p.color) ∧
        Pawn.isValidMove p frm dst b = true ∧ Game.isPathClear b frm dst = true) ↔
      dst ∈ Pawn.getPossibleMoves p frm b := by
  rw [pawn_list_mem, pawn_shape]
  obtain ⟨r0, c0⟩ := frm
  obtain ⟨r1, c1⟩ := dst
  simp only [Prod.mk.injEq] at *
  have hδ := Pawn.direction_cases p.color
  generalize Pawn.direction p.color = δ at *
  have hfb := (onBoard_iff _ _).1 hf
  have hdb := (onBoard_iff _ _).1 hd
  have step1 : ∀ (dc : Int), (dc = -1 ∨ dc = 0 ∨ dc = 1) → r1 = r0 + δ → c1 = c0 + dc →
      Game.isPathClear b (r0, c0) (r1, c1) = true := by
    intro dc hdc h1 h2
    subst h1 h2
    have hd2 : onBoard (r0 + ((1 : Nat) : Int) * δ) (c0 + ((1 : Nat) : Int) * dc) = true := by
      simpa using hd
    have := (isPathClear_ray b r0 c0 δ dc 1 (le_refl _) (by omega) hdc (by omega) hf hd2).2
      (by intro j h1 h2; omega)
    simpa using this
  have step2 : r1 = r0 + 2 * δ → c1 = c0 → b.get (r0 + δ) c0 = none →
      Game.isPathClear b (r0, c0) (r1, c1) = true := by
    intro h1 h2 h3
    have hd2 : onBoard (r0 + ((2 : Nat) : Int) * δ) (c0 + ((2 : Nat) : Int) * 0) = true := by
      rw [h1, h2] at hd; simpa using hd
    have := (isPathClear_ray b r0 c0 δ 0 2 (by omega) (by omega) (by omega) (by omega) hf
      hd2).2 (by
        intro j h1 h2
        have : j = 1 := by omega
        subst this
        simpa using h3)
    rw [h1, h2]
    simpa using this
  constructor
  · rintro ⟨_, (⟨h1, h2, h3⟩ | ⟨h1, h2, h3, h4, h5⟩ | ⟨h1, h2, h3, q, h4, h5⟩), _⟩
    · refine Or.inl ⟨⟨h2, h1.symm⟩, by omega, by omega, ?_⟩
      rw [← h2, h1]; exact h3
    · refine Or.inr (Or.inl ⟨⟨h3, h1.symm⟩, by omega, by omega, h5, h2, by omega, by omega, ?_⟩)
      rw [← h3, h1]; exact h4
    · obtain ⟨a, ha, hac⟩ := abs_elim (c0 - c1)
      rw [ha] at h2
      refine Or.inr (Or.inr ⟨c1, by omega, ⟨h3, rfl⟩, ?_, q, ?_, h5⟩)
      · rw [← h3]; exact hd
      · rw [← h3]; exact h4
  · rintro (⟨⟨h1, h2⟩, _, _, h3⟩ | ⟨⟨h1, h2⟩, _, _, h3, h4, _, _, h5⟩ |
      ⟨c, hc, ⟨h1, h2⟩, _, q, h3, h4⟩)
    · have h3b : b.get r1 c1 = none := by rw [h1, h2]; exact h3
      refine ⟨(by intro q hq; rw [h3b] at hq; cases hq), Or.inl ⟨h2.symm, h1, h3b⟩, ?_⟩
      exact step1 0 (by omega) h1 (by omega)
    · have h5b : b.get r1 c1 = none := by rw [h1, h2]; exact h5
      refine ⟨(by intro q hq; rw [h5b] at hq; cases hq),
        Or.inr (Or.inl ⟨h2.symm, h4, h1, h5b, h3⟩), ?_⟩
      exact step2 h1 h2 h3
    · have h3b : b.get r1 c1 = some q := by rw [h1, h2]; exact h3
      refine ⟨(by intro q2 hq2; rw [h3b] at hq2; cases hq2; exact h4), ?_, ?_⟩
      · refine Or.inr (Or.inr ⟨by omega, ?_, h1, q, h3b, h4⟩)
        obtain ⟨a, ha, hac⟩ := abs_elim (c0 - c1)
        rw [ha]; omega
      · exact step1 (c1 - c0) (by omega) h1 (by omega)


/-! ## The step budgets are enough -/

theorem slide_succ (b : Board) (color : Color) (dr dc : Int) (n : Nat) :
    ∀ (r c : Int), (∃ j : Nat, j ≤ n ∧ onBoard (r + j * dr) (c + j * dc) = false) →
      slide b color dr dc (n + 1) r c = slide b color dr dc n r c := by
  induction n with
  | zero =>
    rintro r c ⟨j, hj, hoff⟩
    have : j = 0 := by omega
    subst this
    simp only [Nat.cast_zero, zero_mul, add_zero] at hoff
    simp [slide, hoff]
  | succ n ih =>
    rintro r c ⟨j, hj, hoff⟩
    rw [slide]
    conv_rhs => rw [slide]
    by_cases hb : onBoard r c = true
    · rw [if_pos hb, if_pos hb]
      have hj0 : j ≠ 0 := by
        rintro rfl
        simp only [Nat.cast_zero, zero_mul, add_zero] at hoff
        rw [hb] at hoff; cases hoff
      have hnext : ∃ i : Nat, i ≤ n ∧ onBoard (r + dr + i * dr) (c + dc + i * dc) = false := by
        refine ⟨j - 1, by omega, ?_⟩
        have e1 : r + dr + ((j - 1 : Nat) : Int) * dr = r + (j : Int) * dr := by
          have : ((j - 1 : Nat) : Int) = (j : Int) - 1 := by omega
          rw [this]; ring
        have e2 : c + dc + ((j - 1 : Nat) : Int) * dc = c + (j : Int) * dc := by
          have : ((j - 1 : Nat) : Int) = (j : Int) - 1 := by omega
          rw [this]; ring
        rw [e1, e2]; exact hoff
      rw [ih (r + dr) (c + dc) hnext]
    · rw [if_neg hb, if_neg hb]

/-- Eight steps are enough for the sliding loop: along a unit direction a larger
budget gives the same list. -/
theorem slide_budget (b : Board) (color : Color) (dr dc : Int)
    (hdr : dr = -1 ∨ dr = 0 ∨ dr = 1) (hdc : dc = -1 ∨ dc = 0 ∨ dc = 1)
    (hnz : dr ≠ 0 ∨ dc ≠ 0) (r c : Int) (n : Nat) (hn : 8 ≤ n) :
    slide b color dr dc n r c = slide b color dr dc 8 r c := by
  induction n with
  | zero => omega
  | succ n ih =>
    rcases Nat.eq_or_lt_of_le hn with h | h
    · rw [← h]
    · have h8 : 8 ≤ n := by omega
      rw [← ih h8]
      apply slide_succ
      by_cases hb : onBoard r c = true
      · rw [onBoard_iff] at hb
        have hex : ∃ j : Nat, j ≤ 8 ∧ ¬ (0 ≤ r + j * dr ∧ r + j * dr < 8 ∧
            0 ≤ c + j * dc ∧ c + j * dc < 8) := by
          rcases hdr with rfl | rfl | rfl <;> rcases hdc with rfl | rfl | rfl
          · exact ⟨(r + 1).toNat, by omega, by omega⟩
          · exact ⟨(r + 1).toNat, by omega, by omega⟩
          · exact ⟨(r + 1).toNat, by omega, by omega⟩
          · exact ⟨(c + 1).toNat, by omega, by omega⟩
          · exact absurd rfl (by omega : ¬ ((0 : Int) = 0))
          · exact ⟨(8 - c).toNat, by omega, by omega⟩
          · exact ⟨(8 - r).toNat, by omega, by omega⟩
          · exact ⟨(8 - r).toNat, by omega, by omega⟩
          · exact ⟨(8 - r).toNat, by omega, by omega⟩
        obtain ⟨j, hj, hoff⟩ := hex
        refine ⟨j, by omega, ?_⟩
        rw [← onBoard_iff] at hoff
        simpa using hoff
      · exact ⟨0, by omega, by simpa using hb⟩

/-- `isPathClear` has a defined result on every pair of on-board squares that are
equal or share a row, a column or a diagonal. -/
theorem isPathClearRun_defined (b : Board) (frm dst : Sq)
    (hf : onBoard frm.1 frm.2 = true) (hd : onBoard dst.1 dst.2 = true)
    (halign : frm.1 = dst.1 ∨ frm.2 = dst.2 ∨ |frm.1 - dst.1| = |frm.2 - dst.2|) :
    ∃ v, Game.isPathClearRun b frm dst = some v := by
  by_cases he : frm = dst
  · subst he
    refine ⟨true, ?_⟩
    unfold Game.isPathClearRun
    simp [dirOf, pathLoop]
  · have hq : Queen.isValidMove frm dst = true := by
      obtain ⟨r0, c0⟩ := frm
      obtain ⟨r1, c1⟩ := dst
      simp only [Queen.isValidMove, decide_eq_true_eq]
      simp only [Prod.mk.injEq] at he
      obtain ⟨a, ha, hac⟩ := abs_elim (r0 - r1)
      obtain ⟨e, he2, hec⟩ := abs_elim (c0 - c1)
      simp only at halign
      rw [ha, he2] at halign ⊢
      omega
    obtain ⟨d, hdm, K, hK, h1, h2⟩ := (queen_shape frm dst).1 hq
    obtain ⟨u1, u2, u3⟩ := queenDirections_unit d hdm
    obtain ⟨r0, c0⟩ := frm
    obtain ⟨r1, c1⟩ := dst
    simp only at h1 h2
    subst h1 h2
    obtain ⟨v, hv, _⟩ := isPathClearRun_ray b r0 c0 d.1 d.2 K hK u1 u2 u3 hf hd
    exact ⟨v, hv⟩


/-! ## Check, checkmate and stalemate -/

/-- `Game::isValidMove` agrees with membership in the piece's
`getPossibleMoves` list, for on-board squares. -/
theorem isValidMove_iff_mem (b : Board) (frm dst : Sq) (p : Piece)
    (hf : onBoard frm.1 frm.2 = true) (hd : onBoard dst.1 dst.2 = true)
    (hget : b.get frm.1 frm.2 = some p) :
    Game.isValidMove b frm dst = true ↔ dst ∈ p.getPossibleMoves frm b := by
  rw [isValidMove_iff]
  simp only [hf, hd, hget, true_and, Option.some.injEq, exists_eq_left']
  unfold Piece.isValidMove Piece.getPossibleMoves
  cases hk : p.kind <;> simp only [reduceCtorEq, false_or, true_or, and_true]
  · exact pawn_valid_iff b p frm dst hf hd
  · exact knight_valid_iff b p frm dst hd
  · exact sliding_valid_iff bishopDirections (by decide) (fun f d => Bishop.isValidMove f d)
      bishop_shape b p frm dst hf hd
  · exact sliding_valid_iff rookDirections (by decide) (fun f d => Rook.isValidMove f d)
      rook_shape b p frm dst hf hd
  · exact sliding_valid_iff queenDirections (fun _ h => h) (fun f d => Queen.isValidMove f d)
      queen_shape b p frm dst hf hd
  · exact king_valid_iff b p frm dst hf hd

theorem noEscape_iff (b : Board) (color : Color) :
    Game.noEscape b color = true ↔
      ∀ (sq : Sq) (p : Piece) (m : Sq), b.get sq.1 sq.2 = some p → p.color = color →
        m ∈ p.getPossibleMoves sq b → (Game.wouldBeInCheck b sq m color).1 = true := by
  unfold Game.noEscape
  simp only [List.all_eq_true, mem_allSquares, wouldBeInCheck_fst]
  constructor
  · intro h sq p m hg hc hm
    have := h sq (Board.onBoard_of_get hg)
    rw [hg] at this
    simp only [hc, ne_eq, not_true_eq_false, decide_False, Bool.false_or,
      List.all_eq_true] at this
    exact this m hm
  · intro h sq _
    cases hg : b.get sq.1 sq.2 with
    | none => rfl
    | some p =>
      by_cases hc : p.color = color
      · simp only [hc, ne_eq, not_true_eq_false, decide_False, Bool.false_or, List.all_eq_true]
        intro m hm
        exact h sq p m hg hc hm
      · simp [hc]

theorem noEscape_iff_valid (b : Board) (color : Color) :
    Game.noEscape b color = true ↔
      ∀ (frm dst : Sq) (p : Piece), b.get frm.1 frm.2 = some p → p.color = color →
        Game.isValidMove b frm dst = true → (Game.wouldBeInCheck b frm dst color).1 = true := by
  rw [noEscape_iff]
  constructor
  · intro h frm dst p hg hc hv
    obtain ⟨hf, hd, _⟩ := (isValidMove_iff b frm dst).1 hv
    exact h frm p dst hg hc ((isValidMove_iff_mem b frm dst p hf hd hg).1 hv)
  · intro h sq p m hg hc hm
    have hf := Board.onBoard_of_get hg
    have hd := possibleMoves_onBoard p sq b hf m hm
    exact h sq m p hg hc ((isValidMove_iff_mem b sq m p hf hd hg).2 hm)

theorem isKingAt_iff (b : Board) (color : Color) (sq : Sq) :
    Game.isKingAt b color sq = true ↔
      ∃ p, b.get sq.1 sq.2 = some p ∧ p.kind = .King ∧ p.color = color := by
  unfold Game.isKingAt
  cases b.get sq.1 sq.2 <;> simp

set_option maxRecDepth 100000 in
theorem allSquares_sorted : allSquares.Pairwise (fun s k => rowMajorLt s k = true) := by
  decide!

theorem rowMajorLt_asymm (s k : Sq) (h : rowMajorLt s k = true) : rowMajorLt k s = false := by
  unfold rowMajorLt at *
  simp only [decide_eq_true_eq, decide_eq_false_iff_not] at *
  omega

theorem rowMajorLt_total (s k : Sq) (h1 : rowMajorLt s k = false) (h2 : rowMajorLt k s = false) :
    s = k := by
  unfold rowMajorLt at *
  simp only [decide_eq_false_iff_not] at *
  exact Prod.ext (by omega) (by omega)

theorem isFirstKing_of_find (b : Board) (color : Color) (k : Sq)
    (h : allSquares.find? (Game.isKingAt b color) = some k) : IsFirstKing b color k := by
  obtain ⟨hk, as, bs, hsplit, has⟩ := List.find?_eq_some.1 h
  have hmem : k ∈ allSquares := by rw [hsplit]; simp
  refine ⟨(mem_allSquares k).1 hmem, (isKingAt_iff b color k).1 hk, ?_⟩
  intro s hs
  have hsb : onBoard s.1 s.2 = true := by
    obtain ⟨p, hp, _⟩ := hs
    exact Board.onBoard_of_get hp
  have hsk := (isKingAt_iff b color s).2 hs
  have hsm : s ∈ as ++ k :: bs := by rw [← hsplit]; exact (mem_allSquares s).2 hsb
  have hsorted := allSquares_sorted
  rw [hsplit, List.pairwise_append] at hsorted
  obtain ⟨_, hkbs, _⟩ := hsorted
  rw [List.pairwise_cons] at hkbs
  rcases List.mem_append.1 hsm with h1 | h1
  · have := has s h1
    rw [hsk] at this
    cases this
  · rcases List.mem_cons.1 h1 with h2 | h2
    · subst h2
      unfold rowMajorLt
      simp only [decide_eq_false_iff_not]
      omega
    · exact rowMajorLt_asymm k s (hkbs.1 s h2)

theorem find_of_isFirstKing (b : Board) (color : Color) (k : Sq) (h : IsFirstKing b color k) :
    allSquares.find? (Game.isKingAt b color) = some k := by
  obtain ⟨hb, hk, hfirst⟩ := h
  cases hf : allSquares.find? (Game.isKingAt b color) with
  | none =>
    rw [List.find?_eq_none] at hf
    exact absurd ((isKingAt_iff b color k).2 hk) (hf k ((mem_allSquares k).2 hb))
  | some k0 =>
    obtain ⟨_, hk0, hfirst0⟩ := isFirstKing_of_find b color k0 hf
    rw [rowMajorLt_total k0 k (hfirst k0 hk0) (hfirst0 k hk)]

theorem findKing_of_isFirstKing (b : Board) (color : Color) (k : Sq)
    (h : IsFirstKing b color k) : Game.findKing b color = k := by
  unfold Game.findKing
  rw [find_of_isFirstKing b color k h]

theorem findKing_cases (b : Board) (color : Color) :
    IsFirstKing b color (Game.findKing b color) ∨
      (Game.findKing b color = (-1, -1) ∧
        ¬ ∃ (k : Sq) (p : Piece), b.get k.1 k.2 = some p ∧ p.kind = .King ∧ p.color = color) := by
  unfold Game.findKing
  cases hf : allSquares.find? (Game.isKingAt b color) with
  | none =>
    right
    refine ⟨rfl, ?_⟩
    rintro ⟨k, p, hp, hk, hc⟩
    rw [List.find?_eq_none] at hf
    exact hf k ((mem_allSquares k).2 (Board.onBoard_of_get hp))
      ((isKingAt_iff b color k).2 ⟨p, hp, hk, hc⟩)
  | some k0 => exact Or.inl (isFirstKing_of_find b color k0 hf)

theorem attacks_iff (b : Board) (color : Color) (k s : Sq) (hk : IsFirstKing b color k) :
    Game.attacks b color k s = true ↔
      ∃ q, b.get s.1 s.2 = some q ∧ q.color ≠ color ∧ Game.isValidMove b s k = true := by
  obtain ⟨hkb, ⟨pk, hpk, _, hpc⟩, _⟩ := hk
  unfold Game.attacks
  cases hg : b.get s.1 s.2 with
  | none => simp
  | some q =>
    simp only [Option.some.injEq, exists_eq_left', Bool.and_eq_true, decide_eq_true_eq,
      Bool.or_eq_true, isValidMove_iff, hkb, hg, true_and, Board.onBoard_of_get hg, hpk]
    constructor
    · rintro ⟨h1, h2, h3⟩
      exact ⟨h1, fun q1 hq1 hh => h1 (hh.symm.trans (hq1 ▸ hpc)), h2, h3⟩
    · rintro ⟨h1, _, h2, h3⟩
      exact ⟨h1, h2, h3⟩



/-! ## Claims C7 to C10: check detection and the two legality views -/

/-- C7: `isInCheck(c)` is true exactly when a king of colour `c` is on the
board and, with `k` the first such king square in row-major order, some square
holds a piece of the other colour for which `Game::isValidMove(s, k)` holds; on
a board without a king of colour `c` it is false. -/
theorem isInCheck_iff (b : Board) (color : Color) :
    (Game.isInCheck b color = true ↔
      ∃ k : Sq, IsFirstKing b color k ∧
        ∃ (s : Sq) (q : Piece), b.get s.1 s.2 = some q ∧ q.color ≠ color ∧
          Game.isValidMove b s k = true) ∧
    ((¬ ∃ (k : Sq) (p : Piece), b.get k.1 k.2 = some p ∧ p.kind = .King ∧ p.color = color) →
      Game.isInCheck b color = false) := by
  constructor
  · constructor
    · intro h
      unfold Game.isInCheck at h
      simp only at h
      rcases findKing_cases b color with hk | ⟨hk, _⟩
      · refine ⟨Game.findKing b color, hk, ?_⟩
        have hne : ¬ (Game.findKing b color).1 = -1 := by
          have := (onBoard_iff _ _).1 hk.1
          omega
        rw [if_neg hne, List.any_eq_true] at h
        obtain ⟨s, _, hs⟩ := h
        obtain ⟨q, hq, hc, hv⟩ := (attacks_iff b color _ s hk).1 hs
        exact ⟨s, q, hq, hc, hv⟩
      · rw [hk] at h
        simp at h
    · rintro ⟨k, hk, s, q, hq, hc, hv⟩
      unfold Game.isInCheck
      simp only
      rw [findKing_of_isFirstKing b color k hk]
      have hne : ¬ k.1 = -1 := by
        have := (onBoard_iff _ _).1 hk.1
        omega
      rw [if_neg hne, List.any_eq_true]
      exact ⟨s, (mem_allSquares s).2 (Board.onBoard_of_get hq),
        (attacks_iff b color k s hk).2 ⟨q, hq, hc, hv⟩⟩
  · intro hno
    rcases findKing_cases b color with hk | ⟨hk, _⟩
    · obtain ⟨_, ⟨p, hp⟩, _⟩ := hk
      exact absurd ⟨_, p, hp⟩ hno
    · unfold Game.isInCheck
      simp only [hk, if_true]

/-- C8: `isCheckmate(c)` is true exactly when `isInCheck(c)` is true and every
pseudo-legal move of a piece of colour `c` (a pair accepted by
`Game::isValidMove`) has `wouldBeInCheck` true. -/
theorem isCheckmate_iff (b : Board) (color : Color) :
    (Game.isCheckmate b color).1 = true ↔
      Game.isInCheck b color = true ∧
      ∀ (frm dst : Sq) (p : Piece), b.get frm.1 frm.2 = some p → p.color = color →
        Game.isValidMove b frm dst = true →
        (Game.wouldBeInCheck b frm dst color).1 = true := by
  rw [isCheckmate_eq, ← noEscape_iff_valid]
  simp only [Bool.and_eq_true]

/-- C9: `isStalemate(c)` and `isCheckmate(c)` are never both true; one of them
is true exactly when no piece of colour `c` has an entry in its
`getPossibleMoves` list with `wouldBeInCheck` false; and then stalemate is the
case `isInCheck(c)` false, checkmate the case `isInCheck(c)` true. -/
theorem stalemate_checkmate_split (b : Board) (color : Color) :
    ¬ ((Game.isStalemate b color).1 = true ∧ (Game.isCheckmate b color).1 = true) ∧
    (((Game.isStalemate b color).1 = true ∨ (Game.isCheckmate b color).1 = true) ↔
      ∀ (sq : Sq) (p : Piece) (m : Sq), b.get sq.1 sq.2 = some p → p.color = color →
        m ∈ p.getPossibleMoves sq b → (Game.wouldBeInCheck b sq m color).1 = true) ∧
    ((∀ (sq : Sq) (p : Piece) (m : Sq), b.get sq.1 sq.2 = some p → p.color = color →
        m ∈ p.getPossibleMoves sq b → (Game.wouldBeInCheck b sq m color).1 = true) →
      ((Game.isStalemate b color).1 = true ↔ Game.isInCheck b color = false) ∧
      ((Game.isCheckmate b color).1 = true ↔ Game.isInCheck b color = true)) := by
  rw [← noEscape_iff, isStalemate_eq, isCheckmate_eq]
  simp only
  cases Game.isInCheck b color <;> cases Game.noEscape b color <;> simp

/-- C10: for an on-board origin holding a piece `p` (any kind, any `hasMoved`)
and an on-board destination `d`, `Game::isValidMove(origin, d)` is true exactly
when `d` is in `p.getPossibleMoves(origin, board)`. -/
theorem isValidMove_iff_getPossibleMoves (b : Board) (frm dst : Sq) (p : Piece)
    (hf : onBoard frm.1 frm.2 = true) (hd : onBoard dst.1 dst.2 = true)
    (hget : b.get frm.1 frm.2 = some p) :
    Game.isValidMove b frm dst = true ↔ dst ∈ p.getPossibleMoves frm b :=
  isValidMove_iff_mem b frm dst p hf hd hget

/-- Witness for C10: the start position, the knight on (7,1) and the square
(5,2), where both sides of the equivalence hold. -/
theorem isValidMove_iff_getPossibleMoves_witness :
    onBoard 7 1 = true ∧ onBoard 5 2 = true ∧
    startBoard.get 7 1 = some ⟨.WHITE, "WN1", "N", false, 3, .Knight⟩ ∧
    Game.isValidMove startBoard (7, 1) (5, 2) = true ∧
    (Game.isValidMove startBoard (7, 1) (5, 2) = true ↔
      ((5, 2) : Sq) ∈ Piece.getPossibleMoves ⟨.WHITE, "WN1", "N", false, 3, .Knight⟩ (7, 1)
        startBoard) :=
  ⟨by decide, by decide, by decide!, by decide!,
    isValidMove_iff_getPossibleMoves startBoard (7, 1) (5, 2)
      ⟨.WHITE, "WN1", "N", false, 3, .Knight⟩ (by decide) (by decide) (by decide!)⟩


/-! ## The three outcomes of a call, castling commits and the castling booleans -/

theorem parseDirection_castle (direction : String) (frm : Sq) (steps : Int)
    (hdir : direction = "castle-left" ∨ direction = "castle-right") :
    Game.parseDirection direction frm steps = frm := by
  rcases hdir with rfl | rfl <;> rfl

/-- Every call of `makeMove` that returns is of one of three kinds: it left the
state as it was and wrote an error line; or it committed a normal move; or it
committed a castling. -/
theorem makeMove_cases (g : Game) (pieceCode direction : String) (steps : Int)
    (r : MoveResult) (hr : g.makeMove pieceCode direction steps = some r) :
    (r.rejected = true ∧ r.state = g ∧ r.gameOver = false) ∨
    (∃ frm piece, g.piecePositions pieceCode = some frm ∧
      g.board.get frm.1 frm.2 = some piece ∧ piece.color = g.currentTurn ∧
      ¬ (piece.kind = .King ∧ (direction = "castle-left" ∨ direction = "castle-right")) ∧
      Game.isValidMove g.board frm (Game.parseDirection direction frm steps) = true ∧
      Game.isInCheck (g.board.relocate frm (Game.parseDirection direction frm steps))
        g.currentTurn = false ∧
      r.rejected = false ∧
      r = Game.finishMove
        (Game.commitMove g frm (Game.parseDirection direction frm steps) piece).1
        (Game.commitMove g frm (Game.parseDirection direction frm steps) piece).2) ∨
    (∃ frm piece, g.piecePositions pieceCode = some frm ∧
      g.board.get frm.1 frm.2 = some piece ∧ piece.color = g.currentTurn ∧
      piece.kind = .King ∧ (direction = "castle-left" ∨ direction = "castle-right") ∧
      (Game.canCastle g g.currentTurn (decide (direction = "castle-right"))).1 = true ∧
      r.rejected = false ∧
      r = Game.finishMove
        (Game.commitCastle g frm piece (decide (direction = "castle-right"))) []) := by
  cases hi : g.piecePositions pieceCode with
  | none =>
    have h : g.makeMove pieceCode direction steps =
        some ⟨false, [.pieceNotFound pieceCode], g⟩ := by
      unfold Game.makeMove; simp only [hi]
    rw [h] at hr; cases hr
    exact Or.inl ⟨rfl, rfl, rfl⟩
  | some frm =>
    cases hget : g.board.get frm.1 frm.2 with
    | none =>
      have h : g.makeMove pieceCode direction steps = none := by
        unfold Game.makeMove; simp only [hi, hget]
      rw [h] at hr; cases hr
    | some piece =>
      by_cases hc : piece.color ≠ g.currentTurn
      · rw [makeMove_notTurn g pieceCode direction steps frm piece hi hget hc] at hr
        cases hr
        exact Or.inl ⟨rfl, rfl, rfl⟩
      · have hc2 : piece.color = g.currentTurn := by simpa using hc
        by_cases hnc : piece.kind = .King ∧
            (direction = "castle-left" ∨ direction = "castle-right")
        · rw [makeMove_castle g pieceCode direction steps frm piece hi hget hc2 hnc.1 hnc.2]
            at hr
          cases hr
          by_cases hcc : (Game.canCastle g g.currentTurn
              (decide (direction = "castle-right"))).1 = false
          · rw [if_pos hcc]
            exact Or.inl ⟨rfl, rfl, rfl⟩
          · rw [if_neg hcc]
            refine Or.inr (Or.inr ⟨frm, piece, rfl, hget, hc2, hnc.1, hnc.2,
              by simpa using hcc, ?_, rfl⟩)
            rw [finishMove_rejected]; rfl
        · rw [makeMove_normal g pieceCode direction steps frm piece hi hget hnc] at hr
          cases hr
          rw [if_neg hc]
          by_cases h1 : onBoard (Game.parseDirection direction frm steps).1
              (Game.parseDirection direction frm steps).2 = false
          · rw [if_pos h1]; exact Or.inl ⟨rfl, rfl, rfl⟩
          · rw [if_neg h1]
            by_cases h2 : Game.isValidMove g.board frm
                (Game.parseDirection direction frm steps) = false
            · rw [if_pos h2]; exact Or.inl ⟨rfl, rfl, rfl⟩
            · rw [if_neg h2]
              by_cases h3 : Game.isInCheck
                  (g.board.relocate frm (Game.parseDirection direction frm steps))
                  g.currentTurn = true
              · rw [if_pos h3]; exact Or.inl ⟨rfl, rfl, rfl⟩
              · rw [if_neg h3]
                refine Or.inr (Or.inl ⟨frm, piece, rfl, hget, hc2, hnc, by simpa using h2,
                  by simpa using h3, ?_, rfl⟩)
                rw [finishMove_rejected, commitMove_out]

/-- A call with a castling direction that is accepted is a castling by a king of
the colour to move for which `canCastle` answered `true`. -/
theorem makeMove_accepted_castle (g : Game) (pieceCode direction : String) (steps : Int)
    (hdir : direction = "castle-left" ∨ direction = "castle-right")
    (r : MoveResult) (hr : g.makeMove pieceCode direction steps = some r)
    (hacc : r.rejected = false) :
    ∃ frm piece, g.piecePositions pieceCode = some frm ∧
      g.board.get frm.1 frm.2 = some piece ∧ piece.color = g.currentTurn ∧
      piece.kind = .King ∧
      (Game.canCastle g g.currentTurn (decide (direction = "castle-right"))).1 = true ∧
      r = Game.finishMove
        (Game.commitCastle g frm piece (decide (direction = "castle-right"))) [] := by
  rcases makeMove_cases g pieceCode direction steps r hr with
    ⟨h, _⟩ | ⟨frm, piece, _, _, _, _, hv, _⟩ | ⟨frm, piece, hi, hget, hc, hk, _, hcc, _, hreq⟩
  · rw [h] at hacc; cases hacc
  · rw [parseDirection_castle direction frm steps hdir] at hv
    exact absurd rfl (isValidMove_ne _ _ _ hv)
  · exact ⟨frm, piece, hi, hget, hc, hk, hcc, hreq⟩

theorem commitCastle_board (g : Game) (frm : Sq) (piece : Piece) (kingside : Bool) :
    (Game.commitCastle g frm piece kingside).board =
      (((if kingside then
            (g.board.set (homeRow g.currentTurn) 5 (g.board.get (homeRow g.currentTurn) 7)).set
              (homeRow g.currentTurn) 7 none
          else
            (g.board.set (homeRow g.currentTurn) 3 (g.board.get (homeRow g.currentTurn) 0)).set
              (homeRow g.currentTurn) 0 none).set
          (homeRow g.currentTurn) (if kingside then 6 else 2)
          (some { piece with hasMoved := true })).set frm.1 frm.2 none) := by
  unfold Game.commitCastle homeRow
  simp only
  repeat' split
  all_goals rfl

theorem commitCastle_counter (g : Game) (frm : Sq) (piece : Piece) (kingside : Bool) :
    (Game.commitCastle g frm piece kingside).movesSinceCapture = g.movesSinceCapture := by
  unfold Game.commitCastle
  simp only
  repeat' split
  all_goals rfl

theorem commitCastle_currentTurn (g : Game) (frm : Sq) (piece : Piece) (kingside : Bool) :
    (Game.commitCastle g frm piece kingside).currentTurn = g.currentTurn := by
  unfold Game.commitCastle
  simp only
  repeat' split
  all_goals rfl

theorem commitCastle_flags (g : Game) (frm : Sq) (piece : Piece) (kingside : Bool) :
    FlagsKept g (Game.commitCastle g frm piece kingside) ∧
    (Game.commitCastle g frm piece kingside).kingMoved g.currentTurn = true ∧
    (Game.commitCastle g frm piece kingside).rookMoved g.currentTurn kingside = true := by
  unfold Game.commitCastle FlagsKept Game.kingMoved Game.rookMoved
  simp only
  cases g.currentTurn <;> cases kingside <;> simp

theorem commitMove_flags (g : Game) (frm dst : Sq) (piece : Piece) :
    FlagsKept g (Game.commitMove g frm dst piece).1 ∧
    (piece.kind = .King → (Game.commitMove g frm dst piece).1.kingMoved g.currentTurn = true) := by
  unfold Game.commitMove FlagsKept Game.kingMoved
  simp only
  cases g.board.get dst.1 dst.2 <;> simp only <;>
    by_cases hk : piece.kind = .King <;> by_cases hr : piece.kind = .Rook <;>
    by_cases h0 : frm.2 = 0 <;> by_cases h7 : frm.2 = 7 <;>
    cases g.currentTurn <;> simp [hk, hr, h0, h7]

theorem finishMove_flags (g : Game) (out : List Message) :
    FlagsKept g (Game.finishMove g out).state ∧
    (∀ c, (Game.finishMove g out).state.kingMoved c = g.kingMoved c) ∧
    (∀ c ks, (Game.finishMove g out).state.rookMoved c ks = g.rookMoved c ks) := by
  rw [finishMove_state]
  unfold FlagsKept Game.kingMoved Game.rookMoved
  split <;> simp

theorem FlagsKept.refl (g : Game) : FlagsKept g g :=
  ⟨id, id, id, id, id, id⟩

theorem FlagsKept.trans {g1 g2 g3 : Game} (h1 : FlagsKept g1 g2) (h2 : FlagsKept g2 g3) :
    FlagsKept g1 g3 :=
  ⟨fun h => h2.1 (h1.1 h), fun h => h2.2.1 (h1.2.1 h), fun h => h2.2.2.1 (h1.2.2.1 h),
    fun h => h2.2.2.2.1 (h1.2.2.2.1 h), fun h => h2.2.2.2.2.1 (h1.2.2.2.2.1 h),
    fun h => h2.2.2.2.2.2 (h1.2.2.2.2.2 h)⟩

theorem FlagsKept.kingMoved {g1 g2 : Game} (h : FlagsKept g1 g2) (c : Color)
    (hk : g1.kingMoved c = true) : g2.kingMoved c = true := by
  unfold Game.kingMoved at *
  cases c
  · simp only [if_true] at hk ⊢; exact h.1 hk
  · simp only [reduceCtorEq, if_false] at hk ⊢; exact h.2.1 hk

/-- One call of `makeMove` never resets a castling boolean. -/
theorem makeMove_flagsKept (g : Game) (pieceCode direction : String) (steps : Int)
    (r : MoveResult) (hr : g.makeMove pieceCode direction steps = some r) :
    FlagsKept g r.state := by
  rcases makeMove_cases g pieceCode direction steps r hr with
    ⟨_, h, _⟩ | ⟨frm, piece, _, _, _, _, _, _, _, hreq⟩ | ⟨frm, piece, _, _, _, _, _, _, _, hreq⟩
  · rw [h]; exact FlagsKept.refl g
  · rw [hreq]
    exact (commitMove_flags g frm _ piece).1.trans (finishMove_flags _ _).1
  · rw [hreq]
    exact (commitCastle_flags g frm piece _).1.trans (finishMove_flags _ _).1

theorem calls_flagsKept {g g2 : Game} (h : Calls g g2) : FlagsKept g g2 := by
  induction h with
  | none => exact FlagsKept.refl _
  | more g1 code dir steps r _ hr ih => exact ih.trans (makeMove_flagsKept g1 code dir steps r hr)

theorem playMoves_reachable (moves : List (String × String × Int)) :
    ∀ (g g2 : Game), Reachable g → g.playMoves moves = some g2 → Reachable g2 := by
  induction moves with
  | nil =>
    intro g g2 hg h
    simp only [Game.playMoves, Option.some.injEq] at h
    rw [← h]; exact hg
  | cons m rest ih =>
    intro g g2 hg h
    unfold Game.playMoves at h
    cases hm : g.makeMove m.1 m.2.1 m.2.2 with
    | none => rw [hm] at h; cases h
    | some r =>
      rw [hm] at h
      simp only at h
      by_cases hro : (r.rejected || r.gameOver) = true
      · rw [if_pos hro] at h; cases h
      · rw [if_neg hro] at h
        have hover : r.gameOver = false := by
          cases hgo : r.gameOver
          · rfl
          · rw [hgo] at hro; simp at hro
        exact ih r.state g2 (Reachable.call g m.1 m.2.1 m.2.2 r hg hm hover) h


theorem canCastle_eq (g : Game) (c : Color) (kingside : Bool) :
    Game.canCastle g c kingside =
      (!g.kingMoved c && !g.rookMoved c kingside &&
        (match g.board.get (homeRow c) (if kingside then 7 else 0) with
          | none => false
          | some q => decide (q.kind = .Rook)) &&
        Game.castlePathEmpty g.board (homeRow c) (castleBetween kingside) &&
        (loopRange 4 (if kingside then 6 else 2)).all
          (fun i => !Game.isInCheck (g.board.relocate (homeRow c, 4) (homeRow c, i)) c),
        g.board) := by
  unfold Game.canCastle Game.kingMoved Game.rookMoved homeRow castleBetween
  cases c
  · simp only [if_true]
    rw [canCastleRow_eq _ _ _ _ _ _ _ (Or.inl rfl)]
    cases kingside <;> simp [loopRange_5_6, loopRange_1_3]
  · simp only [reduceCtorEq, if_false]
    rw [canCastleRow_eq _ _ _ _ _ _ _ (Or.inr rfl)]
    cases kingside <;> simp [loopRange_5_6, loopRange_1_3]

/-- What `canCastle` answering `true` says, condition by condition. -/
theorem canCastle_true (g : Game) (c : Color) (kingside : Bool)
    (h : (Game.canCastle g c kingside).1 = true) :
    g.kingMoved c = false ∧ g.rookMoved c kingside = false ∧
    (∃ rook, g.board.get (homeRow c) (if kingside then 7 else 0) = some rook ∧
      rook.kind = .Rook) ∧
    (∀ i ∈ castleBetween kingside, g.board.get (homeRow c) i = none) ∧
    (∀ i ∈ loopRange 4 (if kingside then 6 else 2),
      Game.isInCheck (g.board.relocate (homeRow c, 4) (homeRow c, i)) c = false) := by
  rw [canCastle_eq] at h
  simp only [Bool.and_eq_true, Bool.not_eq_true', List.all_eq_true, Game.castlePathEmpty,
    decide_eq_true_eq] at h
  obtain ⟨⟨⟨⟨h1, h2⟩, h3⟩, h4⟩, h5⟩ := h
  refine ⟨h1, h2, ?_, h4, h5⟩
  cases hg : g.board.get (homeRow c) (if kingside then 7 else 0) with
  | none => rw [hg] at h3; cases h3
  | some q => rw [hg] at h3; exact ⟨q, rfl, by simpa using h3⟩


theorem homeRow_cases (c : Color) : homeRow c = 7 ∨ homeRow c = 0 := by
  unfold homeRow; cases c <;> simp

theorem bind_map_true {α β : Type} (x : Option α) (f : α → Option β) (p : α → β → Bool)
    (h : (x.bind fun a => (f a).map (p a)) = some true) :
    ∃ a b, x = some a ∧ f a = some b ∧ p a b = true := by
  cases x with
  | none => cases h
  | some a =>
    simp only [Option.some_bind] at h
    cases hf : f a with
    | none => rw [hf] at h; cases h
    | some b =>
      rw [hf] at h
      simp only [Option.map_some', Option.some.injEq] at h
      exact ⟨a, b, rfl, hf, h⟩

theorem map_true {α : Type} (x : Option α) (p : α → Bool)
    (h : x.map p = some true) : ∃ a, x = some a ∧ p a = true := by
  cases x with
  | none => cases h
  | some a =>
    simp only [Option.map_some', Option.some.injEq] at h
    exact ⟨a, rfl, h⟩

/-- The board after an accepted castling with the king on its home square. -/
theorem castle_board (g : Game) (piece : Piece) (kingside : Bool) (x y : Int) :
    (Game.commitCastle g (homeRow g.currentTurn, 4) piece kingside).board.get x y =
      if x = homeRow g.currentTurn ∧ y = 4 then none
      else if x = homeRow g.currentTurn ∧ y = (if kingside then 6 else 2) then
        some { piece with hasMoved := true }
      else if x = homeRow g.currentTurn ∧ y = (if kingside then 7 else 0) then none
      else if x = homeRow g.currentTurn ∧ y = (if kingside then 5 else 3) then
        g.board.get (homeRow g.currentTurn) (if kingside then 7 else 0)
      else g.board.get x y := by
  rw [commitCastle_board]
  have hrow := homeRow_cases g.currentTurn
  generalize homeRow g.currentTurn = row at *
  cases kingside
  · simp only [Bool.false_eq_true, if_false, Board.get_set]
    by_cases hx : x = row
    · subst hx
      have hb : ∀ k : Int, 0 ≤ k → k < 8 → onBoard x k = true := by
        intro k h1 h2; rw [onBoard_iff]; omega
      by_cases h4 : y = 4
      · subst h4; simp [hb]
      · by_cases h2 : y = 2
        · subst h2; simp [hb]
        · by_cases h0 : y = 0
          · subst h0; simp [hb]
          · by_cases h3 : y = 3
            · subst h3; simp [hb]
            · simp [h4, h2, h0, h3]
    · simp [hx]
  · simp only [if_true, Board.get_set]
    by_cases hx : x = row
    · subst hx
      have hb : ∀ k : Int, 0 ≤ k → k < 8 → onBoard x k = true := by
        intro k h1 h2; rw [onBoard_iff]; omega
      by_cases h4 : y = 4
      · subst h4; simp [hb]
      · by_cases h6 : y = 6
        · subst h6; simp [hb]
        · by_cases h7 : y = 7
          · subst h7; simp [hb]
          · by_cases h5 : y = 5
            · subst h5; simp [hb]
            · simp [h4, h6, h7, h5]
    · simp [hx]


theorem bind_true {α : Type} (x : Option α) (f : α → Option Bool)
    (h : x.bind f = some true) : ∃ a, x = some a ∧ f a = some true := by
  cases x with
  | none => cases h
  | some a => exact ⟨a, rfl, h⟩

theorem playMoves_calls (moves : List (String × String × Int)) :
    ∀ (g g2 : Game), g.playMoves moves = some g2 → Calls g g2 := by
  induction moves using List.reverseRecOn with
  | nil =>
    intro g g2 h
    simp only [Game.playMoves, Option.some.injEq] at h
    rw [← h]; exact Calls.none g
  | append_singleton rest m ih =>
    intro g g2 h
    have key : ∀ (l : List (String × String × Int)) (a : Game),
        a.playMoves (l ++ [m]) = (a.playMoves l).bind fun a2 => a2.playMoves [m] := by
      intro l
      induction l with
      | nil => intro a; simp [Game.playMoves]
      | cons x xs ihx =>
        intro a
        simp only [List.cons_append, Game.playMoves]
        cases a.makeMove x.1 x.2.1 x.2.2 with
        | none => rfl
        | some r =>
          simp only
          split
          · rfl
          · exact ihx r.state
    rw [key] at h
    cases h1 : g.playMoves rest with
    | none => rw [h1] at h; cases h
    | some g1 =>
      rw [h1] at h
      simp only [Option.some_bind, Game.playMoves] at h
      cases hm : g1.makeMove m.1 m.2.1 m.2.2 with
      | none => rw [hm] at h; cases h
      | some r =>
        rw [hm] at h
        simp only at h
        split at h
        · cases h
        · simp only [Option.some.injEq] at h
          rw [← h]
          exact Calls.more g g1 m.1 m.2.1 m.2.2 r (ih g g1 h1) hm

/-! ## Kingside castling does not end in check -/

theorem relocate_get (b : Board) (frm dst : Sq) (x y : Int) :
    (b.relocate frm dst).get x y =
      if x = frm.1 ∧ y = frm.2 ∧ onBoard x y = true then none
      else if x = dst.1 ∧ y = dst.2 ∧ onBoard x y = true then b.get frm.1 frm.2
      else b.get x y := by
  unfold Board.relocate
  rw [Board.get_set, Board.get_set]

/-- A shape-valid move of a piece other than a knight runs along a row, a column
or a diagonal: the destination is `K ≥ 1` unit steps from the origin. -/
theorem valid_aligned (p : Piece) (s k : Sq) (b : Board) (hkn : p.kind ≠ .Knight)
    (hv : p.isValidMove s k b = true) :
    ∃ d ∈ queenDirections, ∃ K : Nat, 1 ≤ K ∧ k.1 = s.1 + K * d.1 ∧ k.2 = s.2 + K * d.2 := by
  unfold Piece.isValidMove at hv
  cases hk : p.kind <;> rw [hk] at hv <;> simp only at hv
  · rcases (pawn_shape p s k b).1 hv with ⟨h1, h2, _⟩ | ⟨h1, _, h2, _⟩ | ⟨h1, h2, h3, _⟩
    · rcases Pawn.direction_cases p.color with hd | hd
      · exact ⟨(-1, 0), by decide, 1, le_refl _, by simp only; omega, by simp only; omega⟩
      · exact ⟨(1, 0), by decide, 1, le_refl _, by simp only; omega, by simp only; omega⟩
    · rcases Pawn.direction_cases p.color with hd | hd
      · exact ⟨(-1, 0), by decide, 2, by omega, by simp only; omega, by simp only; omega⟩
      · exact ⟨(1, 0), by decide, 2, by omega, by simp only; omega, by simp only; omega⟩
    · obtain ⟨a, ha, hac⟩ := abs_elim (s.2 - k.2)
      rw [ha] at h2
      rcases Pawn.direction_cases p.color with hd | hd
      · rcases hac with ⟨_, hx⟩ | ⟨_, hx⟩
        · exact ⟨(-1, -1), by decide, 1, le_refl _, by simp only; omega, by simp only; omega⟩
        · exact ⟨(-1, 1), by decide, 1, le_refl _, by simp only; omega, by simp only; omega⟩
      · rcases hac with ⟨_, hx⟩ | ⟨_, hx⟩
        · exact ⟨(1, -1), by decide, 1, le_refl _, by simp only; omega, by simp only; omega⟩
        · exact ⟨(1, 1), by decide, 1, le_refl _, by simp only; omega, by simp only; omega⟩
  · exact absurd hk hkn
  · obtain ⟨d, hd, h⟩ := (bishop_shape s k).1 hv
    exact ⟨d, by rw [queenDirections_eq]; exact List.mem_append_right _ hd, h⟩
  · obtain ⟨d, hd, h⟩ := (rook_shape s k).1 hv
    exact ⟨d, by rw [queenDirections_eq]; exact List.mem_append_left _ hd, h⟩
  · exact (queen_shape s k).1 hv
  · obtain ⟨d, hd, h1, h2⟩ := (king_shape s k).1 hv
    exact ⟨d, hd, 1, le_refl _, by simpa using h1, by simpa using h2⟩

theorem isFirstKing_unique (b : Board) (c : Color) (k1 k2 : Sq)
    (h1 : IsFirstKing b c k1) (h2 : IsFirstKing b c k2) : k1 = k2 :=
  rowMajorLt_total k1 k2 (h2.2.2 k1 h1.2.1) (h1.2.2 k2 h2.2.1)

/-- The content of `isInCheck` in terms of the first king square and
`Game::isValidMove`. -/
theorem isInCheck_first_iff (b : Board) (color : Color) :
    Game.isInCheck b color = true ↔
      ∃ k : Sq, IsFirstKing b color k ∧
        ∃ (s : Sq) (q : Piece), b.get s.1 s.2 = some q ∧ q.color ≠ color ∧
          Game.isValidMove b s k = true := by
  constructor
  · intro h
    unfold Game.isInCheck at h
    simp only at h
    rcases findKing_cases b color with hk | ⟨hk, _⟩
    · refine ⟨Game.findKing b color, hk, ?_⟩
      have hne : ¬ (Game.findKing b color).1 = -1 := by
        have := (onBoard_iff _ _).1 hk.1
        omega
      rw [if_neg hne, List.any_eq_true] at h
      obtain ⟨s, _, hs⟩ := h
      obtain ⟨q, hq, hc, hv⟩ := (attacks_iff b color _ s hk).1 hs
      exact ⟨s, q, hq, hc, hv⟩
    · rw [hk] at h
      simp at h
  · rintro ⟨k, hk, s, q, hq, hc, hv⟩
    unfold Game.isInCheck
    simp only
    rw [findKing_of_isFirstKing b color k hk]
    have hne : ¬ k.1 = -1 := by
      have := (onBoard_iff _ _).1 hk.1
      omega
    rw [if_neg hne, List.any_eq_true]
    exact ⟨s, (mem_allSquares s).2 (Board.onBoard_of_get hq),
      (attacks_iff b color k s hk).2 ⟨q, hq, hc, hv⟩⟩

/-- The first king stays the first king when it moves right along its home row
over empty squares. -/
theorem firstKing_shift (b b2 : Board) (c : Color) (row i : Int)
    (hrow : row = 7 ∨ row = 0) (hi : 4 < i ∧ i < 8)
    (h0 : IsFirstKing b c (row, 4))
    (hk : ∃ p, b2.get row i = some p ∧ p.kind = .King ∧ p.color = c)
    (hothers : ∀ s : Sq, (∃ p, b2.get s.1 s.2 = some p ∧ p.kind = .King ∧ p.color = c) →
      s = (row, i) ∨
        ((∃ p, b.get s.1 s.2 = some p ∧ p.kind = .King ∧ p.color = c) ∧
          (s.1 ≠ row ∨ s.2 < 4 ∨ s.2 > i))) :
    IsFirstKing b2 c (row, i) := by
  refine ⟨by rw [onBoard_iff]; simp only; omega, hk, ?_⟩
  intro s hs
  rcases hothers s hs with rfl | ⟨hb, hpos⟩
  · unfold rowMajorLt
    simp only [decide_eq_false_iff_not]
    omega
  · have := h0.2.2 s hb
    unfold rowMajorLt at this ⊢
    simp only [decide_eq_false_iff_not] at this ⊢
    omega

theorem relocate_home_get (b : Board) (row i : Int) (hrow : row = 7 ∨ row = 0)
    (hi : 4 < i ∧ i < 8) (x y : Int) :
    (b.relocate (row, 4) (row, i)).get x y =
      if x = row ∧ y = 4 then none
      else if x = row ∧ y = i then b.get row 4
      else b.get x y := by
  rw [relocate_get]
  simp only
  by_cases h4 : x = row ∧ y = 4
  · have hb : onBoard x y = true := by rw [onBoard_iff]; omega
    obtain ⟨rfl, rfl⟩ := h4
    simp [hb]
  · have h4b : ¬ (x = row ∧ y = 4 ∧ onBoard x y = true) := fun h => h4 ⟨h.1, h.2.1⟩
    rw [if_neg h4, if_neg h4b]
    by_cases hi2 : x = row ∧ y = i
    · have hb : onBoard x y = true := by rw [onBoard_iff]; omega
      obtain ⟨rfl, rfl⟩ := hi2
      simp [hb]
    · have hi2b : ¬ (x = row ∧ y = i ∧ onBoard x y = true) := fun h => hi2 ⟨h.1, h.2.1⟩
      rw [if_neg hi2, if_neg hi2b]

/-- With the first king of `c` on its home square, the two squares to its right
empty and a rook of the other colour on the right corner, the king is in check
after stepping one square to the right. -/
theorem enemy_corner_rook_checks (b : Board) (c : Color) (row : Int) (hrow : row = 7 ∨ row = 0)
    (king rook : Piece) (hking : b.get row 4 = some king) (hkk : king.kind = .King)
    (hkc : king.color = c) (hfirst : IsFirstKing b c (row, 4))
    (hrook : b.get row 7 = some rook) (hrk : rook.kind = .Rook) (hrc : rook.color ≠ c)
    (h6 : b.get row 6 = none) :
    Game.isInCheck (b.relocate (row, 4) (row, 5)) c = true := by
  have hB : ∀ x y : Int, (b.relocate (row, 4) (row, 5)).get x y =
      if x = row ∧ y = 4 then none
      else if x = row ∧ y = 5 then b.get row 4
      else b.get x y := relocate_home_get b row 5 hrow ⟨by omega, by omega⟩
  have hfk : IsFirstKing (b.relocate (row, 4) (row, 5)) c (row, 5) := by
    apply firstKing_shift b _ c row 5 hrow ⟨by omega, by omega⟩ hfirst
    · exact ⟨king, by rw [hB]; simp [hking], hkk, hkc⟩
    · rintro ⟨s1, s2⟩ ⟨p, hp, hpk, hpc⟩
      simp only at hp
      rw [hB] at hp
      by_cases e4 : s1 = row ∧ s2 = 4
      · rw [if_pos e4] at hp; cases hp
      · rw [if_neg e4] at hp
        by_cases e5 : s1 = row ∧ s2 = 5
        · left; exact Prod.ext e5.1 e5.2
        · rw [if_neg e5] at hp
          right
          refine ⟨⟨p, hp, hpk, hpc⟩, ?_⟩
          simp only
          by_contra hcon
          have hs1 : s1 = row := by omega
          have hs2 : s2 = 4 ∨ s2 = 5 := by omega
          rcases hs2 with h | h
          · exact e4 ⟨hs1, h⟩
          · exact e5 ⟨hs1, h⟩
  rw [isInCheck_first_iff]
  refine ⟨(row, 5), hfk, (row, 7), rook, ?_, hrc, ?_⟩
  · simp only; rw [hB]; simp [hrook]
  · rw [isValidMove_iff]
    refine ⟨by rw [onBoard_iff]; simp only; omega, by rw [onBoard_iff]; simp only; omega,
      rook, ?_, ?_, ?_, Or.inr ?_⟩
    · simp only; rw [hB]; simp [hrook]
    · intro q hq
      simp only at hq
      rw [hB] at hq
      simp only [true_and, if_true, hking, Option.some.injEq,
        show ¬ ((5 : Int) = 4) by omega, if_false] at hq
      rw [← hq, hkc]
      exact fun h => hrc h.symm
    · unfold Piece.isValidMove
      rw [hrk]
      simp [Rook.isValidMove]
    · have hf7 : onBoard row 7 = true := by rw [onBoard_iff]; omega
      have hd5 : onBoard (row + ((2 : Nat) : Int) * 0) (7 + ((2 : Nat) : Int) * (-1)) = true := by
        rw [onBoard_iff]
        refine ⟨?_, ?_, ?_, ?_⟩
        · simp only [Nat.cast_ofNat, mul_zero, add_zero]; omega
        · simp only [Nat.cast_ofNat, mul_zero, add_zero]; omega
        · norm_num
        · norm_num
      have hray := isPathClear_ray (b.relocate (row, 4) (row, 5)) row 7 0 (-1) 2 (by omega)
        (by omega) (by omega) (by omega) hf7 hd5
      have e : ((row + ((2 : Nat) : Int) * 0, 7 + ((2 : Nat) : Int) * (-1)) : Sq) = (row, 5) := by
        simp
      rw [e] at hray
      rw [hray]
      intro j hj1 hj2
      have hj : j = 1 := by omega
      subst hj
      rw [hB]
      simp [h6]

/-- The board after a kingside castling is not in check for the castling colour
when the two tests of `canCastle` on the king's path passed. -/
theorem castled_not_in_check (b F : Board) (c : Color) (row : Int) (hrow : row = 7 ∨ row = 0)
    (king rook : Piece) (hking : b.get row 4 = some king) (hkk : king.kind = .King)
    (hkc : king.color = c) (hfirst : IsFirstKing b c (row, 4))
    (hrook : b.get row 7 = some rook) (hrk : rook.kind = .Rook)
    (h5 : b.get row 5 = none) (h6 : b.get row 6 = none)
    (hs5 : Game.isInCheck (b.relocate (row, 4) (row, 5)) c = false)
    (hs6 : Game.isInCheck (b.relocate (row, 4) (row, 6)) c = false)
    (hF : ∀ x y : Int, F.get x y =
      if x = row ∧ y = 4 then none
      else if x = row ∧ y = 6 then some { king with hasMoved := true }
      else if x = row ∧ y = 7 then none
      else if x = row ∧ y = 5 then some rook
      else b.get x y) :
    Game.isInCheck F c = false := by
  -- the rook on the corner is of the castling colour
  have hrc : rook.color = c := by
    by_contra hne
    have := enemy_corner_rook_checks b c row hrow king rook hking hkk hkc hfirst hrook hrk hne h6
    rw [hs5] at this
    cases this
  have hB : ∀ x y : Int, (b.relocate (row, 4) (row, 6)).get x y =
      if x = row ∧ y = 4 then none
      else if x = row ∧ y = 6 then b.get row 4
      else b.get x y := relocate_home_get b row 6 hrow ⟨by omega, by omega⟩
  -- the king on (row, 6) is the first king on both boards
  have hfkB : IsFirstKing (b.relocate (row, 4) (row, 6)) c (row, 6) := by
    apply firstKing_shift b _ c row 6 hrow ⟨by omega, by omega⟩ hfirst
    · exact ⟨king, by rw [hB]; simp [hking], hkk, hkc⟩
    · rintro ⟨s1, s2⟩ ⟨p, hp, hpk, hpc⟩
      simp only at hp
      rw [hB] at hp
      by_cases e4 : s1 = row ∧ s2 = 4
      · rw [if_pos e4] at hp; cases hp
      · rw [if_neg e4] at hp
        by_cases e6 : s1 = row ∧ s2 = 6
        · left; exact Prod.ext e6.1 e6.2
        · rw [if_neg e6] at hp
          right
          refine ⟨⟨p, hp, hpk, hpc⟩, ?_⟩
          simp only
          by_contra hcon
          have hs1 : s1 = row := by omega
          have hs2 : s2 = 4 ∨ s2 = 5 ∨ s2 = 6 := by omega
          rcases hs2 with h | h | h
          · exact e4 ⟨hs1, h⟩
          · rw [hs1, h, h5] at hp; cases hp
          · exact e6 ⟨hs1, h⟩
  have hfkF : IsFirstKing F c (row, 6) := by
    apply firstKing_shift b _ c row 6 hrow ⟨by omega, by omega⟩ hfirst
    · exact ⟨{ king with hasMoved := true }, by rw [hF]; simp, hkk, hkc⟩
    · rintro ⟨s1, s2⟩ ⟨p, hp, hpk, hpc⟩
      simp only at hp
      rw [hF] at hp
      by_cases e4 : s1 = row ∧ s2 = 4
      · rw [if_pos e4] at hp; cases hp
      · rw [if_neg e4] at hp
        by_cases e6 : s1 = row ∧ s2 = 6
        · left; exact Prod.ext e6.1 e6.2
        · rw [if_neg e6] at hp
          by_cases e7 : s1 = row ∧ s2 = 7
          · rw [if_pos e7] at hp; cases hp
          · rw [if_neg e7] at hp
            by_cases e5 : s1 = row ∧ s2 = 5
            · rw [if_pos e5] at hp
              cases hp
              rw [hrk] at hpk; cases hpk
            · rw [if_neg e5] at hp
              right
              refine ⟨⟨p, hp, hpk, hpc⟩, ?_⟩
              simp only
              by_contra hcon
              have hs1 : s1 = row := by omega
              have hs2 : s2 = 4 ∨ s2 = 5 ∨ s2 = 6 := by omega
              rcases hs2 with h | h | h
              · exact e4 ⟨hs1, h⟩
              · exact e5 ⟨hs1, h⟩
              · exact e6 ⟨hs1, h⟩
  -- an attack on the final board is an attack on the tested board
  cases hchk : Game.isInCheck F c
  · rfl
  · exfalso
    obtain ⟨k, hkF, ⟨s1, s2⟩, q, hq, hqc, hv⟩ := (isInCheck_first_iff F c).1 hchk
    have hk : k = (row, 6) := isFirstKing_unique F c k (row, 6) hkF hfkF
    subst hk
    simp only at hq
    obtain ⟨hsb, hkb, p, hp, hdest, hshape, hpath⟩ := (isValidMove_iff F _ _).1 hv
    simp only at hp hsb
    rw [hq] at hp
    cases hp
    -- the attacker stands on a square the castling did not touch
    have hqb : b.get s1 s2 = some q ∧ ¬ (s1 = row ∧ (s2 = 4 ∨ s2 = 5 ∨ s2 = 6 ∨ s2 = 7)) := by
      rw [hF] at hq
      by_cases e4 : s1 = row ∧ s2 = 4
      · rw [if_pos e4] at hq; cases hq
      · rw [if_neg e4] at hq
        by_cases e6 : s1 = row ∧ s2 = 6
        · rw [if_pos e6] at hq; cases hq; exact absurd hkc hqc
        · rw [if_neg e6] at hq
          by_cases e7 : s1 = row ∧ s2 = 7
          · rw [if_pos e7] at hq; cases hq
          · rw [if_neg e7] at hq
            by_cases e5 : s1 = row ∧ s2 = 5
            · rw [if_pos e5] at hq; cases hq; exact absurd hrc hqc
            · rw [if_neg e5] at hq
              refine ⟨hq, ?_⟩
              rintro ⟨h1, h | h | h | h⟩
              · exact e4 ⟨h1, h⟩
              · exact e5 ⟨h1, h⟩
              · exact e6 ⟨h1, h⟩
              · exact e7 ⟨h1, h⟩
    obtain ⟨hqb1, hsq⟩ := hqb
    have hqB : (b.relocate (row, 4) (row, 6)).get s1 s2 = some q := by
      rw [hB]
      have e4 : ¬ (s1 = row ∧ s2 = 4) := fun h => hsq ⟨h.1, Or.inl h.2⟩
      have e6 : ¬ (s1 = row ∧ s2 = 6) := fun h => hsq ⟨h.1, Or.inr (Or.inr (Or.inl h.2))⟩
      rw [if_neg e4, if_neg e6]
      exact hqb1
    have hFk : F.get row 6 = some { king with hasMoved := true } := by rw [hF]; simp
    have hBk : (b.relocate (row, 4) (row, 6)).get row 6 = some king := by
      rw [hB]; simp [hking]
    -- the shape test gives the same answer on both boards
    have hshapeB : q.isValidMove (s1, s2) (row, 6) (b.relocate (row, 4) (row, 6)) = true := by
      unfold Piece.isValidMove at hshape ⊢
      cases hkq : q.kind <;> rw [hkq] at hshape <;> simp only at hshape ⊢
      · rw [pawn_shape] at hshape ⊢
        simp only at hshape ⊢
        rw [hFk] at hshape
        rw [hBk]
        rcases hshape with ⟨_, _, h⟩ | ⟨_, _, _, h, _⟩ | ⟨h1, h2, h3, q2, h4, h5⟩
        · cases h
        · cases h
        · cases h4
          exact Or.inr (Or.inr ⟨h1, h2, h3, king, rfl, h5⟩)
      all_goals exact hshape
    have hv6 : Game.isValidMove (b.relocate (row, 4) (row, 6)) (s1, s2) (row, 6) = true := by
      rw [isValidMove_iff]
      refine ⟨hsb, hkb, q, hqB, ?_, hshapeB, ?_⟩
      · intro q2 hq2
        simp only at hq2
        rw [hBk] at hq2
        cases hq2
        rw [hkc]
        exact fun h => hqc h.symm
      · rcases hpath with hkn | hclear
        · exact Or.inl hkn
        · by_cases hkn : q.kind = .Knight
          · exact Or.inl hkn
          · right
            revert hB
            generalize b.relocate (row, 4) (row, 6) = B
            intro hB
            obtain ⟨d, hd, K, hK, hk1, hk2⟩ := valid_aligned q (s1, s2) (row, 6) F hkn hshape
            simp only at hk1 hk2
            obtain ⟨u1, u2, u3⟩ := queenDirections_unit d hd
            have e : ((row, 6) : Sq) = (s1 + (K : Int) * d.1, s2 + (K : Int) * d.2) := by
              rw [← hk1, ← hk2]
            have hkb2 : onBoard (s1 + (K : Int) * d.1) (s2 + (K : Int) * d.2) = true := by
              rw [← hk1, ← hk2]; exact hkb
            rw [e] at hclear ⊢
            rw [isPathClear_ray _ s1 s2 d.1 d.2 K hK u1 u2 u3 hsb hkb2] at hclear ⊢
            intro j hj1 hj2
            have hFj := hclear j hj1 hj2
            rw [hF] at hFj
            rw [hB]
            have hsbb := (onBoard_iff _ _).1 hsb
            by_cases e4 : s1 + (j : Int) * d.1 = row ∧ s2 + (j : Int) * d.2 = 4
            · rw [if_pos e4]
            · rw [if_neg e4] at hFj ⊢
              by_cases e6 : s1 + (j : Int) * d.1 = row ∧ s2 + (j : Int) * d.2 = 6
              · rw [if_pos e6] at hFj; cases hFj
              · rw [if_neg e6] at hFj ⊢
                by_cases e7 : s1 + (j : Int) * d.1 = row ∧ s2 + (j : Int) * d.2 = 7
                · exfalso
                  obtain ⟨e71, e72⟩ := e7
                  rcases u1 with h1 | h1 | h1 <;> rcases u2 with h2 | h2 | h2 <;>
                    rw [h1] at hk1 e71 <;> rw [h2] at hk2 e72 <;> omega
                · rw [if_neg e7] at hFj
                  by_cases e5 : s1 + (j : Int) * d.1 = row ∧ s2 + (j : Int) * d.2 = 5
                  · rw [e5.1, e5.2]; exact h5
                  · rw [if_neg e5] at hFj
                    exact hFj
    have := (isInCheck_first_iff _ c).2 ⟨(row, 6), hfkB, (s1, s2), q, hqB, hqc, hv6⟩
    rw [hs6] at this
    cases this

/-! ## Concrete games, evaluated -/

set_option maxRecDepth 1000000 in
/-- From the position after `castleGame`: the king steps to (6,4), Black moves,
the king steps back to (7,4), Black moves, and `castle-right` is then asked
for with (7,5) and (7,6) empty and the right rook unmoved. -/
theorem king_round_trip :
    ((Game.new.playMoves castleGame).bind fun g =>
      (g.makeMove "WKG" "up" 1).bind fun r =>
        (r.state.playMoves [("BP1", "down", 1), ("WKG", "down", 1), ("BP1", "down", 1)]).bind
          fun g2 => (g2.makeMove "WKG" "castle-right" 1).map fun r2 =>
            !r.rejected && r2.rejected && decide (g.piecePositions "WKG" = some (7, 4)) &&
            decide (g.board.get 7 4 = some ⟨.WHITE, "WKG", "K", false, 0, .King⟩) &&
            decide (g2.piecePositions "WKG" = some (7, 4)) &&
            decide (g2.board.get 7 4 = some ⟨.WHITE, "WKG", "K", true, 0, .King⟩) &&
            decide (g2.board.get 7 5 = none) && decide (g2.board.get 7 6 = none) &&
            !g2.whiteRookRightMoved) = some true := by
  decide!

set_option maxRecDepth 1000000 in
/-- From the position after `castleGame`, `makeMove("WKG", "castle-right", 1)`
is accepted; the facts read off the states before and after. -/
theorem castle_accepted :
    ((Game.new.playMoves castleGame).bind fun g =>
      (g.makeMove "WKG" "castle-right" 1).map fun r =>
        !r.rejected && decide (g.piecePositions "WKG" = some (homeRow g.currentTurn, 4)) &&
        decide (g.currentTurn = .WHITE) &&
        decide (g.board.get 7 5 = none) && decide (g.board.get 7 6 = none) &&
        !g.whiteKingMoved && !g.whiteRookRightMoved &&
        decide (g.board.get 7 7 = some ⟨.WHITE, "WR2", "R", false, 5, .Rook⟩) &&
        decide (r.state.board.get 7 5 = some ⟨.WHITE, "WR2", "R", false, 5, .Rook⟩) &&
        decide (r.state.board.get 7 6 = some ⟨.WHITE, "WKG", "K", true, 0, .King⟩) &&
        decide (g.movesSinceCapture = 6) && decide (r.state.movesSinceCapture = 6) &&
        decide (allSquares.find? (Game.isKingAt g.board .WHITE) = some (7, 4))) = some true := by
  decide!

set_option maxRecDepth 1000000 in
/-- The position after `attackedPathGame`, evaluated. -/
theorem attacked_path_eval :
    ((Game.new.playMoves attackedPathGame).map fun g =>
      (Game.wouldBeInCheck g.board (7, 4) (7, 5) .WHITE).1 &&
      decide (g.board.get 7 5 = none) && decide (g.board.get 7 6 = none) &&
      !g.whiteKingMoved && !g.whiteRookRightMoved) = some true := by
  decide!

set_option maxRecDepth 1000000 in
/-- The position after `checkGame` and the `castle-right` call made on it,
evaluated. -/
theorem check_game_eval :
    ((Game.new.playMoves checkGame).bind fun g =>
      (g.makeMove "WKG" "castle-right" 1).map fun r =>
        !r.rejected && decide (g.currentTurn = .WHITE) &&
        decide (g.piecePositions "WKG" = some (7, 4)) &&
        decide (g.board.get 4 1 = some ⟨.BLACK, "BB2", "b", true, 3, .Bishop⟩) &&
        Game.isInCheck g.board .WHITE &&
        !(Game.wouldBeInCheck g.board (7, 4) (7, 4) .WHITE).1 &&
        (Game.canCastle g .WHITE true).1) = some true := by
  decide!

set_option maxRecDepth 1000000 in
/-- The position after `queensideGame` and the `castle-left` call made on it,
evaluated. -/
theorem queenside_game_eval :
    ((Game.new.playMoves queensideGame).bind fun g =>
      (g.makeMove "WKG" "castle-left" 1).map fun r =>
        !r.rejected && decide (g.currentTurn = .WHITE) &&
        decide (g.piecePositions "WKG" = some (7, 4)) &&
        decide (g.board.get 2 7 = some ⟨.BLACK, "BB2", "b", true, 3, .Bishop⟩) &&
        (Game.wouldBeInCheck g.board (7, 4) (7, 2) .WHITE).1 &&
        (Game.canCastle g .WHITE false).1 &&
        decide (r.state.board.get 7 2 = some ⟨.WHITE, "WKG", "K", true, 0, .King⟩) &&
        Game.isInCheck r.state.board .WHITE) = some true := by
  decide!

set_option maxRecDepth 1000000 in
/-- The call that follows the queenside castling after `queensideGame`: the
black bishop takes the square (7,2); evaluated. -/
theorem king_capture_eval :
    ((Game.new.playMoves (queensideGame ++ [("WKG", "castle-left", 1)])).bind fun g =>
      (g.makeMove "BB2" "slantleftdown" 5).map fun r =>
        !r.rejected && !r.gameOver &&
        decide (g.board.get 7 2 = some ⟨.WHITE, "WKG", "K", true, 0, .King⟩) &&
        decide (r.state.board.get 7 2 = some ⟨.BLACK, "BB2", "b", true, 3, .Bishop⟩) &&
        allSquares.all (fun s => !Game.isKingAt r.state.board .WHITE s)) = some true := by
  decide!

set_option maxRecDepth 1000000 in
/-- The position after `rookGame` and the call `makeMove("WR1", "left", 1)` made
on it, evaluated. -/
theorem rook_game_eval :
    ((Game.new.playMoves rookGame).bind fun g =>
      (g.makeMove "WR1" "left" 1).map fun r =>
        !r.rejected && !g.whiteRookRightMoved &&
        decide (g.piecePositions "WR1" = some (5, 7)) &&
        decide (g.board.get 5 7 = some ⟨.WHITE, "WR1", "R", true, 5, .Rook⟩) &&
        decide (g.board.get 7 7 = some ⟨.WHITE, "WR2", "R", false, 5, .Rook⟩) &&
        r.state.whiteRookRightMoved &&
        decide (r.state.board.get 7 7 = some ⟨.WHITE, "WR2", "R", false, 5, .Rook⟩)) =
      some true := by
  decide!

set_option maxRecDepth 1000000 in
/-- The state after the accepted `castle-right` that follows `castleGame`,
evaluated. -/
theorem castle_after_eval :
    ((Game.new.playMoves castleGame).bind fun g =>
      (g.makeMove "WKG" "castle-right" 1).map fun r =>
        !r.rejected && !r.gameOver &&
        decide (g.board.get 7 7 = some ⟨.WHITE, "WR2", "R", false, 5, .Rook⟩) &&
        decide (r.state.board.get 7 5 = some ⟨.WHITE, "WR2", "R", false, 5, .Rook⟩) &&
        decide (r.state.board.get 7 6 = some ⟨.WHITE, "WKG", "K", true, 0, .King⟩) &&
        r.state.whiteKingMoved && r.state.whiteRookRightMoved &&
        decide (g.movesSinceCapture = 6) && decide (r.state.movesSinceCapture = 6)) =
      some true := by
  decide!

/-! ## Claims C11 to C20: castling -/

/-- C11 (failing input): after `checkGame` White is to move with its king on
(7,4) and in check from the bishop on (4,1); the test of `canCastle` for the
king's own square, `wouldBeInCheck((7,4), (7,4), WHITE)`, answers `false`,
`canCastle(WHITE, kingside)` answers `true` and `makeMove("WKG", "castle-right",
1)` is accepted. -/
theorem castle_out_of_check :
    ∃ (g : Game) (r : MoveResult), Game.new.playMoves checkGame = some g ∧ Reachable g ∧
      g.currentTurn = .WHITE ∧ g.piecePositions "WKG" = some (7, 4) ∧
      Game.isInCheck g.board .WHITE = true ∧
      (Game.wouldBeInCheck g.board (7, 4) (7, 4) .WHITE).1 = false ∧
      (Game.canCastle g .WHITE true).1 = true ∧
      g.makeMove "WKG" "castle-right" 1 = some r ∧ r.rejected = false := by
  obtain ⟨g, r, hg, hr, h⟩ := bind_map_true _ _ _ check_game_eval
  simp only [Bool.and_eq_true, Bool.not_eq_true', decide_eq_true_eq] at h
  obtain ⟨⟨⟨⟨⟨⟨hacc, ht⟩, hi⟩, _⟩, hchk⟩, hw⟩, hcc⟩ := h
  exact ⟨g, r, hg, playMoves_reachable _ _ _ Reachable.start hg, ht, hi, hchk, hw, hcc, hr,
    hacc⟩

/-- C12 (failing input): after `queensideGame` White is to move with its king on
(7,4); relocating the king to (7,2) leaves it attacked by the bishop on (2,7),
yet `canCastle(WHITE, queenside)` answers `true`, `makeMove("WKG", "castle-left",
1)` is accepted and the white king on (7,2) is in check afterwards. -/
theorem queenside_castle_into_check :
    ∃ (g : Game) (r : MoveResult), Game.new.playMoves queensideGame = some g ∧ Reachable g ∧
      g.currentTurn = .WHITE ∧ g.piecePositions "WKG" = some (7, 4) ∧
      (Game.wouldBeInCheck g.board (7, 4) (7, 2) .WHITE).1 = true ∧
      (Game.canCastle g .WHITE false).1 = true ∧
      g.makeMove "WKG" "castle-left" 1 = some r ∧ r.rejected = false ∧
      Game.isInCheck r.state.board .WHITE = true := by
  obtain ⟨g, r, hg, hr, h⟩ := bind_map_true _ _ _ queenside_game_eval
  simp only [Bool.and_eq_true, Bool.not_eq_true', decide_eq_true_eq] at h
  obtain ⟨⟨⟨⟨⟨⟨⟨hacc, ht⟩, hi⟩, _⟩, hw⟩, hcc⟩, _⟩, hchk⟩ := h
  exact ⟨g, r, hg, playMoves_reachable _ _ _ Reachable.start hg, ht, hi, hw, hcc, hr, hacc,
    hchk⟩

/-- C13: `canCastle(c, kingside)` answers `false` when relocating the king from
its home square to column 5 or to column 6 of the home row leaves it attacked;
and after an accepted `castle-right` by the colour to move, whose king (the
first king of that colour in the scan of `findKing`) stands on its home square,
that colour is not in check on the resulting board, on which the piece that
stood on the corner stands on column 5. -/
theorem kingside_castle_safe (g : Game) :
    (∀ c : Color,
      ((Game.wouldBeInCheck g.board (homeRow c, 4) (homeRow c, 5) c).1 = true ∨
        (Game.wouldBeInCheck g.board (homeRow c, 4) (homeRow c, 6) c).1 = true) →
      (Game.canCastle g c true).1 = false) ∧
    (∀ (pieceCode : String) (steps : Int) (r : MoveResult),
      g.makeMove pieceCode "castle-right" steps = some r → r.rejected = false →
      g.piecePositions pieceCode = some (homeRow g.currentTurn, 4) →
      IsFirstKing g.board g.currentTurn (homeRow g.currentTurn, 4) →
      Game.isInCheck r.state.board g.currentTurn = false ∧
      ∃ rook, g.board.get (homeRow g.currentTurn) 7 = some rook ∧
        r.state.board.get (homeRow g.currentTurn) 5 = some rook) := by
  constructor
  · intro c hatt
    cases hcc : (Game.canCastle g c true).1
    · rfl
    · exfalso
      have h := (canCastle_true g c true hcc).2.2.2.2
      simp only [if_true, loopRange_4_6, List.mem_cons, List.mem_singleton, List.mem_nil_iff,
        or_false, forall_eq_or_imp, forall_eq] at h
      rw [wouldBeInCheck_fst, wouldBeInCheck_fst] at hatt
      rcases hatt with h5 | h6
      · rw [h.2.1] at h5; cases h5
      · rw [h.2.2] at h6; cases h6
  · intro pieceCode steps r hr hacc hhome hfirst
    obtain ⟨frm, king, hi, hget, hc, hk, hcc, hreq⟩ :=
      makeMove_accepted_castle g pieceCode "castle-right" steps (Or.inr rfl) r hr hacc
    rw [hhome] at hi
    cases hi
    simp only [decide_True] at hcc hreq
    obtain ⟨_, _, ⟨rook, hrook, hrk⟩, hempty, hsafe⟩ := canCastle_true g g.currentTurn true hcc
    simp only [if_true] at hrook
    simp only [if_true, loopRange_4_6, List.mem_cons, List.mem_singleton, List.mem_nil_iff,
      or_false, forall_eq_or_imp, forall_eq] at hsafe
    have h5 := hempty 5 (by simp [castleBetween])
    have h6 := hempty 6 (by simp [castleBetween])
    have hF : ∀ x y : Int, r.state.board.get x y =
        if x = homeRow g.currentTurn ∧ y = 4 then none
        else if x = homeRow g.currentTurn ∧ y = 6 then some { king with hasMoved := true }
        else if x = homeRow g.currentTurn ∧ y = 7 then none
        else if x = homeRow g.currentTurn ∧ y = 5 then some rook
        else g.board.get x y := by
      intro x y
      rw [hreq, finishMove_board, castle_board]
      simp only [if_true, hrook]
    refine ⟨castled_not_in_check g.board r.state.board g.currentTurn (homeRow g.currentTurn)
      (homeRow_cases _) king rook hget hk hc hfirst hrook hrk h5 h6 hsafe.2.1 hsafe.2.2 hF,
      rook, hrook, ?_⟩
    rw [hF]
    rcases homeRow_cases g.currentTurn with h | h <;> simp [h]

/-- Witness for C13: after `attackedPathGame` the relocation of the white king to
(7,5) is attacked and `canCastle(WHITE, kingside)` answers `false` although the
squares between are empty and the rights intact; after `castleGame` the accepted
`castle-right` leaves White not in check. -/
theorem kingside_castle_safe_witness :
    (∃ g : Game, Game.new.playMoves attackedPathGame = some g ∧
      g.board.get 7 5 = none ∧ g.board.get 7 6 = none ∧
      g.whiteKingMoved = false ∧ g.whiteRookRightMoved = false ∧
      (Game.wouldBeInCheck g.board (7, 4) (7, 5) .WHITE).1 = true ∧
      (Game.canCastle g .WHITE true).1 = false) ∧
    (∃ (g : Game) (r : MoveResult), Game.new.playMoves castleGame = some g ∧
      g.makeMove "WKG" "castle-right" 1 = some r ∧ r.rejected = false ∧
      g.piecePositions "WKG" = some (homeRow g.currentTurn, 4) ∧
      IsFirstKing g.board g.currentTurn (homeRow g.currentTurn, 4) ∧
      Game.isInCheck r.state.board g.currentTurn = false) := by
  constructor
  · obtain ⟨g, hg, h⟩ := map_true _ _ attacked_path_eval
    simp only [Bool.and_eq_true, Bool.not_eq_true', decide_eq_true_eq] at h
    obtain ⟨⟨⟨⟨hw, h5⟩, h6⟩, hk⟩, hrk⟩ := h
    exact ⟨g, hg, h5, h6, hk, hrk, hw, (kingside_castle_safe g).1 .WHITE (Or.inl hw)⟩
  · obtain ⟨g, r, hg, hr, h⟩ := bind_map_true _ _ _ castle_accepted
    simp only [Bool.and_eq_true, Bool.not_eq_true', decide_eq_true_eq] at h
    obtain ⟨⟨⟨⟨⟨⟨⟨⟨⟨⟨⟨⟨hacc, hhome⟩, ht⟩, _⟩, _⟩, _⟩, _⟩, _⟩, _⟩, _⟩, _⟩, _⟩, hfind⟩ := h
    have hfirst : IsFirstKing g.board g.currentTurn (homeRow g.currentTurn, 4) := by
      rw [ht]
      exact isFirstKing_of_find _ _ _ hfind
    exact ⟨g, r, hg, hr, hacc, hhome, hfirst,
      ((kingside_castle_safe g).2 "WKG" 1 r hr hacc hhome hfirst).1⟩

/-- C14: no call of `makeMove` resets a castling boolean; and once a king has
made an accepted move (normal or castling), after any further sequence of calls
every castling request naming a piece of that king's colour is rejected. -/
theorem castling_flags_sticky :
    (∀ (g : Game) (pieceCode direction : String) (steps : Int) (r : MoveResult),
      g.makeMove pieceCode direction steps = some r → FlagsKept g r.state) ∧
    (∀ (g g2 : Game) (pieceCode direction : String) (steps : Int) (r : MoveResult)
      (frm : Sq) (king : Piece),
      g.makeMove pieceCode direction steps = some r → r.rejected = false →
      g.piecePositions pieceCode = some frm → g.board.get frm.1 frm.2 = some king →
      king.kind = .King → Calls r.state g2 →
      ∀ (code2 dir2 : String) (steps2 : Int) (r2 : MoveResult) (frm2 : Sq) (p2 : Piece),
        (dir2 = "castle-left" ∨ dir2 = "castle-right") →
        g2.makeMove code2 dir2 steps2 = some r2 →
        g2.piecePositions code2 = some frm2 → g2.board.get frm2.1 frm2.2 = some p2 →
        p2.color = king.color → r2.rejected = true) := by
  refine ⟨makeMove_flagsKept, ?_⟩
  intro g g2 pieceCode direction steps r frm king hr hacc hi hget hk hcalls
    code2 dir2 steps2 r2 frm2 p2 hdir2 hr2 hi2 hget2 hcol2
  have hmoved : r.state.kingMoved king.color = true := by
    rcases makeMove_cases g pieceCode direction steps r hr with
      ⟨h, _⟩ | ⟨f, p, hf, hp, hc, _, _, _, _, hreq⟩ | ⟨f, p, hf, hp, hc, _, _, _, _, hreq⟩
    · rw [h] at hacc; cases hacc
    · rw [hi] at hf; cases hf
      rw [hget] at hp; cases hp
      rw [hreq, (finishMove_flags _ _).2.1, hc]
      exact (commitMove_flags g frm _ king).2 hk
    · rw [hi] at hf; cases hf
      rw [hget] at hp; cases hp
      rw [hreq, (finishMove_flags _ _).2.1, hc]
      exact (commitCastle_flags g frm king _).2.1
  have hmoved2 : g2.kingMoved king.color = true :=
    (calls_flagsKept hcalls).kingMoved king.color hmoved
  rcases makeMove_cases g2 code2 dir2 steps2 r2 hr2 with
    ⟨h, _⟩ | ⟨f, p, _, _, _, _, hv, _⟩ | ⟨f, p, hf, hp, hc, _, _, hcc, _, _⟩
  · exact h
  · rw [parseDirection_castle dir2 f steps2 hdir2] at hv
    exact absurd rfl (isValidMove_ne _ _ _ hv)
  · rw [hi2] at hf; cases hf
    rw [hget2] at hp; cases hp
    have := (canCastle_true g2 g2.currentTurn _ hcc).1
    rw [← hc, hcol2, hmoved2] at this
    cases this

/-- Witness for C14: after `castleGame` the white king steps up and, two calls
later, back to its home square; the `castle-right` request that follows is
rejected although (7,5) and (7,6) are empty and the right rook has not moved. -/
theorem castling_flags_sticky_witness :
    ∃ (g g2 : Game) (r r2 : MoveResult),
      Game.new.playMoves castleGame = some g ∧
      g.makeMove "WKG" "up" 1 = some r ∧ r.rejected = false ∧
      r.state.playMoves [("BP1", "down", 1), ("WKG", "down", 1), ("BP1", "down", 1)] = some g2 ∧
      g2.piecePositions "WKG" = some (7, 4) ∧
      g2.board.get 7 5 = none ∧ g2.board.get 7 6 = none ∧ g2.whiteRookRightMoved = false ∧
      g2.makeMove "WKG" "castle-right" 1 = some r2 ∧ r2.rejected = true ∧
      FlagsKept g r.state := by
  obtain ⟨g, hg, h1⟩ := bind_true _ _ king_round_trip
  obtain ⟨r, hr, h2⟩ := bind_true _ _ h1
  obtain ⟨g2, hg2, h3⟩ := bind_true _ _ h2
  obtain ⟨r2, hr2, h4⟩ := map_true _ _ h3
  simp only [Bool.and_eq_true, Bool.not_eq_true', decide_eq_true_eq] at h4
  obtain ⟨⟨⟨⟨⟨⟨⟨⟨hacc, _⟩, hi⟩, hget⟩, hi2⟩, hget2⟩, h5⟩, h6⟩, hflag⟩ := h4
  exact ⟨g, g2, r, r2, hg, hr, hacc, hg2, hi2, h5, h6, hflag, hr2,
    castling_flags_sticky.2 g g2 "WKG" "up" 1 r (7, 4) _ hr hacc hi hget rfl
      (playMoves_calls _ _ _ hg2) "WKG" "castle-right" 1 r2 (7, 4) _ (Or.inr rfl) hr2 hi2
      hget2 rfl,
    castling_flags_sticky.1 g "WKG" "up" 1 r hr⟩

/-- C15: `canCastle` answers `false` for a colour and side when a square
strictly between that colour's king home square and the corner of the side is
occupied, and every `makeMove` call with a castling direction is then rejected
for the colour to move. -/
theorem castle_blocked (g : Game) :
    (∀ (c : Color) (kingside : Bool),
      (∃ i ∈ castleBetween kingside, g.board.get (homeRow c) i ≠ none) →
      (Game.canCastle g c kingside).1 = false) ∧
    (∀ (pieceCode direction : String) (steps : Int) (r : MoveResult),
      g.makeMove pieceCode direction steps = some r →
      (direction = "castle-left" ∨ direction = "castle-right") →
      (∃ i ∈ castleBetween (decide (direction = "castle-right")),
        g.board.get (homeRow g.currentTurn) i ≠ none) →
      r.rejected = true) := by
  have h1 : ∀ (c : Color) (kingside : Bool),
      (∃ i ∈ castleBetween kingside, g.board.get (homeRow c) i ≠ none) →
      (Game.canCastle g c kingside).1 = false := by
    rintro c kingside ⟨i, hi, hocc⟩
    cases hcc : (Game.canCastle g c kingside).1
    · rfl
    · exact absurd ((canCastle_true g c kingside hcc).2.2.2.1 i hi) hocc
  refine ⟨h1, ?_⟩
  intro pieceCode direction steps r hr hdir hocc
  rcases makeMove_cases g pieceCode direction steps r hr with
    ⟨h, _⟩ | ⟨f, p, _, _, _, _, hv, _⟩ | ⟨f, p, _, _, _, _, _, hcc, _, _⟩
  · exact h
  · rw [parseDirection_castle direction f steps hdir] at hv
    exact absurd rfl (isValidMove_ne _ _ _ hv)
  · rw [h1 g.currentTurn _ hocc] at hcc
    cases hcc

set_option maxRecDepth 1000000 in
/-- Witness for C15, the scenario of the claim: from the new game, with the
bishop on (7,5), `castle-right` is rejected; after `castleGame`, with (7,5) and
(7,6) empty and the rights intact, the same request is accepted and king and
rook stand on (7,6) and (7,5). -/
theorem castle_blocked_witness :
    (∃ r, Game.new.makeMove "WKG" "castle-right" 1 = some r ∧ r.rejected = true) ∧
    (∃ (g : Game) (r : MoveResult), Game.new.playMoves castleGame = some g ∧
      g.board.get 7 5 = none ∧ g.board.get 7 6 = none ∧
      g.whiteKingMoved = false ∧ g.whiteRookRightMoved = false ∧
      g.makeMove "WKG" "castle-right" 1 = some r ∧ r.rejected = false ∧
      r.state.board.get 7 6 = some ⟨.WHITE, "WKG", "K", true, 0, .King⟩ ∧
      r.state.board.get 7 5 = some ⟨.WHITE, "WR2", "R", false, 5, .Rook⟩) := by
  constructor
  · obtain ⟨r, hr, _⟩ := new_castle_blocked
    exact ⟨r, hr, (castle_blocked Game.new).2 "WKG" "castle-right" 1 r hr (Or.inr rfl)
      ⟨5, by decide, by decide!⟩⟩
  · obtain ⟨g, r, hg, hr, h⟩ := bind_map_true _ _ _ castle_accepted
    simp only [Bool.and_eq_true, Bool.not_eq_true', decide_eq_true_eq] at h
    obtain ⟨⟨⟨⟨⟨⟨⟨⟨⟨⟨⟨⟨hacc, _⟩, _⟩, h5⟩, h6⟩, hk⟩, hrk⟩, _⟩, hr5⟩, hr6⟩, _⟩, _⟩, _⟩ := h
    exact ⟨g, r, hg, h5, h6, hk, hrk, hr, hacc, hr6, hr5⟩

/-- C16: an accepted castling by the colour to move whose king is indexed on its
home square `(r, 4)` puts the king on `(r, 6)` and the occupant of `(r, 7)` on
`(r, 5)` (kingside), or the king on `(r, 2)` and the occupant of `(r, 0)` on
`(r, 3)` (queenside), empties the home square and the corner, and changes no
other square. -/
theorem castle_relocates (g : Game) (pieceCode direction : String) (steps : Int)
    (hdir : direction = "castle-left" ∨ direction = "castle-right")
    (r : MoveResult) (hr : g.makeMove pieceCode direction steps = some r)
    (hacc : r.rejected = false)
    (hhome : g.piecePositions pieceCode = some (homeRow g.currentTurn, 4)) :
    ∃ king rook, g.board.get (homeRow g.currentTurn) 4 = some king ∧ king.kind = .King ∧
      king.color = g.currentTurn ∧
      r.state.board.get (homeRow g.currentTurn) 4 = none ∧
      (direction = "castle-right" →
        g.board.get (homeRow g.currentTurn) 7 = some rook ∧
        r.state.board.get (homeRow g.currentTurn) 6 = some { king with hasMoved := true } ∧
        r.state.board.get (homeRow g.currentTurn) 5 = some rook ∧
        r.state.board.get (homeRow g.currentTurn) 7 = none ∧
        ∀ x y : Int, ¬ (x = homeRow g.currentTurn ∧ (y = 4 ∨ y = 5 ∨ y = 6 ∨ y = 7)) →
          r.state.board.get x y = g.board.get x y) ∧
      (direction = "castle-left" →
        g.board.get (homeRow g.currentTurn) 0 = some rook ∧
        r.state.board.get (homeRow g.currentTurn) 2 = some { king with hasMoved := true } ∧
        r.state.board.get (homeRow g.currentTurn) 3 = some rook ∧
        r.state.board.get (homeRow g.currentTurn) 0 = none ∧
        ∀ x y : Int, ¬ (x = homeRow g.currentTurn ∧ (y = 0 ∨ y = 2 ∨ y = 3 ∨ y = 4)) →
          r.state.board.get x y = g.board.get x y) := by
  obtain ⟨frm, king, hi, hget, hc, hk, hcc, hreq⟩ :=
    makeMove_accepted_castle g pieceCode direction steps hdir r hr hacc
  rw [hhome] at hi
  cases hi
  obtain ⟨_, _, ⟨rook, hrook, _⟩, _, _⟩ := canCastle_true g g.currentTurn _ hcc
  have hb : ∀ x y : Int, r.state.board.get x y =
      (Game.commitCastle g (homeRow g.currentTurn, 4) king
        (decide (direction = "castle-right"))).board.get x y := by
    intro x y; rw [hreq, finishMove_board]
  refine ⟨king, rook, hget, hk, hc, ?_, ?_, ?_⟩
  · rw [hb, castle_board]; simp
  · intro hd
    subst hd
    simp only [decide_True, if_true] at hrook hb
    refine ⟨hrook, ?_, ?_, ?_, ?_⟩
    · rw [hb, castle_board]; simp
    · rw [hb, castle_board]; simp [hrook]
    · rw [hb, castle_board]; simp
    · intro x y hxy
      rw [hb, castle_board]
      simp only [if_true]
      have h4 : ¬ (x = homeRow g.currentTurn ∧ y = 4) := fun h => hxy ⟨h.1, Or.inl h.2⟩
      have h5 : ¬ (x = homeRow g.currentTurn ∧ y = 5) :=
        fun h => hxy ⟨h.1, Or.inr (Or.inl h.2)⟩
      have h6 : ¬ (x = homeRow g.currentTurn ∧ y = 6) :=
        fun h => hxy ⟨h.1, Or.inr (Or.inr (Or.inl h.2))⟩
      have h7 : ¬ (x = homeRow g.currentTurn ∧ y = 7) :=
        fun h => hxy ⟨h.1, Or.inr (Or.inr (Or.inr h.2))⟩
      rw [if_neg h4, if_neg h6, if_neg h7, if_neg h5]
  · intro hd
    subst hd
    have hdec : decide ("castle-left" = "castle-right") = false := by decide
    rw [hdec] at hrook hb
    simp only [Bool.false_eq_true, if_false] at hrook hb
    refine ⟨hrook, ?_, ?_, ?_, ?_⟩
    · rw [hb, castle_board]; simp
    · rw [hb, castle_board]; simp [hrook]
    · rw [hb, castle_board]; simp
    · intro x y hxy
      rw [hb, castle_board]
      simp only [Bool.false_eq_true, if_false]
      have h4 : ¬ (x = homeRow g.currentTurn ∧ y = 4) :=
        fun h => hxy ⟨h.1, Or.inr (Or.inr (Or.inr h.2))⟩
      have h2 : ¬ (x = homeRow g.currentTurn ∧ y = 2) :=
        fun h => hxy ⟨h.1, Or.inr (Or.inl h.2)⟩
      have h0 : ¬ (x = homeRow g.currentTurn ∧ y = 0) := fun h => hxy ⟨h.1, Or.inl h.2⟩
      have h3 : ¬ (x = homeRow g.currentTurn ∧ y = 3) :=
        fun h => hxy ⟨h.1, Or.inr (Or.inr (Or.inl h.2))⟩
      rw [if_neg h4, if_neg h2, if_neg h0, if_neg h3]

/-- Witness for C16: the accepted `castle-right` after `castleGame`. -/
theorem castle_relocates_witness :
    ∃ (g : Game) (r : MoveResult), Game.new.playMoves castleGame = some g ∧
      g.makeMove "WKG" "castle-right" 1 = some r ∧ r.rejected = false ∧
      g.piecePositions "WKG" = some (homeRow g.currentTurn, 4) ∧
      ∃ king rook, g.board.get (homeRow g.currentTurn) 4 = some king ∧
        g.board.get (homeRow g.currentTurn) 7 = some rook ∧
        r.state.board.get (homeRow g.currentTurn) 6 = some { king with hasMoved := true } ∧
        r.state.board.get (homeRow g.currentTurn) 5 = some rook ∧
        r.state.board.get (homeRow g.currentTurn) 4 = none ∧
        r.state.board.get (homeRow g.currentTurn) 7 = none := by
  obtain ⟨g, r, hg, hr, h⟩ := bind_map_true _ _ _ castle_accepted
  simp only [Bool.and_eq_true, Bool.not_eq_true', decide_eq_true_eq] at h
  obtain ⟨⟨⟨⟨⟨⟨⟨⟨⟨⟨⟨⟨hacc, hhome⟩, _⟩, _⟩, _⟩, _⟩, _⟩, _⟩, _⟩, _⟩, _⟩, _⟩, _⟩ := h
  obtain ⟨king, rook, hk, _, _, h4, hright, _⟩ :=
    castle_relocates g "WKG" "castle-right" 1 (Or.inr rfl) r hr hacc hhome
  obtain ⟨h7, h6, h5, h7n, _⟩ := hright rfl
  exact ⟨g, r, hg, hr, hacc, hhome, king, rook, hk, h7, h6, h5, h4, h7n⟩

/-- C17 (failing input): after `castleGame` the call `makeMove("WKG",
"castle-right", 1)` is accepted and sets White's king-moved and right-rook-moved
booleans and the king's `hasMoved`, but the rook it relocated from (7,7) to
(7,5) still has `hasMoved = false`. -/
theorem castled_rook_not_marked :
    ∃ (g : Game) (r : MoveResult) (rook : Piece),
      Game.new.playMoves castleGame = some g ∧
      g.makeMove "WKG" "castle-right" 1 = some r ∧ r.rejected = false ∧
      g.board.get 7 7 = some rook ∧ r.state.board.get 7 5 = some rook ∧
      rook.kind = .Rook ∧ rook.hasMoved = false ∧
      (∃ king, r.state.board.get 7 6 = some king ∧ king.kind = .King ∧
        king.hasMoved = true) ∧
      r.state.whiteKingMoved = true ∧ r.state.whiteRookRightMoved = true := by
  obtain ⟨g, r, hg, hr, h⟩ := bind_map_true _ _ _ castle_after_eval
  simp only [Bool.and_eq_true, Bool.not_eq_true', decide_eq_true_eq] at h
  obtain ⟨⟨⟨⟨⟨⟨⟨⟨hacc, _⟩, h7⟩, h5⟩, h6⟩, hk⟩, hrk⟩, _⟩, _⟩ := h
  exact ⟨g, r, _, hg, hr, hacc, h7, h5, rfl, rfl, ⟨_, h6, rfl, rfl⟩, hk, hrk⟩

/-- C18 (failing input): the state after `queensideGame`, White's accepted
`castle-left` and Black's accepted `makeMove("BB2", "slantleftdown", 5)` is
reachable from the new game by calls none of which reported game over, and its
board holds no white king: the bishop took the king on (7,2). -/
theorem king_captured :
    ∃ (g : Game) (r : MoveResult),
      Game.new.playMoves (queensideGame ++ [("WKG", "castle-left", 1)]) = some g ∧
      g.makeMove "BB2" "slantleftdown" 5 = some r ∧ r.rejected = false ∧
      r.gameOver = false ∧ Reachable r.state ∧
      (∃ king, g.board.get 7 2 = some king ∧ king.kind = .King ∧ king.color = .WHITE) ∧
      (∃ q, r.state.board.get 7 2 = some q ∧ q.kind = .Bishop ∧ q.color = .BLACK) ∧
      ∀ (x y : Int) (p : Piece), r.state.board.get x y = some p →
        ¬ (p.kind = .King ∧ p.color = .WHITE) := by
  obtain ⟨g, r, hg, hr, h⟩ := bind_map_true _ _ _ king_capture_eval
  simp only [Bool.and_eq_true, Bool.not_eq_true', decide_eq_true_eq, List.all_eq_true] at h
  obtain ⟨⟨⟨⟨hacc, hover⟩, hk⟩, hq⟩, hnone⟩ := h
  refine ⟨g, r, hg, hr, hacc, hover,
    Reachable.call g _ _ _ r (playMoves_reachable _ _ _ Reachable.start hg) hr hover,
    ⟨_, hk, rfl, rfl⟩, ⟨_, hq, rfl, rfl⟩, ?_⟩
  intro x y p hp hking
  have hmem : ((x, y) : Sq) ∈ allSquares := (mem_allSquares (x, y)).2 (Board.onBoard_of_get hp)
  have h1 := hnone (x, y) hmem
  have h2 := (isKingAt_iff r.state.board .WHITE (x, y)).2 ⟨p, hp, hking.1, hking.2⟩
  rw [h2] at h1
  cases h1

/-- C19 (failing input): after `rookGame` White's right-rook-moved boolean is
`false`, the right rook WR2 stands unmoved on (7,7) and the left rook WR1 stands
on (5,7); the accepted call `makeMove("WR1", "left", 1)`, a move that starts on
(5,7), sets the right-rook-moved boolean while WR2 is still unmoved on (7,7). -/
theorem rook_flag_by_column :
    ∃ (g : Game) (r : MoveResult), Game.new.playMoves rookGame = some g ∧ Reachable g ∧
      g.whiteRookRightMoved = false ∧ g.piecePositions "WR1" = some (5, 7) ∧
      g.makeMove "WR1" "left" 1 = some r ∧ r.rejected = false ∧
      r.state.whiteRookRightMoved = true ∧
      ∃ rook, r.state.board.get 7 7 = some rook ∧ rook.name = "WR2" ∧
        rook.hasMoved = false := by
  obtain ⟨g, r, hg, hr, h⟩ := bind_map_true _ _ _ rook_game_eval
  simp only [Bool.and_eq_true, Bool.not_eq_true', decide_eq_true_eq] at h
  obtain ⟨⟨⟨⟨⟨⟨hacc, hflag⟩, hi⟩, _⟩, _⟩, hflag2⟩, h7⟩ := h
  exact ⟨g, r, hg, playMoves_reachable _ _ _ Reachable.start hg, hflag, hi, hr, hacc, hflag2,
    _, h7, rfl, rfl⟩

/-- C20 (failing input): after `castleGame` the counter `movesSinceCapture` is
6; the accepted call `makeMove("WKG", "castle-right", 1)` leaves it at 6, not
7. -/
theorem castling_counter_unchanged :
    ∃ (g : Game) (r : MoveResult), Game.new.playMoves castleGame = some g ∧
      g.makeMove "WKG" "castle-right" 1 = some r ∧ r.rejected = false ∧
      g.movesSinceCapture = 6 ∧ r.state.movesSinceCapture = 6 ∧
      r.state.movesSinceCapture ≠ g.movesSinceCapture + 1 := by
  obtain ⟨g, r, hg, hr, h⟩ := bind_map_true _ _ _ castle_after_eval
  simp only [Bool.and_eq_true, Bool.not_eq_true', decide_eq_true_eq] at h
  obtain ⟨⟨⟨⟨⟨⟨⟨⟨hacc, _⟩, _⟩, _⟩, _⟩, _⟩, _⟩, hc⟩, hc2⟩ := h
  refine ⟨g, r, hg, hr, hacc, hc, hc2, ?_⟩
  rw [hc, hc2]
  decide

/-! ## The lines `makeMove` writes, and `isPathClear` on aligned squares -/

theorem finishMove_output (g : Game) (out : List Message) (m : Message)
    (hm : m ∈ (Game.finishMove g out).output) :
    m ∈ out ∨ m = .check ∨ (∃ c, m = .checkmate c) ∨ m = .stalemate ∨ m = .fiftyMoveDraw := by
  unfold Game.finishMove at hm
  simp only at hm
  split at hm <;> split at hm <;> (try split at hm) <;>
    simp only [List.mem_append, List.mem_singleton] at hm <;> aesop

theorem commitMove_output (g : Game) (frm dst : Sq) (piece : Piece) (m : Message)
    (hm : m ∈ (Game.commitMove g frm dst piece).2) : ∃ n t, m = .captured n t := by
  unfold Game.commitMove at hm
  simp only at hm
  cases hg : g.board.get dst.1 dst.2 with
  | none => rw [hg] at hm; simp at hm
  | some q =>
    rw [hg] at hm
    simp only [List.mem_singleton] at hm
    exact ⟨_, _, hm⟩

/-- No call of `makeMove` writes the line "Path blocked!". -/
theorem makeMove_never_pathBlocked (g : Game) (pieceCode direction : String) (steps : Int)
    (r : MoveResult) (hr : g.makeMove pieceCode direction steps = some r) :
    Message.pathBlocked ∉ r.output := by
  intro hmem
  cases hi : g.piecePositions pieceCode with
  | none =>
    have h : g.makeMove pieceCode direction steps =
        some ⟨false, [.pieceNotFound pieceCode], g⟩ := by
      unfold Game.makeMove; simp only [hi]
    rw [h] at hr; cases hr
    simp at hmem
  | some frm =>
    cases hget : g.board.get frm.1 frm.2 with
    | none =>
      have h : g.makeMove pieceCode direction steps = none := by
        unfold Game.makeMove; simp only [hi, hget]
      rw [h] at hr; cases hr
    | some piece =>
      by_cases hc : piece.color ≠ g.currentTurn
      · rw [makeMove_notTurn g pieceCode direction steps frm piece hi hget hc] at hr
        cases hr
        simp at hmem
      · have hc2 : piece.color = g.currentTurn := by simpa using hc
        by_cases hnc : piece.kind = .King ∧
            (direction = "castle-left" ∨ direction = "castle-right")
        · rw [makeMove_castle g pieceCode direction steps frm piece hi hget hc2 hnc.1 hnc.2]
            at hr
          cases hr
          split at hmem
          · simp at hmem
          · rcases finishMove_output _ _ _ hmem with h | h | ⟨_, h⟩ | h | h
            · simp at h
            all_goals cases h
        · rw [makeMove_normal g pieceCode direction steps frm piece hi hget hnc] at hr
          cases hr
          rw [if_neg hc] at hmem
          split at hmem
          · simp at hmem
          · split at hmem
            · simp at hmem
            · split at hmem
              · simp at hmem
              · rcases finishMove_output _ _ _ hmem with h | h | ⟨_, h⟩ | h | h
                · obtain ⟨_, _, h2⟩ := commitMove_output _ _ _ _ _ h
                  cases h2
                all_goals cases h

set_option maxRecDepth 1000000 in
/-- The Scholar's mate, evaluated. -/
theorem scholars_eval :
    ((Game.new.playMoves scholarsOpening).bind fun g =>
      (g.makeMove "WQ" "slantleftup" 2).map fun r =>
        !r.rejected && r.gameOver &&
        decide (g.piecePositions "WQ" = some (3, 7)) &&
        decide (g.board.get 1 5 = some ⟨.BLACK, "BP6", "p", false, 1, .Pawn⟩) &&
        decide (r.state.board.get 1 5 = some ⟨.WHITE, "WQ", "Q", true, 9, .Queen⟩) &&
        decide (r.output = [.captured "BP6" "Pawn", .check, .checkmate .WHITE]) &&
        Game.isInCheck r.state.board .BLACK &&
        (Game.isCheckmate r.state.board .BLACK).1) = some true := by
  decide!

set_option maxRecDepth 1000000 in
/-- The call `makeMove("WR1", "up", 2)` on the new game, evaluated. -/
theorem blocked_rook_eval :
    ((Game.new.makeMove "WR1" "up" 2).map fun r =>
      decide (r.output = [.invalidMove]) &&
      decide (Game.new.piecePositions "WR1" = some (7, 0)) &&
      decide (Game.new.board.get 7 0 = some ⟨.WHITE, "WR1", "R", false, 5, .Rook⟩) &&
      decide (Game.new.board.get 6 0 = some ⟨.WHITE, "WP1", "P", false, 1, .Pawn⟩) &&
      decide (Game.new.board.get 5 0 = none)) = some true := by
  decide!

theorem pathLoop_mono (b : Board) (dr dc : Int) (dst : Sq) (n : Nat) :
    ∀ (r c : Int) (v : Bool), pathLoop b dr dc dst n r c = some v →
      pathLoop b dr dc dst (n + 1) r c = some v := by
  induction n with
  | zero => intro r c v h; simp [pathLoop] at h
  | succ n ih =>
    intro r c v h
    rw [pathLoop] at h ⊢
    split
    · rename_i h1
      rw [if_pos h1] at h
      split
      · rename_i h2
        rw [if_pos h2] at h
        split
        · rename_i h3
          rw [if_pos h3] at h
          exact h
        · rename_i h3
          rw [if_neg h3] at h
          exact ih _ _ _ h
      · rename_i h2
        rw [if_neg h2] at h
        cases h
    · rename_i h1
      rw [if_neg h1] at h
      exact h

theorem shape_aligned (p : Piece) (s k : Sq) (b : Board) (hkn : p.kind ≠ .Knight)
    (hv : p.isValidMove s k b = true) : Aligned s k := by
  obtain ⟨d, hd, K, hK, h1, h2⟩ := valid_aligned p s k b hkn hv
  obtain ⟨u1, u2, _⟩ := queenDirections_unit d hd
  unfold Aligned
  obtain ⟨a, ha, hac⟩ := abs_elim (s.1 - k.1)
  obtain ⟨e, he, hec⟩ := abs_elim (s.2 - k.2)
  rw [ha, he]
  rcases u1 with h | h | h <;> rcases u2 with h' | h' | h' <;> rw [h] at h1 <;>
    rw [h'] at h2 <;> omega

theorem stepCount_ray (r0 c0 dr dc : Int) (K : Nat)
    (hdr : dr = -1 ∨ dr = 0 ∨ dr = 1) (hdc : dc = -1 ∨ dc = 0 ∨ dc = 1)
    (hnz : dr ≠ 0 ∨ dc ≠ 0) :
    stepCount (r0, c0) (r0 + K * dr, c0 + K * dc) = K := by
  unfold stepCount
  simp only
  have e1 : r0 + (K : Int) * dr - r0 = K * dr := by ring
  have e2 : c0 + (K : Int) * dc - c0 = K * dc := by ring
  rw [e1, e2]
  rcases hdr with rfl | rfl | rfl <;> rcases hdc with rfl | rfl | rfl <;>
    simp [Int.natAbs_mul] at hnz ⊢

/-- On two aligned on-board squares the loop of `isPathClear` ends within a
budget of 7 tests without leaving the board, and tells whether the squares
strictly between are empty. -/
theorem isPathClear_spec (b : Board) (frm dst : Sq)
    (hf : onBoard frm.1 frm.2 = true) (hd : onBoard dst.1 dst.2 = true)
    (halign : Aligned frm dst) :
    stepCount frm dst ≤ 7 ∧ stepTowards frm dst (stepCount frm dst) = dst ∧
    ∃ v, pathLoop b (dirOf (dst.1 - frm.1)) (dirOf (dst.2 - frm.2)) dst 7
          (frm.1 + dirOf (dst.1 - frm.1)) (frm.2 + dirOf (dst.2 - frm.2)) = some v ∧
      Game.isPathClearRun b frm dst = some v ∧ Game.isPathClear b frm dst = v ∧
      (v = true ↔ ∀ j : Nat, 1 ≤ j → j < stepCount frm dst →
        b.get (stepTowards frm dst j).1 (stepTowards frm dst j).2 = none) := by
  have hrun : ∀ v, pathLoop b (dirOf (dst.1 - frm.1)) (dirOf (dst.2 - frm.2)) dst 7
      (frm.1 + dirOf (dst.1 - frm.1)) (frm.2 + dirOf (dst.2 - frm.2)) = some v →
      Game.isPathClearRun b frm dst = some v ∧ Game.isPathClear b frm dst = v := by
    intro v hv
    have h8 : Game.isPathClearRun b frm dst = some v := by
      unfold Game.isPathClearRun
      exact pathLoop_mono b _ _ dst 7 _ _ v hv
    refine ⟨h8, ?_⟩
    unfold Game.isPathClear
    rw [h8]; rfl
  by_cases he : frm = dst
  · subst he
    have hc : stepCount frm frm = 0 := by simp [stepCount]
    rw [hc]
    refine ⟨by omega, by simp [stepTowards], true, ?_⟩
    have hp : pathLoop b (dirOf (frm.1 - frm.1)) (dirOf (frm.2 - frm.2)) frm 7
        (frm.1 + dirOf (frm.1 - frm.1)) (frm.2 + dirOf (frm.2 - frm.2)) = some true := by
      simp [dirOf, pathLoop]
    refine ⟨hp, (hrun true hp).1, (hrun true hp).2, ?_⟩
    simp
  · have hq : Queen.isValidMove frm dst = true := by
      obtain ⟨r0, c0⟩ := frm
      obtain ⟨r1, c1⟩ := dst
      simp only [Queen.isValidMove, decide_eq_true_eq]
      simp only [Prod.mk.injEq] at he
      obtain ⟨a, ha, hac⟩ := abs_elim (r0 - r1)
      obtain ⟨e, he2, hec⟩ := abs_elim (c0 - c1)
      simp only [Aligned] at halign
      rw [ha, he2] at halign ⊢
      omega
    obtain ⟨d, hdm, K, hK, h1, h2⟩ := (queen_shape frm dst).1 hq
    obtain ⟨u1, u2, u3⟩ := queenDirections_unit d hdm
    obtain ⟨r0, c0⟩ := frm
    obtain ⟨r1, c1⟩ := dst
    simp only at h1 h2
    subst h1 h2
    simp only at hf hd hrun ⊢
    rw [stepCount_ray r0 c0 d.1 d.2 K u1 u2 u3]
    simp only [stepTowards, dirOf_ray r0 d.1 K hK u1, dirOf_ray c0 d.2 K hK u2] at hrun ⊢
    have hf2 := (onBoard_iff _ _).1 hf
    have hd2 := (onBoard_iff _ _).1 hd
    have hK7 : K ≤ 7 := by
      rcases u1 with h | h | h <;> rcases u2 with h' | h' | h' <;> rw [h, h'] at hd2 <;>
        omega
    refine ⟨hK7, trivial, ?_⟩
    have hon : ∀ j : Nat, j < K - 1 →
        onBoard (r0 + d.1 + j * d.1) (c0 + d.2 + j * d.2) = true := by
      intro j hj
      rw [onBoard_iff]
      rcases u1 with h | h | h <;> rcases u2 with h' | h' | h' <;> rw [h, h'] at hd2 ⊢ <;>
        omega
    obtain ⟨v, hv, hiff⟩ :=
      pathLoop_spec b d.1 d.2 u3 (K - 1) 7 (r0 + d.1) (c0 + d.2) (by omega) hon
    have e1 : r0 + d.1 + ((K - 1 : Nat) : Int) * d.1 = r0 + (K : Int) * d.1 := by
      have : ((K - 1 : Nat) : Int) = (K : Int) - 1 := by omega
      rw [this]; ring
    have e2 : c0 + d.2 + ((K - 1 : Nat) : Int) * d.2 = c0 + (K : Int) * d.2 := by
      have : ((K - 1 : Nat) : Int) = (K : Int) - 1 := by omega
      rw [this]; ring
    rw [e1, e2] at hv
    refine ⟨v, hv, (hrun v hv).1, (hrun v hv).2, hiff.trans ?_⟩
    constructor
    · intro h j hj1 hj2
      have := h (j - 1) (by omega)
      have e3 : r0 + d.1 + ((j - 1 : Nat) : Int) * d.1 = r0 + (j : Int) * d.1 := by
        have : ((j - 1 : Nat) : Int) = (j : Int) - 1 := by omega
        rw [this]; ring
      have e4 : c0 + d.2 + ((j - 1 : Nat) : Int) * d.2 = c0 + (j : Int) * d.2 := by
        have : ((j - 1 : Nat) : Int) = (j : Int) - 1 := by omega
        rw [this]; ring
      rwa [e3, e4] at this
    · intro h j hj
      have := h (j + 1) (by omega) (by omega)
      have e3 : r0 + ((j + 1 : Nat) : Int) * d.1 = r0 + d.1 + (j : Int) * d.1 := by
        push_cast; ring
      have e4 : c0 + ((j + 1 : Nat) : Int) * d.2 = c0 + d.2 + (j : Int) * d.2 := by
        push_cast; ring
      rwa [e3, e4] at this

/-! ## The unmoved king stays at home: an invariant of the reachable states -/

theorem Color.opposite_ne (c : Color) : c.opposite ≠ c := by
  cases c <;> simp [Color.opposite]

theorem Color.eq_or_opposite (m c : Color) : c = m ∨ c = m.opposite := by
  cases m <;> cases c <;> simp [Color.opposite]

theorem Color.opposite_opposite (c : Color) : c.opposite.opposite = c := by
  cases c <;> simp [Color.opposite]

theorem homeRow_opposite (c : Color) : homeRow c.opposite ≠ homeRow c := by
  cases c <;> simp [Color.opposite, homeRow]

theorem HomeInv.kingHome {g : Game} (h : HomeInv g) (c : Color) : KingHome g c := by
  cases c
  · exact h.1
  · exact h.2.1

/-- An unmoved king is the king that `findKing` finds. -/
theorem KingHome.first {g : Game} {c : Color} (h : KingHome g c)
    (hk : g.kingMoved c = false) : IsFirstKing g.board c (homeRow c, 4) := by
  obtain ⟨hking, huniq⟩ := h hk
  refine ⟨?_, hking, ?_⟩
  · rw [onBoard_iff]
    have := homeRow_cases c
    omega
  · rintro ⟨s1, s2⟩ ⟨p, hp, hpk, hpc⟩
    obtain ⟨e1, e2⟩ := huniq s1 s2 p hp hpk hpc
    subst e1 e2
    simp [rowMajorLt]

/-- A board change that leaves the home square of colour `c` alone and puts a
king of colour `c` on no new square keeps the king of colour `c` at home. -/
theorem kingHome_of_board {g s : Game} {c : Color} (h : KingHome g c)
    (hflag : s.kingMoved c = false → g.kingMoved c = false)
    (hhome : g.kingMoved c = false →
      s.board.get (homeRow c) 4 = g.board.get (homeRow c) 4)
    (hkings : g.kingMoved c = false → ∀ (x y : Int) (p : Piece), s.board.get x y = some p →
      p.kind = .King → p.color = c →
      ∃ (x2 y2 : Int) (p2 : Piece), g.board.get x2 y2 = some p2 ∧ p2.kind = .King ∧
        p2.color = c ∧ (x2 = homeRow c ∧ y2 = 4 → x = homeRow c ∧ y = 4)) :
    KingHome s c := by
  intro hs
  have hg := hflag hs
  obtain ⟨hking, huniq⟩ := h hg
  refine ⟨by rw [hhome hg]; exact hking, ?_⟩
  intro x y p hp hpk hpc
  obtain ⟨x2, y2, p2, hp2, hk2, hc2, himp⟩ := hkings hg x y p hp hpk hpc
  exact himp (huniq x2 y2 p2 hp2 hk2 hc2)

set_option maxRecDepth 1000000 in
theorem start_kings :
    (allSquares.all fun s =>
      (!Game.isKingAt startBoard .WHITE s || decide (s = (7, 4))) &&
      (!Game.isKingAt startBoard .BLACK s || decide (s = (0, 4)))) = true ∧
    Game.isKingAt startBoard .WHITE (7, 4) = true ∧
    Game.isKingAt startBoard .BLACK (0, 4) = true ∧
    Game.isInCheck startBoard .BLACK = false := by
  decide!

theorem homeInv_new : HomeInv Game.new := by
  obtain ⟨hall, hw, hb, hchk⟩ := start_kings
  rw [List.all_eq_true] at hall
  have huniq : ∀ (c : Color) (x y : Int) (p : Piece), startBoard.get x y = some p →
      p.kind = .King → p.color = c → x = homeRow c ∧ y = 4 := by
    intro c x y p hp hk hc
    have hmem : ((x, y) : Sq) ∈ allSquares :=
      (mem_allSquares (x, y)).2 (Board.onBoard_of_get hp)
    have h := hall (x, y) hmem
    have hking : Game.isKingAt startBoard c (x, y) = true :=
      (isKingAt_iff _ _ _).2 ⟨p, hp, hk, hc⟩
    cases c
    · rw [Bool.and_eq_true, hking] at h
      simpa [homeRow] using h.1
    · rw [Bool.and_eq_true, hking] at h
      simpa [homeRow] using h.2
  refine ⟨?_, ?_, ?_⟩
  · intro _
    rw [new_board]
    exact ⟨(isKingAt_iff _ _ _).1 hw, huniq .WHITE⟩
  · intro _
    rw [new_board]
    exact ⟨(isKingAt_iff _ _ _).1 hb, huniq .BLACK⟩
  · intro _
    rw [new_board]
    exact hchk

/-- The state after a commit whose `finishMove` did not report game over. -/
theorem finishMove_continue (g : Game) (out : List Message)
    (h : (Game.finishMove g out).gameOver = false) :
    (Game.finishMove g out).state = { g with currentTurn := g.currentTurn.opposite } := by
  rw [finishMove_state, h]
  simp

/-- An accepted normal move keeps the invariant. -/
theorem homeInv_normal (g : Game) (hinv : HomeInv g) (frm dst : Sq) (piece : Piece)
    (hget : g.board.get frm.1 frm.2 = some piece) (hcol : piece.color = g.currentTurn)
    (hv : Game.isValidMove g.board frm dst = true)
    (hchk : Game.isInCheck (g.board.relocate frm dst) g.currentTurn = false)
    (hover : (Game.finishMove (Game.commitMove g frm dst piece).1
      (Game.commitMove g frm dst piece).2).gameOver = false) :
    HomeInv (Game.finishMove (Game.commitMove g frm dst piece).1
      (Game.commitMove g frm dst piece).2).state := by
  have hst := finishMove_continue _ _ hover
  have hboard : (Game.finishMove (Game.commitMove g frm dst piece).1
      (Game.commitMove g frm dst piece).2).state.board =
      (g.board.set dst.1 dst.2 (some { piece with hasMoved := true })).set frm.1 frm.2 none := by
    rw [finishMove_board, commitMove_board]
  have hturn : (Game.finishMove (Game.commitMove g frm dst piece).1
      (Game.commitMove g frm dst piece).2).state.currentTurn = g.currentTurn.opposite := by
    rw [hst, commitMove_currentTurn]
  have hflags : ∀ c, (Game.finishMove (Game.commitMove g frm dst piece).1
      (Game.commitMove g frm dst piece).2).state.kingMoved c = false → g.kingMoved c = false := by
    intro c hs
    cases hg : g.kingMoved c
    · rfl
    · have := ((commitMove_flags g frm dst piece).1.trans
        (finishMove_flags (Game.commitMove g frm dst piece).1
          (Game.commitMove g frm dst piece).2).1).kingMoved c hg
      rw [this] at hs
      cases hs
  obtain ⟨hfb, hdb, p, hp, hdest, _, _⟩ := (isValidMove_iff _ _ _).1 hv
  rw [hget] at hp
  cases hp
  have hkh : ∀ c, KingHome (Game.finishMove (Game.commitMove g frm dst piece).1
      (Game.commitMove g frm dst piece).2).state c := by
    intro c
    -- the moving piece is not an unmoved king of colour `c`
    have hnot : (Game.finishMove (Game.commitMove g frm dst piece).1
        (Game.commitMove g frm dst piece).2).state.kingMoved c = false →
        ¬ (piece.kind = .King ∧ piece.color = c) := by
      rintro hs ⟨hk, hc⟩
      have := (commitMove_flags g frm dst piece).2 hk
      rw [← hcol, hc, ← (finishMove_flags _ _).2.1, hs] at this
      cases this
    by_cases hs : (Game.finishMove (Game.commitMove g frm dst piece).1
        (Game.commitMove g frm dst piece).2).state.kingMoved c = false
    swap
    · intro h; exact absurd h hs
    have hg := hflags c hs
    obtain ⟨⟨king, hking, hkk, hkc⟩, huniq⟩ := hinv.kingHome c hg
    have hfrm : ¬ (homeRow c = frm.1 ∧ 4 = frm.2) := by
      rintro ⟨e1, e2⟩
      rw [e1, e2, hget] at hking
      cases hking
      exact hnot hs ⟨hkk, hkc⟩
    have hdst : ¬ (homeRow c = dst.1 ∧ 4 = dst.2) := by
      rintro ⟨e1, e2⟩
      rw [e1, e2] at hking
      rcases Color.eq_or_opposite g.currentTurn c with e | e
      · exact hdest king hking (by rw [hkc, e, hcol])
      · have hgc : g.kingMoved g.currentTurn.opposite = false := by rw [← e]; exact hg
        have hsafe := hinv.2.2 hgc
        have hfirst : IsFirstKing g.board c dst := by
          have := (hinv.kingHome c).first hg
          rw [e1, e2] at this
          exact this
        have : Game.isInCheck g.board c = true :=
          (isInCheck_first_iff _ _).2 ⟨dst, hfirst, frm, piece, hget,
            by rw [hcol, e]; exact fun h => Color.opposite_ne _ h.symm, hv⟩
        rw [e] at this
        rw [hsafe] at this
        cases this
    apply kingHome_of_board (hinv.kingHome c) (fun _ => hg)
    · intro _
      rw [hboard, Board.get_set, Board.get_set]
      have h1 : ¬ (homeRow c = frm.1 ∧ 4 = frm.2 ∧ onBoard (homeRow c) 4 = true) :=
        fun h => hfrm ⟨h.1, h.2.1⟩
      have h2 : ¬ (homeRow c = dst.1 ∧ 4 = dst.2 ∧ onBoard (homeRow c) 4 = true) :=
        fun h => hdst ⟨h.1, h.2.1⟩
      rw [if_neg h1, if_neg h2]
    · intro _ x y q hq hqk hqc
      rw [hboard, Board.get_set, Board.get_set] at hq
      by_cases h1 : x = frm.1 ∧ y = frm.2 ∧ onBoard x y = true
      · rw [if_pos h1] at hq; cases hq
      · rw [if_neg h1] at hq
        by_cases h2 : x = dst.1 ∧ y = dst.2 ∧ onBoard x y = true
        · rw [if_pos h2] at hq
          cases hq
          exact absurd ⟨hqk, hqc⟩ (hnot hs)
        · rw [if_neg h2] at hq
          exact ⟨x, y, q, hq, hqk, hqc, id⟩
  refine ⟨hkh .WHITE, hkh .BLACK, ?_⟩
  intro _
  rw [hturn, Color.opposite_opposite, hboard, ← hcol,
    isInCheck_agree (relocate_agree_commit g.board frm dst piece hget), hcol]
  exact hchk

/-- An accepted castling keeps the invariant. -/
theorem homeInv_castle (g : Game) (hinv : HomeInv g) (frm : Sq) (piece : Piece)
    (kingside : Bool)
    (hget : g.board.get frm.1 frm.2 = some piece) (hcol : piece.color = g.currentTurn)
    (hk : piece.kind = .King)
    (hcc : (Game.canCastle g g.currentTurn kingside).1 = true)
    (hover : (Game.finishMove (Game.commitCastle g frm piece kingside) []).gameOver = false) :
    HomeInv (Game.finishMove (Game.commitCastle g frm piece kingside) []).state := by
  have hst := finishMove_continue _ _ hover
  have hturn : (Game.finishMove (Game.commitCastle g frm piece kingside) []).state.currentTurn =
      g.currentTurn.opposite := by
    rw [hst, commitCastle_currentTurn]
  have hmoved : (Game.finishMove (Game.commitCastle g frm piece kingside) []).state.kingMoved
      g.currentTurn = true := by
    rw [(finishMove_flags _ _).2.1]
    exact (commitCastle_flags g frm piece kingside).2.1
  have hflags : ∀ c, (Game.finishMove (Game.commitCastle g frm piece kingside) []).state.kingMoved
      c = false → g.kingMoved c = false := by
    intro c hs
    cases hg : g.kingMoved c
    · rfl
    · have := ((commitCastle_flags g frm piece kingside).1.trans
        (finishMove_flags (Game.commitCastle g frm piece kingside) []).1).kingMoved c hg
      rw [this] at hs
      cases hs
  -- the castling king stands on its home square
  have hgm : g.kingMoved g.currentTurn = false := (canCastle_true g _ _ hcc).1
  obtain ⟨e1, e2⟩ := ((hinv.kingHome g.currentTurn) hgm).2 frm.1 frm.2 piece hget hk hcol
  have hfrm : frm = (homeRow g.currentTurn, 4) := Prod.ext e1 e2
  subst hfrm
  have hboard : ∀ x y : Int,
      (Game.finishMove (Game.commitCastle g (homeRow g.currentTurn, 4) piece kingside)
        []).state.board.get x y =
      if x = homeRow g.currentTurn ∧ y = 4 then none
      else if x = homeRow g.currentTurn ∧ y = (if kingside then 6 else 2) then
        some { piece with hasMoved := true }
      else if x = homeRow g.currentTurn ∧ y = (if kingside then 7 else 0) then none
      else if x = homeRow g.currentTurn ∧ y = (if kingside then 5 else 3) then
        g.board.get (homeRow g.currentTurn) (if kingside then 7 else 0)
      else g.board.get x y := by
    intro x y
    rw [finishMove_board, castle_board]
  have hkh : ∀ c, KingHome (Game.finishMove
      (Game.commitCastle g (homeRow g.currentTurn, 4) piece kingside) []).state c := by
    intro c
    rcases Color.eq_or_opposite g.currentTurn c with e | e
    · intro hs
      rw [e, hmoved] at hs
      cases hs
    · have hrow : homeRow c ≠ homeRow g.currentTurn := by
        rw [e]; exact homeRow_opposite _
      apply kingHome_of_board (hinv.kingHome c) (hflags c)
      · intro _
        rw [hboard]
        rw [if_neg (fun h => hrow h.1), if_neg (fun h => hrow h.1),
          if_neg (fun h => hrow h.1), if_neg (fun h => hrow h.1)]
      · intro hg x y q hq hqk hqc
        rw [hboard] at hq
        by_cases h1 : x = homeRow g.currentTurn ∧ y = 4
        · rw [if_pos h1] at hq; cases hq
        · rw [if_neg h1] at hq
          by_cases h2 : x = homeRow g.currentTurn ∧ y = (if kingside then 6 else 2)
          · rw [if_pos h2] at hq
            cases hq
            simp only at hqc
            rw [hcol, e] at hqc
            exact absurd hqc.symm (Color.opposite_ne _)
          · rw [if_neg h2] at hq
            by_cases h3 : x = homeRow g.currentTurn ∧ y = (if kingside then 7 else 0)
            · rw [if_pos h3] at hq; cases hq
            · rw [if_neg h3] at hq
              by_cases h4 : x = homeRow g.currentTurn ∧ y = (if kingside then 5 else 3)
              · rw [if_pos h4] at hq
                exact ⟨_, _, q, hq, hqk, hqc, fun h => absurd h.1.symm hrow⟩
              · rw [if_neg h4] at hq
                exact ⟨x, y, q, hq, hqk, hqc, id⟩
  refine ⟨hkh .WHITE, hkh .BLACK, ?_⟩
  intro h
  rw [hturn, Color.opposite_opposite, hmoved] at h
  cases h

/-- One call of `makeMove` that does not report game over keeps the
invariant. -/
theorem homeInv_step (g : Game) (hinv : HomeInv g) (pieceCode direction : String)
    (steps : Int) (r : MoveResult) (hr : g.makeMove pieceCode direction steps = some r)
    (hover : r.gameOver = false) : HomeInv r.state := by
  rcases makeMove_cases g pieceCode direction steps r hr with
    ⟨_, h, _⟩ | ⟨frm, piece, _, hget, hcol, _, hv, hchk, _, hreq⟩ |
    ⟨frm, piece, _, hget, hcol, hk, _, hcc, _, hreq⟩
  · rw [h]; exact hinv
  · rw [hreq] at hover ⊢
    exact homeInv_normal g hinv frm _ piece hget hcol hv hchk hover
  · rw [hreq] at hover ⊢
    exact homeInv_castle g hinv frm piece _ hget hcol hk hcc hover

/-- The invariant holds in every state reachable from the new game. -/
theorem homeInv_reachable {g : Game} (h : Reachable g) : HomeInv g := by
  induction h with
  | start => exact homeInv_new
  | call g1 code dir steps r _ hr hover ih => exact homeInv_step g1 ih code dir steps r hr hover

/-- In a reachable state the rook that `canCastle` accepts for the kingside is a
rook of the castling colour: an enemy rook on the corner would attack the king
on column 5, which `canCastle` tests. -/
theorem kingside_rook_own (g : Game) (h : Reachable g) (c : Color)
    (hcc : (Game.canCastle g c true).1 = true) :
    ∃ rook, g.board.get (homeRow c) 7 = some rook ∧ rook.kind = .Rook ∧ rook.color = c := by
  obtain ⟨hk, _, ⟨rook, hrook, hrk⟩, hempty, hsafe⟩ := canCastle_true g c true hcc
  simp only [if_true] at hrook
  simp only [if_true, loopRange_4_6, List.mem_cons, List.mem_singleton, List.mem_nil_iff,
    or_false, forall_eq_or_imp, forall_eq] at hsafe
  have hkh := (homeInv_reachable h).kingHome c
  obtain ⟨⟨king, hking, hkk, hkc⟩, _⟩ := hkh hk
  refine ⟨rook, hrook, hrk, ?_⟩
  by_contra hne
  have := enemy_corner_rook_checks g.board c (homeRow c) (homeRow_cases c) king rook hking hkk
    hkc (hkh.first hk) hrook hrk hne (hempty 6 (by simp [castleBetween]))
  rw [hsafe.2.1] at this
  cases this

set_option maxRecDepth 1000000 in
/-- The position after `cornerGame` and the `castle-left` call made on it,
evaluated. -/
theorem corner_game_eval :
    ((Game.new.playMoves cornerGame).bind fun g =>
      (g.makeMove "WKG" "castle-left" 1).map fun r =>
        !r.rejected && decide (g.currentTurn = .WHITE) &&
        !g.whiteKingMoved && !g.whiteRookLeftMoved &&
        decide (g.board.get 7 0 = some ⟨.BLACK, "BR1", "r", true, 5, .Rook⟩) &&
        (Game.canCastle g .WHITE false).1 &&
        decide (r.state.board.get 7 3 = some ⟨.BLACK, "BR1", "r", true, 5, .Rook⟩) &&
        decide (r.state.board.get 7 2 = some ⟨.WHITE, "WKG", "K", true, 0, .King⟩)) =
      some true := by
  decide!

/-! ## The callers of `isPathClear` with their calls kept as calls -/

/-- A call of `isPathClear` has a result exactly on the pairs it is meant for,
and the result is the value of `Game.isPathClear`. -/
theorem isPathClearCall_some (b : Board) (frm dst : Sq) (v : Bool) :
    Game.isPathClearCall b frm dst = some v ↔
      onBoard frm.1 frm.2 = true ∧ onBoard dst.1 dst.2 = true ∧ Aligned frm dst ∧
        Game.isPathClear b frm dst = v := by
  unfold Game.isPathClearCall
  split
  · rename_i h
    obtain ⟨_, _, w, _, hw, hw2, _⟩ := isPathClear_spec b frm dst h.1 h.2.1 h.2.2
    rw [hw, hw2]
    constructor
    · intro e
      exact ⟨h.1, h.2.1, h.2.2, by simpa using e⟩
    · rintro ⟨_, _, _, e⟩
      rw [e]
  · rename_i h
    constructor
    · intro e; cases e
    · rintro ⟨h1, h2, h3, _⟩
      exact absurd ⟨h1, h2, h3⟩ h

theorem isPathClearCall_eq (b : Board) (frm dst : Sq) (hf : onBoard frm.1 frm.2 = true)
    (hd : onBoard dst.1 dst.2 = true) (ha : Aligned frm dst) :
    Game.isPathClearCall b frm dst = some (Game.isPathClear b frm dst) :=
  (isPathClearCall_some b frm dst _).2 ⟨hf, hd, ha, rfl⟩

theorem attacksRun_eq (b : Board) (color : Color) (kingPos sq : Sq)
    (hk : onBoard kingPos.1 kingPos.2 = true) (hs : onBoard sq.1 sq.2 = true) :
    Game.attacksRun b color kingPos sq = some (Game.attacks b color kingPos sq) := by
  unfold Game.attacksRun Game.attacks
  cases hg : b.get sq.1 sq.2 with
  | none => rfl
  | some p =>
    simp only
    by_cases hc : p.color ≠ color
    · rw [if_pos hc]
      cases hv : p.isValidMove sq kingPos b
      · simp [hc]
      · by_cases hkn : p.kind = .Knight
        · simp [hc, hkn]
        · rw [isPathClearCall_eq b sq kingPos hs hk (shape_aligned p sq kingPos b hkn hv)]
          simp [hc, hkn]
    · rw [if_neg hc]
      simp [hc]

theorem attackLoop_eq (b : Board) (color : Color) (kingPos : Sq)
    (hk : onBoard kingPos.1 kingPos.2 = true) (l : List Sq)
    (hl : ∀ sq ∈ l, onBoard sq.1 sq.2 = true) :
    Game.attackLoop b color kingPos l = some (l.any (Game.attacks b color kingPos)) := by
  induction l with
  | nil => rfl
  | cons sq rest ih =>
    rw [Game.attackLoop, attacksRun_eq b color kingPos sq hk (hl sq (List.mem_cons_self _ _)),
      List.any_cons]
    cases Game.attacks b color kingPos sq
    · simp only [Bool.false_or]
      exact ih (fun s hs => hl s (List.mem_cons_of_mem _ hs))
    · rfl

/-- `isInCheck` has a result on every board: each call of `isPathClear` it makes
is made on an aligned pair of on-board squares. -/
theorem isInCheckRun_eq (b : Board) (color : Color) :
    Game.isInCheckRun b color = some (Game.isInCheck b color) := by
  unfold Game.isInCheckRun Game.isInCheck
  simp only
  split
  · rfl
  · rename_i h
    rcases findKing_cases b color with hk | ⟨hk, _⟩
    · exact attackLoop_eq b color _ hk.1 allSquares (fun sq hsq => (mem_allSquares sq).1 hsq)
    · rw [hk] at h; exact absurd rfl h

/-- `Game::isValidMove` has a result on every board and pair of squares. -/
theorem isValidMoveRun_eq (b : Board) (frm dst : Sq) :
    Game.isValidMoveRun b frm dst = some (Game.isValidMove b frm dst) := by
  unfold Game.isValidMoveRun Game.isValidMove
  by_cases hb : frm.1 < 0 ∨ frm.1 ≥ 8 ∨ frm.2 < 0 ∨ frm.2 ≥ 8 ∨
      dst.1 < 0 ∨ dst.1 ≥ 8 ∨ dst.2 < 0 ∨ dst.2 ≥ 8
  · rw [if_pos hb, if_pos hb]
  · rw [if_neg hb, if_neg hb]
    have hf : onBoard frm.1 frm.2 = true := by rw [onBoard_iff]; omega
    have hd : onBoard dst.1 dst.2 = true := by rw [onBoard_iff]; omega
    cases hg : b.get frm.1 frm.2 with
    | none => rfl
    | some piece =>
      simp only
      have hpath : ∀ (hv : piece.isValidMove frm dst b = true),
          (if piece.isValidMove frm dst b = false then some false
            else if piece.kind ≠ .Knight then
              match Game.isPathClearCall b frm dst with
              | none => none
              | some clear => if clear = false then some false else some true
            else some true) =
          some (if piece.isValidMove frm dst b = false then false
            else if piece.kind ≠ .Knight ∧ Game.isPathClear b frm dst = false then false
            else true) := by
        intro hv
        by_cases hkn : piece.kind = .Knight
        · simp [hv, hkn]
        · rw [isPathClearCall_eq b frm dst hf hd (shape_aligned piece frm dst b hkn hv)]
          cases Game.isPathClear b frm dst <;> simp [hv, hkn]
      cases hdst : b.get dst.1 dst.2 with
      | none =>
        simp only [Bool.false_eq_true, if_false]
        by_cases hv : piece.isValidMove frm dst b = true
        · exact hpath hv
        · have hv2 : piece.isValidMove frm dst b = false := by simpa using hv
          simp [hv2]
      | some q =>
        simp only
        by_cases hc : q.color = piece.color
        · simp [hc]
        · simp only [hc, decide_False, Bool.false_eq_true, if_false]
          by_cases hv : piece.isValidMove frm dst b = true
          · exact hpath hv
          · have hv2 : piece.isValidMove frm dst b = false := by simpa using hv
            simp [hv2]

/-- `makeMove` has a result whenever the piece lookup has one: its call of
`Game::isValidMove` and its own call of `isPathClear` always return. -/
theorem makeMoveRun_eq (g : Game) (pieceCode direction : String) (steps : Int) :
    g.makeMoveRun pieceCode direction steps = g.makeMove pieceCode direction steps := by
  cases hi : g.piecePositions pieceCode with
  | none => unfold Game.makeMoveRun Game.makeMove; simp only [hi]
  | some frm =>
    cases hget : g.board.get frm.1 frm.2 with
    | none => unfold Game.makeMoveRun Game.makeMove; simp only [hi, hget]
    | some piece =>
      unfold Game.makeMoveRun Game.makeMove
      simp only [hi, hget]
      by_cases hc : piece.color ≠ g.currentTurn
      · rw [if_pos hc, if_pos hc]
      · rw [if_neg hc, if_neg hc]
        by_cases hnc : piece.kind = .King ∧
            (direction = "castle-left" ∨ direction = "castle-right")
        · rw [if_pos hnc, if_pos hnc]
        · rw [if_neg hnc, if_neg hnc]
          generalize Game.parseDirection direction frm steps = dst
          by_cases hb : dst.1 < 0 ∨ dst.1 ≥ 8 ∨ dst.2 < 0 ∨ dst.2 ≥ 8
          · rw [if_pos hb, if_pos hb]
          · rw [if_neg hb, if_neg hb, isValidMoveRun_eq]
            cases hv : Game.isValidMove g.board frm dst
            · simp
            · obtain ⟨hf, hd, p, hp, _, hs, hpath⟩ := (isValidMove_iff _ _ _).1 hv
              rw [hget] at hp
              cases hp
              by_cases hkn : piece.kind = .Knight
              · simp [hkn]
              · have hclear : Game.isPathClear g.board frm dst = true := by
                  rcases hpath with h | h
                  · exact absurd h hkn
                  · exact h
                rw [if_pos hkn,
                  isPathClearCall_eq g.board frm dst hf hd
                    (shape_aligned piece frm dst g.board hkn hs), hclear]
                simp

/-! ## Claims C21 to C27: scenarios, rejection reasons, pawns, knights, invariants -/

/-- C21: from the new game the six calls of `scholarsOpening` are accepted and
none reports game over; the seventh call `makeMove("WQ", "slantleftup", 2)` is
accepted, captures the pawn BP6 on (1,5), writes the capture, check and
"CHECKMATE! White wins!" lines and returns `true` (game over), and on the final
board `isInCheck(BLACK)` and `isCheckmate(BLACK)` are both true. -/
theorem scholars_mate :
    ∃ (g : Game) (r : MoveResult), Game.new.playMoves scholarsOpening = some g ∧
      g.makeMove "WQ" "slantleftup" 2 = some r ∧ r.rejected = false ∧ r.gameOver = true ∧
      (∃ q, g.board.get 1 5 = some q ∧ q.kind = .Pawn ∧ q.color = .BLACK ∧
        r.output = [.captured q.name "Pawn", .check, .checkmate .WHITE]) ∧
      (∃ q, r.state.board.get 1 5 = some q ∧ q.name = "WQ") ∧
      Game.isInCheck r.state.board .BLACK = true ∧
      (Game.isCheckmate r.state.board .BLACK).1 = true := by
  obtain ⟨g, r, hg, hr, h⟩ := bind_map_true _ _ _ scholars_eval
  simp only [Bool.and_eq_true, Bool.not_eq_true', decide_eq_true_eq] at h
  obtain ⟨⟨⟨⟨⟨⟨⟨hacc, hover⟩, _⟩, hp⟩, hq⟩, hout⟩, hchk⟩, hmate⟩ := h
  exact ⟨g, r, hg, hr, hacc, hover, ⟨_, hp, rfl, rfl, hout⟩, ⟨_, hq, rfl⟩, hchk, hmate⟩

/-- C22 (failing input): on the new game the rook WR1 on (7,0) is asked to go to
(5,0), an empty on-board square that the rook's shape rule accepts, with the
pawn WP1 on the square (6,0) between; `makeMove("WR1", "up", 2)` rejects the
call with "Invalid move!", not with "Path blocked!".  No call of `makeMove`
ever writes "Path blocked!". -/
theorem blocked_path_reported_invalid :
    (∃ (r : MoveResult) (rook : Piece), Game.new.makeMove "WR1" "up" 2 = some r ∧
      Game.new.piecePositions "WR1" = some (7, 0) ∧
      Game.new.board.get 7 0 = some rook ∧ rook.kind = .Rook ∧
      Game.parseDirection "up" (7, 0) 2 = (5, 0) ∧
      rook.isValidMove (7, 0) (5, 0) Game.new.board = true ∧
      Game.new.board.get 5 0 = none ∧ Game.new.board.get 6 0 ≠ none ∧
      r.output = [.invalidMove] ∧ Message.pathBlocked ∉ r.output) ∧
    (∀ (g : Game) (pieceCode direction : String) (steps : Int) (r : MoveResult),
      g.makeMove pieceCode direction steps = some r → Message.pathBlocked ∉ r.output) := by
  refine ⟨?_, makeMove_never_pathBlocked⟩
  obtain ⟨r, hr, h⟩ := map_true _ _ blocked_rook_eval
  simp only [Bool.and_eq_true, decide_eq_true_eq] at h
  obtain ⟨⟨⟨⟨hout, hi⟩, h7⟩, h6⟩, h5⟩ := h
  refine ⟨r, _, hr, hi, h7, rfl, by decide, by decide, h5, ?_, hout, ?_⟩
  · rw [h6]; simp
  · rw [hout]; simp

/-- C23: for a pawn, on-board origin and destination and any board,
`isValidMove` is true exactly when (a) the destination is the square one row
forward in the same column and is empty, or (b) it is the square two rows
forward in the same column, the pawn's `hasMoved` is false and the square one
row forward and the destination are both empty, or (c) it is one row forward and
one column to the side and holds a piece of the other colour (forward is row - 1
for White, row + 1 for Black).  So it is false for a destination that is not in
a forward row, for a same-column destination that is occupied and for an empty
destination in another column. -/
theorem pawn_isValidMove_iff (b : Board) (p : Piece) (frm dst : Sq) (hp : p.kind = .Pawn)
    (_hf : onBoard frm.1 frm.2 = true) (_hd : onBoard dst.1 dst.2 = true) :
    (p.isValidMove frm dst b = true ↔
      (dst.2 = frm.2 ∧ dst.1 = (if p.color = .WHITE then frm.1 - 1 else frm.1 + 1) ∧
        b.get dst.1 dst.2 = none) ∨
      (dst.2 = frm.2 ∧ dst.1 = (if p.color = .WHITE then frm.1 - 2 else frm.1 + 2) ∧
        p.hasMoved = false ∧
        b.get (if p.color = .WHITE then frm.1 - 1 else frm.1 + 1) frm.2 = none ∧
        b.get dst.1 dst.2 = none) ∨
      ((dst.2 = frm.2 - 1 ∨ dst.2 = frm.2 + 1) ∧
        dst.1 = (if p.color = .WHITE then frm.1 - 1 else frm.1 + 1) ∧
        ∃ q, b.get dst.1 dst.2 = some q ∧ q.color ≠ p.color)) ∧
    ((if p.color = .WHITE then frm.1 ≤ dst.1 else dst.1 ≤ frm.1) →
      p.isValidMove frm dst b = false) ∧
    (dst.2 = frm.2 → b.get dst.1 dst.2 ≠ none → p.isValidMove frm dst b = false) ∧
    (dst.2 ≠ frm.2 → b.get dst.1 dst.2 = none → p.isValidMove frm dst b = false) := by
  have hdisp : p.isValidMove frm dst b = Pawn.isValidMove p frm dst b := by
    unfold Piece.isValidMove; rw [hp]
  have hdir : Pawn.direction p.color = if p.color = .WHITE then -1 else 1 := rfl
  have key : p.isValidMove frm dst b = true ↔
      (dst.2 = frm.2 ∧ dst.1 = (if p.color = .WHITE then frm.1 - 1 else frm.1 + 1) ∧
        b.get dst.1 dst.2 = none) ∨
      (dst.2 = frm.2 ∧ dst.1 = (if p.color = .WHITE then frm.1 - 2 else frm.1 + 2) ∧
        p.hasMoved = false ∧
        b.get (if p.color = .WHITE then frm.1 - 1 else frm.1 + 1) frm.2 = none ∧
        b.get dst.1 dst.2 = none) ∨
      ((dst.2 = frm.2 - 1 ∨ dst.2 = frm.2 + 1) ∧
        dst.1 = (if p.color = .WHITE then frm.1 - 1 else frm.1 + 1) ∧
        ∃ q, b.get dst.1 dst.2 = some q ∧ q.color ≠ p.color) := by
    rw [hdisp, pawn_shape, hdir]
    obtain ⟨a, ha, hac⟩ := abs_elim (frm.2 - dst.2)
    rw [ha]
    by_cases hw : p.color = .WHITE
    · simp only [hw, if_true]
      have e1 : frm.1 + -1 = frm.1 - 1 := by ring
      have e2 : frm.1 + 2 * -1 = frm.1 - 2 := by ring
      rw [e1, e2]
      constructor
      · rintro (⟨h1, h2, h3⟩ | ⟨h1, h2, h3, h4, h5⟩ | ⟨h1, h2, h3, h4⟩)
        · exact Or.inl ⟨h1.symm, h2, h3⟩
        · exact Or.inr (Or.inl ⟨h1.symm, h3, h2, h5, h4⟩)
        · exact Or.inr (Or.inr ⟨by omega, h3, h4⟩)
      · rintro (⟨h1, h2, h3⟩ | ⟨h1, h2, h3, h4, h5⟩ | ⟨h1, h2, h3⟩)
        · exact Or.inl ⟨h1.symm, h2, h3⟩
        · exact Or.inr (Or.inl ⟨h1.symm, h3, h2, h5, h4⟩)
        · exact Or.inr (Or.inr ⟨by omega, by omega, h2, h3⟩)
    · simp only [hw, if_false]
      have e2 : frm.1 + 2 * 1 = frm.1 + 2 := by ring
      rw [e2]
      constructor
      · rintro (⟨h1, h2, h3⟩ | ⟨h1, h2, h3, h4, h5⟩ | ⟨h1, h2, h3, h4⟩)
        · exact Or.inl ⟨h1.symm, h2, h3⟩
        · exact Or.inr (Or.inl ⟨h1.symm, h3, h2, h5, h4⟩)
        · exact Or.inr (Or.inr ⟨by omega, h3, h4⟩)
      · rintro (⟨h1, h2, h3⟩ | ⟨h1, h2, h3, h4, h5⟩ | ⟨h1, h2, h3⟩)
        · exact Or.inl ⟨h1.symm, h2, h3⟩
        · exact Or.inr (Or.inl ⟨h1.symm, h3, h2, h5, h4⟩)
        · exact Or.inr (Or.inr ⟨by omega, by omega, h2, h3⟩)
  refine ⟨key, ?_, ?_, ?_⟩
  · intro hback
    cases hv : p.isValidMove frm dst b
    · rfl
    · exfalso
      by_cases hw : p.color = .WHITE
      · simp only [hw, if_true] at hback
        rcases key.1 hv with ⟨_, h, _⟩ | ⟨_, h, _⟩ | ⟨_, h, _⟩ <;>
          simp only [hw, if_true] at h <;> omega
      · simp only [hw, if_false] at hback
        rcases key.1 hv with ⟨_, h, _⟩ | ⟨_, h, _⟩ | ⟨_, h, _⟩ <;>
          simp only [hw, if_false] at h <;> omega
  · intro hcol hocc
    cases hv : p.isValidMove frm dst b
    · rfl
    · exfalso
      rcases key.1 hv with ⟨_, _, h⟩ | ⟨_, _, _, _, h⟩ | ⟨h, _⟩
      · exact hocc h
      · exact hocc h
      · omega
  · intro hcol hemp
    cases hv : p.isValidMove frm dst b
    · rfl
    · exfalso
      rcases key.1 hv with ⟨h, _⟩ | ⟨h, _⟩ | ⟨_, _, q, h, _⟩
      · exact hcol h
      · exact hcol h
      · rw [hemp] at h; cases h

/-- Witness for C23: on the start board the unmoved white pawn WP5 on (6,4) may
go two rows forward to (4,4), and may not go to the empty square (5,5). -/
theorem pawn_isValidMove_iff_witness :
    (⟨.WHITE, "WP5", "P", false, 1, .Pawn⟩ : Piece).isValidMove (6, 4) (4, 4) startBoard = true ∧
    (⟨.WHITE, "WP5", "P", false, 1, .Pawn⟩ : Piece).isValidMove (6, 4) (5, 5) startBoard =
      false :=
  ⟨(pawn_isValidMove_iff startBoard ⟨.WHITE, "WP5", "P", false, 1, .Pawn⟩ (6, 4) (4, 4) rfl
      (by decide) (by decide)).1.2
      (Or.inr (Or.inl ⟨rfl, by decide, rfl, by decide, by decide⟩)),
   (pawn_isValidMove_iff startBoard ⟨.WHITE, "WP5", "P", false, 1, .Pawn⟩ (6, 4) (5, 5) rfl
      (by decide) (by decide)).2.2.2 (by decide) (by decide)⟩

/-- C24: for a knight, an on-board origin and destination `d` and two boards
with the same content on `d`, `d` is in `Knight::getPossibleMoves` on one board
exactly when it is on the other, and with the knight on the origin of both
boards `Game::isValidMove(origin, d)` gives the same answer on both. -/
theorem knight_jump (knight : Piece) (hk : knight.kind = .Knight) (origin d : Sq)
    (ho : onBoard origin.1 origin.2 = true) (hd : onBoard d.1 d.2 = true)
    (b1 b2 : Board) (hagree : b1.get d.1 d.2 = b2.get d.1 d.2) :
    (d ∈ knight.getPossibleMoves origin b1 ↔ d ∈ knight.getPossibleMoves origin b2) ∧
    (d ∈ Knight.getPossibleMoves knight origin b1 ↔
      d ∈ Knight.getPossibleMoves knight origin b2) ∧
    (b1.get origin.1 origin.2 = some knight → b2.get origin.1 origin.2 = some knight →
      Game.isValidMove b1 origin d = Game.isValidMove b2 origin d) := by
  have hmem : d ∈ Knight.getPossibleMoves knight origin b1 ↔
      d ∈ Knight.getPossibleMoves knight origin b2 := by
    unfold Knight.getPossibleMoves
    rw [stepMoves_mem, stepMoves_mem, hagree]
  have hdisp : ∀ b, knight.getPossibleMoves origin b = Knight.getPossibleMoves knight origin b := by
    intro b; unfold Piece.getPossibleMoves; rw [hk]
  refine ⟨by rw [hdisp, hdisp]; exact hmem, hmem, ?_⟩
  intro h1 h2
  have hshape : ∀ b, knight.isValidMove origin d b = Knight.isValidMove origin d := by
    intro b; unfold Piece.isValidMove; rw [hk]
  rw [Bool.eq_iff_iff, isValidMove_iff, isValidMove_iff]
  constructor
  · rintro ⟨_, _, p, hp, hq, hs, _⟩
    rw [h1] at hp; cases hp
    refine ⟨ho, hd, knight, h2, ?_, ?_, Or.inl hk⟩
    · rw [← hagree]; exact hq
    · rw [hshape] at hs ⊢; exact hs
  · rintro ⟨_, _, p, hp, hq, hs, _⟩
    rw [h2] at hp; cases hp
    refine ⟨ho, hd, knight, h1, ?_, ?_, Or.inl hk⟩
    · rw [hagree]; exact hq
    · rw [hshape] at hs ⊢; exact hs

set_option maxRecDepth 100000 in
/-- Witness for C24: the knight WN1 on (7,1) and the destination (5,2), on the
start board and on the board that holds nothing but the knight. -/
theorem knight_jump_witness :
    ((5, 2) ∈ Knight.getPossibleMoves ⟨.WHITE, "WN1", "N", false, 3, .Knight⟩ (7, 1) startBoard ↔
      (5, 2) ∈ Knight.getPossibleMoves ⟨.WHITE, "WN1", "N", false, 3, .Knight⟩ (7, 1)
        (Board.empty.set 7 1 (some ⟨.WHITE, "WN1", "N", false, 3, .Knight⟩))) ∧
    Game.isValidMove startBoard (7, 1) (5, 2) =
      Game.isValidMove (Board.empty.set 7 1 (some ⟨.WHITE, "WN1", "N", false, 3, .Knight⟩))
        (7, 1) (5, 2) :=
  ⟨(knight_jump ⟨.WHITE, "WN1", "N", false, 3, .Knight⟩ rfl (7, 1) (5, 2) (by decide)
      (by decide) startBoard _ (by decide)).2.1,
   (knight_jump ⟨.WHITE, "WN1", "N", false, 3, .Knight⟩ rfl (7, 1) (5, 2) (by decide)
      (by decide) startBoard _ (by decide)).2.2 (by decide) (by decide)⟩

/-- C25 (failing input): after `cornerGame`, a state reachable from the new game
with White to move, `canCastle(WHITE, queenside)` answers `true` while the piece
on White's corner (7,0) is the black rook BR1; `makeMove("WKG", "castle-left",
1)` is accepted and relocates that black rook to (7,3).  For the kingside the
property holds in every reachable state. -/
theorem castle_with_enemy_rook :
    (∃ (g : Game) (r : MoveResult) (rook : Piece),
      Game.new.playMoves cornerGame = some g ∧ Reachable g ∧ g.currentTurn = .WHITE ∧
      g.whiteKingMoved = false ∧ g.whiteRookLeftMoved = false ∧
      (Game.canCastle g .WHITE false).1 = true ∧
      g.board.get 7 0 = some rook ∧ rook.kind = .Rook ∧ rook.color = .BLACK ∧
      g.makeMove "WKG" "castle-left" 1 = some r ∧ r.rejected = false ∧
      r.state.board.get 7 3 = some rook) ∧
    (∀ (g : Game) (c : Color), Reachable g → (Game.canCastle g c true).1 = true →
      ∃ rook, g.board.get (homeRow c) 7 = some rook ∧ rook.kind = .Rook ∧ rook.color = c) := by
  refine ⟨?_, fun g c h hcc => kingside_rook_own g h c hcc⟩
  obtain ⟨g, r, hg, hr, h⟩ := bind_map_true _ _ _ corner_game_eval
  simp only [Bool.and_eq_true, Bool.not_eq_true', decide_eq_true_eq] at h
  obtain ⟨⟨⟨⟨⟨⟨⟨hacc, ht⟩, hk⟩, hrl⟩, h0⟩, hcc⟩, h3⟩, _⟩ := h
  exact ⟨g, r, _, hg, playMoves_reachable _ _ _ Reachable.start hg, ht, hk, hrl, hcc, h0, rfl,
    rfl, hr, hacc, h3⟩

/-- C26: in every state reachable from the new game by `makeMove` calls none of
which reported game over, if `whiteKingMoved` is false then (7,4) holds a white
king, and no other square does; if `blackKingMoved` is false then (0,4) holds a
black king, and no other square does. -/
theorem unmoved_king_at_home (g : Game) (h : Reachable g) :
    (g.whiteKingMoved = false →
      (∃ p, g.board.get 7 4 = some p ∧ p.kind = .King ∧ p.color = .WHITE) ∧
      ∀ (x y : Int) (p : Piece), g.board.get x y = some p → p.kind = .King →
        p.color = .WHITE → x = 7 ∧ y = 4) ∧
    (g.blackKingMoved = false →
      (∃ p, g.board.get 0 4 = some p ∧ p.kind = .King ∧ p.color = .BLACK) ∧
      ∀ (x y : Int) (p : Piece), g.board.get x y = some p → p.kind = .King →
        p.color = .BLACK → x = 0 ∧ y = 4) :=
  ⟨(homeInv_reachable h).1, (homeInv_reachable h).2.1⟩

/-- Witness for C26: the state after `castleGame`, in which the white king has
not moved. -/
theorem unmoved_king_at_home_witness :
    ∃ g : Game, Game.new.playMoves castleGame = some g ∧ Reachable g ∧
      g.whiteKingMoved = false ∧
      ∃ p, g.board.get 7 4 = some p ∧ p.kind = .King ∧ p.color = .WHITE := by
  obtain ⟨g, r, hg, _, h⟩ := bind_map_true _ _ _ castle_accepted
  simp only [Bool.and_eq_true, Bool.not_eq_true', decide_eq_true_eq] at h
  obtain ⟨⟨⟨⟨⟨⟨⟨⟨⟨⟨⟨⟨_, _⟩, _⟩, _⟩, _⟩, hk⟩, _⟩, _⟩, _⟩, _⟩, _⟩, _⟩, _⟩ := h
  have hreach := playMoves_reachable _ _ _ Reachable.start hg
  exact ⟨g, hg, hreach, hk, ((unmoved_king_at_home g hreach).1 hk).1⟩

/-- C27: on on-board squares `frm` and `dst` that are equal or share a row,
column or diagonal, the loop of `isPathClear` ends within 7 tests of its
condition, reads only squares of the board (the run is `some v`), and returns
`true` exactly when every square strictly between the two is empty; and every
call of `isPathClear` made by `isInCheck`, by `Game::isValidMove` and by
`makeMove` is made on such a pair: with each call kept as a call that has a
result on such pairs only, `isInCheck` and `Game::isValidMove` have a result on
every input, the result of `Game.isInCheck` and `Game.isValidMove`, and
`makeMove` has the result of `Game.makeMove`. -/
theorem isPathClear_calls_aligned :
    (∀ (b : Board) (frm dst : Sq), onBoard frm.1 frm.2 = true → onBoard dst.1 dst.2 = true →
      Aligned frm dst →
      stepCount frm dst ≤ 7 ∧ stepTowards frm dst (stepCount frm dst) = dst ∧
      ∃ v, pathLoop b (dirOf (dst.1 - frm.1)) (dirOf (dst.2 - frm.2)) dst 7
            (frm.1 + dirOf (dst.1 - frm.1)) (frm.2 + dirOf (dst.2 - frm.2)) = some v ∧
        Game.isPathClearRun b frm dst = some v ∧ Game.isPathClear b frm dst = v ∧
        (v = true ↔ ∀ j : Nat, 1 ≤ j → j < stepCount frm dst →
          b.get (stepTowards frm dst j).1 (stepTowards frm dst j).2 = none)) ∧
    (∀ (b : Board) (frm dst : Sq) (v : Bool), Game.isPathClearCall b frm dst = some v ↔
      onBoard frm.1 frm.2 = true ∧ onBoard dst.1 dst.2 = true ∧ Aligned frm dst ∧
        Game.isPathClear b frm dst = v) ∧
    (∀ (b : Board) (color : Color),
      Game.isInCheckRun b color = some (Game.isInCheck b color)) ∧
    (∀ (b : Board) (frm dst : Sq),
      Game.isValidMoveRun b frm dst = some (Game.isValidMove b frm dst)) ∧
    (∀ (g : Game) (pieceCode direction : String) (steps : Int),
      g.makeMoveRun pieceCode direction steps = g.makeMove pieceCode direction steps) :=
  ⟨isPathClear_spec, isPathClearCall_some, isInCheckRun_eq, isValidMoveRun_eq, makeMoveRun_eq⟩

set_option maxRecDepth 1000000 in
/-- Witness for C27: on the start board the way of the rook from (7,0) to (5,0)
is blocked by the pawn on (6,0), and the call on this pair has the result
`false`; `isInCheck` returns `true` for the white king on (7,4) facing the black
rook on (4,4); `Game::isValidMove((7,0), (5,0))` returns `false`; and
`makeMove("WP5", "up", 2)` on the new game returns. -/
theorem isPathClear_calls_aligned_witness :
    Game.isPathClear startBoard (7, 0) (5, 0) = false ∧
    Game.isPathClearCall startBoard (7, 0) (5, 0) = some false ∧
    Game.isInCheckRun
      ((Board.empty.set 7 4 (some ⟨.WHITE, "WKG", "K", false, 0, .King⟩)).set 4 4
        (some ⟨.BLACK, "BR1", "r", true, 5, .Rook⟩)) .WHITE = some true ∧
    Game.isValidMoveRun startBoard (7, 0) (5, 0) = some false ∧
    ∃ r, Game.new.makeMoveRun "WP5" "up" 2 = some r ∧ r.rejected = false := by
  have h1 : Game.isPathClear startBoard (7, 0) (5, 0) = false := by
    obtain ⟨_, _, v, _, _, hv, hiff⟩ :=
      isPathClear_calls_aligned.1 startBoard (7, 0) (5, 0) (by decide) (by decide)
        (Or.inr (Or.inl rfl))
    rw [hv]
    cases v
    · rfl
    · have h := hiff.1 rfl 1 (by decide) (by decide)
      exact absurd h (by decide)
  refine ⟨h1, ?_, ?_, ?_, ?_⟩
  · exact (isPathClear_calls_aligned.2.1 startBoard (7, 0) (5, 0) false).2
      ⟨by decide, by decide, Or.inr (Or.inl rfl), h1⟩
  · rw [isPathClear_calls_aligned.2.2.1]
    decide
  · rw [isPathClear_calls_aligned.2.2.2.1]
    decide
  · obtain ⟨r, hr, hacc, _⟩ := new_pawn_advance
    exact ⟨r, by rw [isPathClear_calls_aligned.2.2.2.2]; exact hr, hacc⟩

end Chess
